import Mathlib

/-!
# roshell_graphics: canvas, rasteriser and perspective projection

A shallow embedding of `roshell_graphics.h`, `perspective_projection.h` and
`line_plotting.h`.

Modelling conventions

* `int` is `Int`.  Signed overflow is undefined behaviour in the source, so the
  model describes the executions in which no `int` operation overflows.
  C++ `/` and `%` on `int` are `Int.tdiv` and `Int.tmod` (truncation toward zero).
* A `float` is the rational number it holds.  The conversion of a `float` to `int` is
  truncation toward zero (`to_int`); it is undefined behaviour in the source when the
  truncated value is outside the range of `int`, as for an infinity, and the model describes
  the executions in which it is in range.  A division by zero, whose IEEE result is a NaN or
  an infinity, has no value in this model: the function returns `none`.
* Two arithmetics are used.  `round32` is the rounding of binary32 (round to nearest, ties
  to even, subnormal range included): `line_fl round32` and `PlotPoints_fl round32` apply it
  to the result of every `float` operation and are the functions as compiled.  `line`,
  `line_points`, `plotted`, `PlotPoints` and the projection functions take the results of
  the `float` operations exactly; `line` is `line_fl id AbsOverload.float_abs`
  (`line_fl_exact`).  The exact definitions serve the claims that stipulate exact arithmetic
  and those that the rounding does not affect.
* The call `abs(slope)` of `line` is unqualified.  `roshell_graphics.h` includes `<cstdlib>`
  and neither `<math.h>` nor `<stdlib.h>`, so compiled on its own with libstdc++ the call
  resolves to `int abs(int)` and truncates the slope; after `<math.h>` it resolves to
  `float abs(float)`.  `line_fl` takes the overload as a parameter (`AbsOverload`); `line`
  has `float abs(float)`.
* The terminal size comes from the `unsigned short` fields of `winsize`, so it is at most
  65535; the clamped screen coordinates are then binary32 values and the run
  `p2.first - p1.first` of a segment that is not vertical is not zero in binary32.
* `std::string` and `std::vector<int>` are lists; a subscript outside the
  container is undefined behaviour in the source and `none` in the model.
* Terminal output (`std::cout`) is not part of the state.
* The functions of `math.h` (`sqrt`, `sin`, `cos`, `asin`, `acos`) are not code of
  this repository; the definitions take them as a parameter (`Libm`).
* A matrix with a dynamic number of columns is the list of its columns.
* `PlotGraph` draws through `add_line` and `add_text`, which `roshell_graphics.h` does not
  declare; the model of `DrawAxis` and `PlotPoints` returns the calls they make, in order.
  The slope of `PlotPoints` is only compared with zero, so its division keeps the IEEE
  results of a division by zero (`FloatQuotient`).
-/

namespace roshell_graphics

/-- The pair of ints `std::pair<int, int>`. -/
structure Point where
  first : Int
  second : Int
deriving DecidableEq, Repr

/-- The data members of `RoshellGraphics` that the geometry and buffer functions use. -/
structure RoshellGraphics where
  term_height_ : Int
  term_width_ : Int
  buffer_ : List Char
  buffer_count_ : List Int
deriving DecidableEq, Repr

/-- Conversion of a floating value to `int`: the fractional part is discarded. -/
def to_int (q : ℚ) : Int := if 0 ≤ q then ⌊q⌋ else ⌈q⌉

namespace RoshellGraphics

/-- The table `count_to_char_map_` filled by the constructor; `operator[]` on a key that
is absent yields the value-initialised `char`. -/
def count_to_char_map_ (n : Int) : Char :=
  if n = 0 then ' '
  else if n = 1 then '.'
  else if n = 2 then ':'
  else if n = 3 then '*'
  else if n = 4 then '$'
  else if n = 5 then '%'
  else Char.ofNat 0

/-- `clear_buffer`: both buffers are reallocated with `term_height_ * term_width_` cells.
A negative length makes the `std::string` constructor throw. -/
def clear_buffer (g : RoshellGraphics) : Option RoshellGraphics :=
  let buffer_len := g.term_height_ * g.term_width_
  if 0 ≤ buffer_len then
    some { g with
      buffer_ := List.replicate buffer_len.toNat ' ',
      buffer_count_ := List.replicate buffer_len.toNat 0 }
  else none

/-- `fill_buff`: an explicit glyph is stored, a blank glyph increments the count. -/
def fill_buff (g : RoshellGraphics) (idx : Int) (c : Char) : Option RoshellGraphics :=
  if c ≠ ' ' then
    if 0 ≤ idx ∧ idx < g.buffer_.length then
      some { g with buffer_ := g.buffer_.set idx.toNat c }
    else none
  else
    if 0 ≤ idx ∧ idx < g.buffer_count_.length then
      some { g with
        buffer_count_ := g.buffer_count_.set idx.toNat (g.buffer_count_.getD idx.toNat 0 + 1) }
    else none

/-- `fix_frame`: natural frame to screen frame. -/
def fix_frame (g : RoshellGraphics) (p : Point) : Point :=
  { first := p.first + Int.tdiv g.term_width_ 2,
    second := -p.second + Int.tdiv g.term_height_ 2 }

/-- `encode_point_`: flat index of a screen point. -/
def encode_point_ (g : RoshellGraphics) (p : Point) : Int :=
  p.second * g.term_width_ + p.first

/-- `decode_index_`: screen point of a flat index; a zero width divides by zero. -/
def decode_index_ (g : RoshellGraphics) (index : Int) : Option Point :=
  if g.term_width_ = 0 then none
  else some { first := Int.tmod index g.term_width_, second := Int.tdiv index g.term_width_ }

/-- `put_within_limits_`: each coordinate is raised to 0 and lowered to the terminal size. -/
def put_within_limits_ (g : RoshellGraphics) (p : Point) : Point :=
  { first := min (max p.first 0) g.term_width_,
    second := min (max p.second 0) g.term_height_ }

/-- A screen point that is a cell of the terminal: `0 <= x < width` and `0 <= y < height`. -/
def in_terminal (g : RoshellGraphics) (s : Point) : Prop :=
  0 ≤ s.first ∧ s.first < g.term_width_ ∧ 0 ≤ s.second ∧ s.second < g.term_height_

instance (g : RoshellGraphics) (s : Point) : Decidable (g.in_terminal s) := by
  unfold in_terminal
  infer_instance

/-- One of the six `for` loops of `line`: the loop variable starts at `v` and makes `n`
iterations; each iteration encodes `cell v`, appends the index and fills the buffer. -/
def line_for (c : Char) (cell : Int → Point) :
    Nat → Int → List Int × RoshellGraphics → Option (List Int × RoshellGraphics)
  | 0, _, s => some s
  | n + 1, v, (indices, g) =>
    let idx := g.encode_point_ (cell v)
    match g.fill_buff idx c with
    | none => none
    | some g1 => line_for c cell n (v + 1) (indices ++ [idx], g1)

/-- `line`: rasterises the segment between two natural-frame points.  The slope arithmetic
is exact and `abs` is `float abs(float)`; `line_fl` has the rounding and the overload as
parameters. -/
def line (g : RoshellGraphics) (pp1 pp2 : Point) (c : Char) :
    Option (List Int × RoshellGraphics) :=
  let p1 := g.put_within_limits_ (g.fix_frame pp1)
  let p2 := g.put_within_limits_ (g.fix_frame pp2)
  if p1.first = p2.first then
    if p1.second < p2.second then
      line_for c (fun y => ⟨p1.first, y⟩) (p2.second - p1.second).toNat p1.second ([], g)
    else
      line_for c (fun y => ⟨p1.first, y⟩) (p1.second - p2.second).toNat p2.second ([], g)
  else
    let slope : ℚ := ((p2.second : ℚ) - (p1.second : ℚ)) / ((p2.first : ℚ) - (p1.first : ℚ))
    if |slope| ≤ 1 then
      if p1.first < p2.first then
        line_for c (fun x => ⟨x, to_int ((p1.second : ℚ) + slope * ((x - p1.first : Int) : ℚ))⟩)
          (p2.first - p1.first).toNat p1.first ([], g)
      else
        line_for c (fun x => ⟨x, to_int ((p1.second : ℚ) + slope * ((x - p1.first : Int) : ℚ))⟩)
          (p1.first - p2.first).toNat p2.first ([], g)
    else
      if p1.second < p2.second then
        line_for c (fun y => ⟨to_int ((p1.first : ℚ) + ((y - p1.second : Int) : ℚ) / slope), y⟩)
          (p2.second - p1.second).toNat p1.second ([], g)
      else
        line_for c (fun y => ⟨to_int ((p1.first : ℚ) + ((y - p1.second : Int) : ℚ) / slope), y⟩)
          (p1.second - p2.second).toNat p2.second ([], g)

/-- The screen cells that the loop of `line` visits, in order: the same branches as
`line`, without the buffer writes (exact slope arithmetic, `float abs(float)`). -/
def line_points (g : RoshellGraphics) (pp1 pp2 : Point) : List Point :=
  let p1 := g.put_within_limits_ (g.fix_frame pp1)
  let p2 := g.put_within_limits_ (g.fix_frame pp2)
  let run (cell : Int → Point) (n : Nat) (v : Int) : List Point :=
    (List.range n).map (fun (k : Nat) => cell (v + (k : Int)))
  if p1.first = p2.first then
    if p1.second < p2.second then
      run (fun y => ⟨p1.first, y⟩) (p2.second - p1.second).toNat p1.second
    else
      run (fun y => ⟨p1.first, y⟩) (p1.second - p2.second).toNat p2.second
  else
    let slope : ℚ := ((p2.second : ℚ) - (p1.second : ℚ)) / ((p2.first : ℚ) - (p1.first : ℚ))
    if |slope| ≤ 1 then
      if p1.first < p2.first then
        run (fun x => ⟨x, to_int ((p1.second : ℚ) + slope * ((x - p1.first : Int) : ℚ))⟩)
          (p2.first - p1.first).toNat p1.first
      else
        run (fun x => ⟨x, to_int ((p1.second : ℚ) + slope * ((x - p1.first : Int) : ℚ))⟩)
          (p1.first - p2.first).toNat p2.first
    else
      if p1.second < p2.second then
        run (fun y => ⟨to_int ((p1.first : ℚ) + ((y - p1.second : Int) : ℚ) / slope), y⟩)
          (p2.second - p1.second).toNat p1.second
      else
        run (fun y => ⟨to_int ((p1.first : ℚ) + ((y - p1.second : Int) : ℚ) / slope), y⟩)
          (p1.second - p2.second).toNat p2.second

/-- The index values that the loop of `line` pushes onto `indices`, in order. -/
def line_indices (g : RoshellGraphics) (pp1 pp2 : Point) : List Int :=
  (g.line_points pp1 pp2).map g.encode_point_

/-- A sequence of calls `fill_buff(idx, c)`, made in the order of the list. -/
def fill_buff_calls : RoshellGraphics → List (Int × Char) → Option RoshellGraphics
  | g, [] => some g
  | g, (idx, c) :: rest =>
    match g.fill_buff idx c with
    | none => none
    | some g1 => fill_buff_calls g1 rest

/-- The character that one iteration of the loop of `draw` leaves in a cell holding `ch`
whose count is `cnt`. -/
def draw_cell (ch : Char) (cnt : Int) : Char :=
  if ch ≠ ' ' then ch
  else if cnt < 6 then count_to_char_map_ cnt
  else '@'

/-- The loop of `draw`, from cell `i`, for `n` iterations. -/
def draw_for : Nat → Nat → RoshellGraphics → Option RoshellGraphics
  | 0, _, g => some g
  | n + 1, i, g =>
    match g.buffer_[i]? with
    | none => none
    | some ch =>
      if ch ≠ ' ' then draw_for n (i + 1) g
      else
        match g.buffer_count_[i]? with
        | none => none
        | some cnt =>
          if cnt < 6 then
            draw_for n (i + 1) { g with buffer_ := g.buffer_.set i (count_to_char_map_ cnt) }
          else
            draw_for n (i + 1) { g with buffer_ := g.buffer_.set i '@' }

/-- `draw`: every blank cell receives the density glyph of its count. -/
def draw (g : RoshellGraphics) : Option RoshellGraphics :=
  draw_for g.buffer_.length 0 g

/-- The canvas of a terminal 20 columns wide and 10 rows high, as `clear_buffer` leaves it. -/
def canvas_20x10 : RoshellGraphics :=
  { term_height_ := 10, term_width_ := 20,
    buffer_ := List.replicate 200 ' ', buffer_count_ := List.replicate 200 0 }

end RoshellGraphics

/-- The vector `Eigen::Vector3f`. -/
structure Vector3f where
  x : ℚ
  y : ℚ
  z : ℚ
deriving DecidableEq

/-- The vector `Eigen::Vector2f`. -/
structure Vector2f where
  x : ℚ
  y : ℚ
deriving DecidableEq

/-- The matrix `Eigen::Matrix3f`, entry `mij` in row `i` and column `j`. -/
structure Matrix3f where
  m00 : ℚ
  m01 : ℚ
  m02 : ℚ
  m10 : ℚ
  m11 : ℚ
  m12 : ℚ
  m20 : ℚ
  m21 : ℚ
  m22 : ℚ
deriving DecidableEq

/-- The matrix `Eigen::Matrix4f`, entry `mij` in row `i` and column `j`. -/
structure Matrix4f where
  m00 : ℚ
  m01 : ℚ
  m02 : ℚ
  m03 : ℚ
  m10 : ℚ
  m11 : ℚ
  m12 : ℚ
  m13 : ℚ
  m20 : ℚ
  m21 : ℚ
  m22 : ℚ
  m23 : ℚ
  m30 : ℚ
  m31 : ℚ
  m32 : ℚ
  m33 : ℚ
deriving DecidableEq

/-- The functions of `math.h` called by `Transform`. -/
structure Libm where
  sqrt : ℚ → ℚ
  sin : ℚ → ℚ
  cos : ℚ → ℚ
  asin : ℚ → ℚ
  acos : ℚ → ℚ

/-- The struct `Camera`. -/
structure Camera where
  location : Vector3f
  focal_distance : Int
deriving DecidableEq

/-- The data members of `Transform`. -/
structure Transform where
  origin_ : Vector3f
  rotation_matrix_ : Matrix3f
  rho_ : ℚ
  T_ : Matrix4f
deriving DecidableEq

namespace Transform

/-- `angles_to_rotation_matrix`, entry by entry as the source writes it. -/
def angles_to_rotation_matrix (m : Libm) (theta phi : ℚ) : Matrix3f :=
  { m00 := -m.sin theta, m01 := m.cos theta, m02 := 0,
    m10 := -m.cos phi * m.cos theta, m11 := -m.cos phi * m.sin theta, m12 := m.sin phi,
    m20 := -m.sin phi * m.cos theta, m21 := -m.sin phi * m.cos theta, m22 := -m.cos phi }

/-- `update`: every member is overwritten, so the previous value of the object is not an
input.  The two quotients `origin_(2) / rho_` and `origin_(1) / sqrt(...)` have no value
when their divisor is zero. -/
def update (m : Libm) (origin : Vector3f) : Option Transform :=
  let rho := m.sqrt (origin.x ^ 2 + origin.y ^ 2 + origin.z ^ 2)
  if rho = 0 then none
  else
    let phi := m.acos (origin.z / rho)
    let d := m.sqrt (origin.x ^ 2 + origin.y ^ 2)
    if d = 0 then none
    else
      let theta := m.asin (origin.y / d)
      let r := angles_to_rotation_matrix m theta phi
      some
        { origin_ := origin,
          rotation_matrix_ := r,
          rho_ := rho,
          T_ :=
            { m00 := r.m00, m01 := r.m01, m02 := r.m02, m03 := 0,
              m10 := r.m10, m11 := r.m11, m12 := r.m12, m13 := 0,
              m20 := r.m20, m21 := r.m21, m22 := r.m22, m23 := rho,
              m30 := 0, m31 := 0, m32 := 0, m33 := 1 } }

/-- `get_transformation_matrix`. -/
def get_transformation_matrix (t : Transform) : Matrix4f := t.T_

end Transform

/-- The data members of `PerspectiveProjection`. -/
structure PerspectiveProjection where
  camera_ : Camera
  tf_ : Transform
deriving DecidableEq

namespace PerspectiveProjection

/-- The constructor: `camera_(camera), tf_(camera)`, where `Transform(cam)` calls
`update(cam.location)`. -/
def create (m : Libm) (camera : Camera) : Option PerspectiveProjection :=
  match Transform.update m camera.location with
  | none => none
  | some tf => some { camera_ := camera, tf_ := tf }

/-- `update_camera`: only `tf_` is updated. -/
def update_camera (m : Libm) (pp : PerspectiveProjection) (camera : Camera) :
    Option PerspectiveProjection :=
  match Transform.update m camera.location with
  | none => none
  | some tf => some { pp with tf_ := tf }

/-- `transform_world_point`: the first three rows of `T_ * (p, 1)`. -/
def transform_world_point (pp : PerspectiveProjection) (p : Vector3f) : Vector3f :=
  let t := pp.tf_.get_transformation_matrix
  { x := t.m00 * p.x + t.m01 * p.y + t.m02 * p.z + t.m03 * 1,
    y := t.m10 * p.x + t.m11 * p.y + t.m12 * p.z + t.m13 * 1,
    z := t.m20 * p.x + t.m21 * p.y + t.m22 * p.z + t.m23 * 1 }

/-- `project_cam_point`: the quotient `focal_distance / point(2)` has no value when the
depth is zero. -/
def project_cam_point (pp : PerspectiveProjection) (p : Vector3f) : Option Vector2f :=
  if p.z = 0 then none
  else
    let x0 := p.x * ((pp.camera_.focal_distance : ℚ) / p.z)
    let y0 := p.y * ((pp.camera_.focal_distance : ℚ) / p.z)
    some { x := x0, y := 0.5 * y0 }

/-- `project_world_point`: `project_cam_point` after `transform_world_point`. -/
def project_world_point (pp : PerspectiveProjection) (p : Vector3f) : Option Vector2f :=
  pp.project_cam_point (pp.transform_world_point p)

end PerspectiveProjection

/-- The vector `Eigen::Vector4f`. -/
structure Vector4f where
  x : ℚ
  y : ℚ
  z : ℚ
  w : ℚ
deriving DecidableEq

namespace Matrix4f

/-- The product of a 4x4 matrix and a column of four entries. -/
def mul_vec (t : Matrix4f) (v : Vector4f) : Vector4f :=
  { x := t.m00 * v.x + t.m01 * v.y + t.m02 * v.z + t.m03 * v.w,
    y := t.m10 * v.x + t.m11 * v.y + t.m12 * v.z + t.m13 * v.w,
    z := t.m20 * v.x + t.m21 * v.y + t.m22 * v.z + t.m23 * v.w,
    w := t.m30 * v.x + t.m31 * v.y + t.m32 * v.z + t.m33 * v.w }

end Matrix4f

namespace Matrix3f

/-- The transposed matrix. -/
def transpose (a : Matrix3f) : Matrix3f :=
  { m00 := a.m00, m01 := a.m10, m02 := a.m20,
    m10 := a.m01, m11 := a.m11, m12 := a.m21,
    m20 := a.m02, m21 := a.m12, m22 := a.m22 }

/-- The product of two 3x3 matrices. -/
def mul (a b : Matrix3f) : Matrix3f :=
  { m00 := a.m00 * b.m00 + a.m01 * b.m10 + a.m02 * b.m20,
    m01 := a.m00 * b.m01 + a.m01 * b.m11 + a.m02 * b.m21,
    m02 := a.m00 * b.m02 + a.m01 * b.m12 + a.m02 * b.m22,
    m10 := a.m10 * b.m00 + a.m11 * b.m10 + a.m12 * b.m20,
    m11 := a.m10 * b.m01 + a.m11 * b.m11 + a.m12 * b.m21,
    m12 := a.m10 * b.m02 + a.m11 * b.m12 + a.m12 * b.m22,
    m20 := a.m20 * b.m00 + a.m21 * b.m10 + a.m22 * b.m20,
    m21 := a.m20 * b.m01 + a.m21 * b.m11 + a.m22 * b.m21,
    m22 := a.m20 * b.m02 + a.m21 * b.m12 + a.m22 * b.m22 }

/-- The identity matrix. -/
def identity : Matrix3f :=
  { m00 := 1, m01 := 0, m02 := 0,
    m10 := 0, m11 := 1, m12 := 0,
    m20 := 0, m21 := 0, m22 := 1 }

/-- The product of a 3x3 matrix and a column of three entries. -/
def mul_vec (a : Matrix3f) (v : Vector3f) : Vector3f :=
  { x := a.m00 * v.x + a.m01 * v.y + a.m02 * v.z,
    y := a.m10 * v.x + a.m11 * v.y + a.m12 * v.z,
    z := a.m20 * v.x + a.m21 * v.y + a.m22 * v.z }

end Matrix3f

/-- A sample of `Libm` with rational values: `sqrt` is exact on the squares of rationals, the
other functions are the first terms of their power series (with 11/7 for half of pi). -/
def libm_sample : Libm :=
  { sqrt := fun q => (Nat.sqrt q.num.toNat : ℚ) / (Nat.sqrt q.den : ℚ),
    sin := fun q => q - q ^ 3 / 6,
    cos := fun q => 1 - q ^ 2 / 2,
    asin := fun q => q + q ^ 3 / 6,
    acos := fun q => 11 / 7 - q - q ^ 3 / 6 }

namespace PerspectiveProjection

/-- `transform_multiple_world_points`: a matrix with a dynamic number of columns is the list
of its columns.  The columns are augmented with a last row of ones, multiplied by `T_`, and
the first three rows are kept. -/
def transform_multiple_world_points (pp : PerspectiveProjection)
    (points_in_world_frame : List Vector3f) : List Vector3f :=
  let points_in_world_frame_aug : List Vector4f :=
    points_in_world_frame.map (fun p => { x := p.x, y := p.y, z := p.z, w := 1 })
  let points_in_cam_frame_aug : List Vector4f :=
    points_in_world_frame_aug.map (fun v => pp.tf_.get_transformation_matrix.mul_vec v)
  points_in_cam_frame_aug.map (fun v => { x := v.x, y := v.y, z := v.z })

/-- The loop of `project_multiple_cam_points`, from column `i`, for `n` iterations.  A
column of the image matrix is `none` while it holds no defined value; a column index
outside one of the two matrices has no defined result. -/
def project_multiple_cam_points_for (pp : PerspectiveProjection)
    (points_in_cam_frame : List Vector3f) :
    Nat → Nat → List (Option Vector2f) → Option (List (Option Vector2f))
  | 0, _, points_in_image_plane => some points_in_image_plane
  | n + 1, i, points_in_image_plane =>
    match points_in_cam_frame[i]? with
    | none => none
    | some p =>
      if i < points_in_image_plane.length then
        project_multiple_cam_points_for pp points_in_cam_frame n (i + 1)
          (points_in_image_plane.set i (pp.project_cam_point p))
      else none

/-- `project_multiple_cam_points`: column `i` of the image matrix receives
`project_cam_point` of column `i`. -/
def project_multiple_cam_points (pp : PerspectiveProjection)
    (points_in_cam_frame : List Vector3f) (points_in_image_plane : List (Option Vector2f)) :
    Option (List (Option Vector2f)) :=
  let num_points := points_in_cam_frame.length
  project_multiple_cam_points_for pp points_in_cam_frame num_points 0 points_in_image_plane

/-- `project_multiple_world_points`: both intermediate matrices are allocated with
`num_points` columns, the points are transformed, then projected. -/
def project_multiple_world_points (pp : PerspectiveProjection)
    (points_in_world_frame : List Vector3f) : Option (List (Option Vector2f)) :=
  let num_points := points_in_world_frame.length
  let points_in_image_plane : List (Option Vector2f) := List.replicate num_points none
  let points_in_cam_frame := pp.transform_multiple_world_points points_in_world_frame
  pp.project_multiple_cam_points points_in_cam_frame points_in_image_plane

end PerspectiveProjection

/-- A call of one of the drawing functions of the canvas made by `PlotGraph`.  The functions
`add_line` and `add_text` are declared in another version of the canvas header; the model
records the calls with their arguments, in order. -/
inductive PlotCall where
  | clear_buffer : PlotCall
  | add_line : Point → Point → String → PlotCall
  | add_text : Point → String → PlotCall
deriving DecidableEq

/-- The value of a float division: a finite number, an infinity or a NaN. -/
inductive FloatQuotient where
  | finite : ℚ → FloatQuotient
  | pos_inf : FloatQuotient
  | neg_inf : FloatQuotient
  | nan : FloatQuotient
deriving DecidableEq

/-- Float division, with the IEEE results of a division by zero. -/
def float_div (a b : ℚ) : FloatQuotient :=
  if b ≠ 0 then FloatQuotient.finite (a / b)
  else if 0 < a then FloatQuotient.pos_inf
  else if a < 0 then FloatQuotient.neg_inf
  else FloatQuotient.nan

/-- The data members of `PlotGraph` that its functions use. -/
structure PlotGraph where
  term_width_ : Int
  term_height_ : Int
  pad_h_ : Int
  pad_w_ : Int
  one_tick_x_ : Int
  origin_ : Point
  xlimit_ : Point
  ylimit_ : Point
deriving DecidableEq

namespace PlotGraph

/-- The constructor: the sizes and the paddings are set from the terminal size; `rest`
stands for the members that the constructor leaves without a value. -/
def create (term_size : Int × Int) (rest : PlotGraph) : PlotGraph :=
  { rest with
    term_height_ := term_size.2,
    term_width_ := term_size.1,
    pad_h_ := to_int (0.1 * (term_size.2 : ℚ)),
    pad_w_ := to_int (0.05 * (term_size.1 : ℚ)) }

/-- The loop of `DrawAxis` over the ticks, from tick `i`, for `n` iterations. -/
def DrawAxis_for (origin : Point) (one_tick_x : Int) : Nat → Int → List PlotCall
  | 0, _ => []
  | n + 1, i =>
    let mark : Point := ⟨origin.first + one_tick_x * i, origin.second⟩
    let value : Point := ⟨origin.first + one_tick_x * i, origin.second - 1⟩
    (PlotCall.add_text mark "+" ::
      (if Int.tmod i 3 = 0 then [PlotCall.add_text value (toString i)] else [])) ++
      DrawAxis_for origin one_tick_x n (i + 1)

/-- `DrawAxis`: the three anchor points and the tick spacing are recomputed, and the axes,
the labels and the ticks are drawn. -/
def DrawAxis (pg : PlotGraph) (ylabel : String) : PlotGraph × List PlotCall :=
  let origin : Point :=
    ⟨Int.tdiv (-pg.term_width_) 2 + pg.pad_w_, Int.tdiv (-pg.term_height_) 2 + pg.pad_h_⟩
  let xlimit : Point :=
    ⟨to_int (((Int.tdiv (-pg.term_width_) 2 + pg.pad_w_ : Int) : ℚ) + 0.85 * (pg.term_width_ : ℚ)),
      Int.tdiv (-pg.term_height_) 2 + pg.pad_h_⟩
  let ylimit : Point :=
    ⟨Int.tdiv (-pg.term_width_) 2 + pg.pad_w_,
      to_int (((Int.tdiv (-pg.term_height_) 2 + pg.pad_h_ : Int) : ℚ) +
        0.85 * (pg.term_height_ : ℚ))⟩
  let text_x : Point :=
    if pg.term_height_ > 28 then ⟨xlimit.first - 5, xlimit.second - 2⟩
    else ⟨xlimit.first + 2, xlimit.second⟩
  let text_y : Point := ⟨ylimit.first - 2, ylimit.second + 1⟩
  let one_tick_x := Int.tdiv (xlimit.first - origin.first) 30
  ({ pg with origin_ := origin, xlimit_ := xlimit, ylimit_ := ylimit, one_tick_x_ := one_tick_x },
    [PlotCall.clear_buffer,
      PlotCall.add_line origin xlimit "-",
      PlotCall.add_line origin ylimit "|",
      PlotCall.add_text xlimit ">",
      PlotCall.add_text ylimit "^",
      PlotCall.add_text text_x "Time",
      PlotCall.add_text text_y ylabel] ++
      DrawAxis_for origin one_tick_x 30 1)

/-- The glyph that `PlotPoints` chooses for the line from `p1` to `p2`: the chain of
comparisons of `slope` with zero; all three comparisons are false on a NaN. -/
def slope_glyph (p1 p2 : Point) : String :=
  match float_div ((p1.second - p2.second : Int) : ℚ) ((p1.first - p2.first : Int) : ℚ) with
  | FloatQuotient.finite slope =>
    if slope < 0 then "\\"
    else if slope > 0 then "/"
    else if slope = 0 then "-"
    else "|"
  | FloatQuotient.neg_inf => "\\"
  | FloatQuotient.pos_inf => "/"
  | FloatQuotient.nan => "|"

/-- The point `p1` that the loop of `PlotPoints` computes for the sample `v` at position
`i` of the list, with the product and the quotient taken exactly; `plotted_fl` has the
rounding as a parameter. -/
def plotted (pg : PlotGraph) (max_y : ℚ) (v : Int) (i : Nat) : Point :=
  let y_len := pg.ylimit_.second - pg.origin_.second
  let distance_from_origin : ℚ := (v : ℚ) * (y_len : ℚ) / max_y
  ⟨pg.origin_.first + pg.one_tick_x_ * ((i : Int) + 1),
    pg.origin_.second + to_int distance_from_origin⟩

/-- The calls of iteration `i` of the loop of `PlotPoints`, for the sample `v`, when `prev`
is the point of the sample before. -/
def iteration_calls (pg : PlotGraph) (min_y max_y : ℚ) (prev : Point) (v : Int) (i : Nat) :
    List PlotCall :=
  (if i ≥ 1 then
      [PlotCall.add_line (pg.plotted max_y v i) prev (slope_glyph (pg.plotted max_y v i) prev),
        PlotCall.add_text prev "*"]
    else []) ++
    [PlotCall.add_text ⟨pg.ylimit_.first - 4, pg.ylimit_.second⟩ (toString (to_int max_y)),
      PlotCall.add_text ⟨pg.origin_.first - 4, pg.origin_.second⟩ (toString (to_int min_y)),
      PlotCall.add_text (pg.plotted max_y v i) "*"]

/-- The calls of the loop of `PlotPoints` over the samples `vals`, from position `i`. -/
def loop_calls (pg : PlotGraph) (min_y max_y : ℚ) : Point → List Int → Nat → List PlotCall
  | _, [], _ => []
  | prev, v :: rest, i =>
    iteration_calls pg min_y max_y prev v i ++
      loop_calls pg min_y max_y (pg.plotted max_y v i) rest (i + 1)

/-- The plot of a terminal 80 columns wide and 24 rows high, as the constructor leaves it
(the members without a value are zero). -/
def plot_80x24 : PlotGraph :=
  { term_width_ := 80, term_height_ := 24, pad_h_ := 2, pad_w_ := 4, one_tick_x_ := 0,
    origin_ := ⟨0, 0⟩, xlimit_ := ⟨0, 0⟩, ylimit_ := ⟨0, 0⟩ }

end PlotGraph

/-- The segment between two screen points has no point in the terminal extent: no point
`s1 + t * (s2 - s1)` with `0 <= t <= 1` has `0 <= x < width` and `0 <= y < height`. -/
def RoshellGraphics.off_screen (g : RoshellGraphics) (s1 s2 : Point) : Prop :=
  ∀ t : ℚ, 0 ≤ t → t ≤ 1 →
    ¬ (0 ≤ (s1.first : ℚ) + t * ((s2.first : ℚ) - (s1.first : ℚ)) ∧
      (s1.first : ℚ) + t * ((s2.first : ℚ) - (s1.first : ℚ)) < (g.term_width_ : ℚ) ∧
      0 ≤ (s1.second : ℚ) + t * ((s2.second : ℚ) - (s1.second : ℚ)) ∧
      (s1.second : ℚ) + t * ((s2.second : ℚ) - (s1.second : ℚ)) < (g.term_height_ : ℚ))

/-! ## Binary32 arithmetic and the overloads of `abs` -/

/-- Rounding of a rational to the nearest integer, a tie going to the even integer. -/
def round_half_even (x : ℚ) : Int :=
  if x - (⌊x⌋ : ℚ) < 1 / 2 then ⌊x⌋
  else if 1 / 2 < x - (⌊x⌋ : ℚ) then ⌊x⌋ + 1
  else if ⌊x⌋ % 2 = 0 then ⌊x⌋
  else ⌊x⌋ + 1

/-- The exponent of the binade of `q` in binary32: the floor of the binary logarithm of
`|q|`, and -126 throughout the subnormal range. -/
def binary32_exponent (q : ℚ) : Int := max (Int.log 2 |q|) (-126)

/-- The binary32 value of a `float` operation whose exact result is `q`: `q` is rounded to
the nearest multiple of `2 ^ (binary32_exponent q - 23)` (a significand of 24 bits), a tie
going to the even significand.  A result of magnitude `2 ^ 128` or more is an infinity in
the source and is not described. -/
def round32 (q : ℚ) : ℚ :=
  (round_half_even (q / 2 ^ (binary32_exponent q - 23)) : ℚ) * 2 ^ (binary32_exponent q - 23)

/-- The function that the unqualified call `abs(slope)` of `line` resolves to.
`roshell_graphics.h` includes `<cstdlib>` and neither `<math.h>` nor `<stdlib.h>`: compiled
on its own with libstdc++ the only `abs` in the global namespace is `int abs(int)`, and the
slope is converted to `int` before the call.  A translation unit that includes `<math.h>`
before the header (as `perspective_projection.h` does) also sees `float abs(float)`. -/
inductive AbsOverload where
  | int_abs : AbsOverload
  | float_abs : AbsOverload
deriving DecidableEq

/-- The test `abs(slope) <= 1.0` of `line` under an overload of `abs`. -/
def abs_slope_le_one (ov : AbsOverload) (slope : ℚ) : Bool :=
  match ov with
  | AbsOverload.int_abs => decide (|to_int slope| ≤ 1)
  | AbsOverload.float_abs => decide (|slope| ≤ 1)

namespace RoshellGraphics

/-- The function `line` with the rounding `fl` applied to the result of every `float`
operation (the conversions of an `int` to `float` included) and with the overload `ov` of
`abs`.  With `round32` it is the compiled function, with `id` the arithmetic is exact.  The
clamped coordinates are at most the terminal size, so on a terminal of at most 65535
columns their conversions are exact and the divisor of the slope is not zero. -/
def line_fl (fl : ℚ → ℚ) (ov : AbsOverload) (g : RoshellGraphics) (pp1 pp2 : Point) (c : Char) :
    Option (List Int × RoshellGraphics) :=
  let p1 := g.put_within_limits_ (g.fix_frame pp1)
  let p2 := g.put_within_limits_ (g.fix_frame pp2)
  if p1.first = p2.first then
    if p1.second < p2.second then
      line_for c (fun y => ⟨p1.first, y⟩) (p2.second - p1.second).toNat p1.second ([], g)
    else
      line_for c (fun y => ⟨p1.first, y⟩) (p1.second - p2.second).toNat p2.second ([], g)
  else
    let slope : ℚ :=
      fl (fl (fl (p2.second : ℚ) - fl (p1.second : ℚ)) / fl (fl (p2.first : ℚ) - fl (p1.first : ℚ)))
    if abs_slope_le_one ov slope = true then
      if p1.first < p2.first then
        line_for c
          (fun x => ⟨x, to_int (fl (fl (p1.second : ℚ) + fl (slope * fl ((x - p1.first : Int) : ℚ))))⟩)
          (p2.first - p1.first).toNat p1.first ([], g)
      else
        line_for c
          (fun x => ⟨x, to_int (fl (fl (p1.second : ℚ) + fl (slope * fl ((x - p1.first : Int) : ℚ))))⟩)
          (p1.first - p2.first).toNat p2.first ([], g)
    else
      if p1.second < p2.second then
        line_for c
          (fun y => ⟨to_int (fl (fl (p1.first : ℚ) + fl (fl ((y - p1.second : Int) : ℚ) / slope))), y⟩)
          (p2.second - p1.second).toNat p1.second ([], g)
      else
        line_for c
          (fun y => ⟨to_int (fl (fl (p1.first : ℚ) + fl (fl ((y - p1.second : Int) : ℚ) / slope))), y⟩)
          (p1.second - p2.second).toNat p2.second ([], g)

/-- The screen cells that the loop of `line_fl` visits, in order: the same branches as
`line_fl`, without the buffer writes. -/
def line_points_fl (fl : ℚ → ℚ) (ov : AbsOverload) (g : RoshellGraphics) (pp1 pp2 : Point) :
    List Point :=
  let p1 := g.put_within_limits_ (g.fix_frame pp1)
  let p2 := g.put_within_limits_ (g.fix_frame pp2)
  let run (cell : Int → Point) (n : Nat) (v : Int) : List Point :=
    (List.range n).map (fun (k : Nat) => cell (v + (k : Int)))
  if p1.first = p2.first then
    if p1.second < p2.second then
      run (fun y => ⟨p1.first, y⟩) (p2.second - p1.second).toNat p1.second
    else
      run (fun y => ⟨p1.first, y⟩) (p1.second - p2.second).toNat p2.second
  else
    let slope : ℚ :=
      fl (fl (fl (p2.second : ℚ) - fl (p1.second : ℚ)) / fl (fl (p2.first : ℚ) - fl (p1.first : ℚ)))
    if abs_slope_le_one ov slope = true then
      if p1.first < p2.first then
        run (fun x => ⟨x, to_int (fl (fl (p1.second : ℚ) + fl (slope * fl ((x - p1.first : Int) : ℚ))))⟩)
          (p2.first - p1.first).toNat p1.first
      else
        run (fun x => ⟨x, to_int (fl (fl (p1.second : ℚ) + fl (slope * fl ((x - p1.first : Int) : ℚ))))⟩)
          (p1.first - p2.first).toNat p2.first
    else
      if p1.second < p2.second then
        run (fun y => ⟨to_int (fl (fl (p1.first : ℚ) + fl (fl ((y - p1.second : Int) : ℚ) / slope))), y⟩)
          (p2.second - p1.second).toNat p1.second
      else
        run (fun y => ⟨to_int (fl (fl (p1.first : ℚ) + fl (fl ((y - p1.second : Int) : ℚ) / slope))), y⟩)
          (p1.second - p2.second).toNat p2.second

/-- The index values that the loop of `line_fl` pushes onto `indices`, in order. -/
def line_indices_fl (fl : ℚ → ℚ) (ov : AbsOverload) (g : RoshellGraphics) (pp1 pp2 : Point) :
    List Int :=
  (g.line_points_fl fl ov pp1 pp2).map g.encode_point_

end RoshellGraphics

namespace PlotGraph

/-- The point `p1` that the loop of `PlotPoints` computes for the sample `v` at position
`i` of the list, with the rounding `fl` applied to the result of every `float` operation:
the conversions of `points_list[i]` and of `y_len`, the product and the quotient. -/
def plotted_fl (fl : ℚ → ℚ) (pg : PlotGraph) (max_y : ℚ) (v : Int) (i : Nat) : Point :=
  let y_len := pg.ylimit_.second - pg.origin_.second
  let distance_from_origin : ℚ := fl (fl (fl (v : ℚ) * fl (y_len : ℚ)) / max_y)
  ⟨pg.origin_.first + pg.one_tick_x_ * ((i : Int) + 1),
    pg.origin_.second + to_int distance_from_origin⟩

/-- The loop of `PlotPoints` with the rounding `fl` applied to the result of every `float`
operation of `distance_from_origin`.  With `round32` it is the compiled loop. -/
def PlotPoints_for_fl (fl : ℚ → ℚ) (pg : PlotGraph) (min_y max_y : ℚ) :
    List Int → Nat → Point × Point × List PlotCall → Option (Point × Point × List PlotCall)
  | [], _, s => some s
  | v :: rest, i, (p1, p2, calls) =>
    if max_y = 0 then none
    else
      let p2 : Point := if i ≥ 1 then p1 else p2
      let y_len := pg.ylimit_.second - pg.origin_.second
      let distance_from_origin : ℚ := fl (fl (fl (v : ℚ) * fl (y_len : ℚ)) / max_y)
      let p1 : Point :=
        ⟨pg.origin_.first + pg.one_tick_x_ * ((i : Int) + 1),
          pg.origin_.second + to_int distance_from_origin⟩
      let calls : List PlotCall :=
        if i ≥ 1 then
          calls ++ [PlotCall.add_line p1 p2 (slope_glyph p1 p2), PlotCall.add_text p2 "*"]
        else calls
      let y_max_text : Point := ⟨pg.ylimit_.first - 4, pg.ylimit_.second⟩
      let y_min_text : Point := ⟨pg.origin_.first - 4, pg.origin_.second⟩
      PlotPoints_for_fl fl pg min_y max_y rest (i + 1)
        (p1, p2, calls ++
          [PlotCall.add_text y_max_text (toString (to_int max_y)),
            PlotCall.add_text y_min_text (toString (to_int min_y)),
            PlotCall.add_text p1 "*"])

/-- The function `PlotPoints` over the loop `PlotPoints_for_fl`. -/
def PlotPoints_fl (fl : ℚ → ℚ) (pg : PlotGraph) (points_list : List Int) (min_y max_y : ℚ)
    (ylabel : String) : Option (PlotGraph × List PlotCall) :=
  let p1 := pg.origin_
  let p2 := pg.origin_
  match PlotPoints_for_fl fl (pg.DrawAxis ylabel).1 min_y max_y points_list 0
      (p1, p2, (pg.DrawAxis ylabel).2) with
  | none => none
  | some (_, _, calls) => some ((pg.DrawAxis ylabel).1, calls)

/-- The calls of iteration `i` of the loop of `PlotPoints_fl`, for the sample `v`, when
`prev` is the point of the sample before. -/
def iteration_calls_fl (fl : ℚ → ℚ) (pg : PlotGraph) (min_y max_y : ℚ) (prev : Point) (v : Int)
    (i : Nat) : List PlotCall :=
  (if i ≥ 1 then
      [PlotCall.add_line (pg.plotted_fl fl max_y v i) prev
          (slope_glyph (pg.plotted_fl fl max_y v i) prev),
        PlotCall.add_text prev "*"]
    else []) ++
    [PlotCall.add_text ⟨pg.ylimit_.first - 4, pg.ylimit_.second⟩ (toString (to_int max_y)),
      PlotCall.add_text ⟨pg.origin_.first - 4, pg.origin_.second⟩ (toString (to_int min_y)),
      PlotCall.add_text (pg.plotted_fl fl max_y v i) "*"]

/-- The calls of the loop of `PlotPoints_fl` over the samples `vals`, from position `i`. -/
def loop_calls_fl (fl : ℚ → ℚ) (pg : PlotGraph) (min_y max_y : ℚ) :
    Point → List Int → Nat → List PlotCall
  | _, [], _ => []
  | prev, v :: rest, i =>
    iteration_calls_fl fl pg min_y max_y prev v i ++
      loop_calls_fl fl pg min_y max_y (pg.plotted_fl fl max_y v i) rest (i + 1)

end PlotGraph

/-! ## Arithmetic of the truncating conversion -/

/-- Truncation leaves an integer value unchanged. -/
theorem to_int_intCast (n : Int) : to_int (n : ℚ) = n := by
  unfold to_int
  split_ifs
  · exact Int.floor_intCast n
  · exact Int.ceil_intCast n

/-- Truncation toward zero is monotone. -/
theorem to_int_mono {a b : ℚ} (h : a ≤ b) : to_int a ≤ to_int b := by
  unfold to_int
  by_cases ha : 0 ≤ a
  · have hb : 0 ≤ b := le_trans ha h
    rw [if_pos ha, if_pos hb]
    exact Int.floor_mono h
  · rw [if_neg ha]
    by_cases hb : 0 ≤ b
    · rw [if_pos hb]
      have h1 : ⌈a⌉ ≤ 0 := by
        rw [Int.ceil_le]
        push_neg at ha
        exact_mod_cast ha.le
      have h2 : 0 ≤ ⌊b⌋ := by
        rw [Int.le_floor]
        exact_mod_cast hb
      exact le_trans h1 h2
    · rw [if_neg hb]
      exact Int.ceil_mono h

/-- The parameter of a point between two distinct integers lies in the unit interval. -/
theorem ratio_unit (u u1 u2 : Int) (hne : u1 ≠ u2)
    (hlo : min u1 u2 ≤ u) (hhi : u ≤ max u1 u2) :
    0 ≤ ((u - u1 : Int) : ℚ) / ((u2 : ℚ) - (u1 : ℚ)) ∧
      ((u - u1 : Int) : ℚ) / ((u2 : ℚ) - (u1 : ℚ)) ≤ 1 := by
  rcases lt_or_gt_of_ne hne with h | h
  · have hpos : (0 : ℚ) < (u2 : ℚ) - (u1 : ℚ) := by
      have : (u1 : ℚ) < (u2 : ℚ) := by exact_mod_cast h
      linarith
    rw [min_eq_left h.le] at hlo
    rw [max_eq_right h.le] at hhi
    have h1 : (u1 : ℚ) ≤ (u : ℚ) := by exact_mod_cast hlo
    have h2 : (u : ℚ) ≤ (u2 : ℚ) := by exact_mod_cast hhi
    push_cast
    constructor
    · apply div_nonneg _ hpos.le
      linarith
    · rw [div_le_one hpos]
      linarith
  · have hneg : (u2 : ℚ) - (u1 : ℚ) < 0 := by
      have : (u2 : ℚ) < (u1 : ℚ) := by exact_mod_cast h
      linarith
    rw [min_eq_right h.le] at hlo
    rw [max_eq_left h.le] at hhi
    have h1 : (u2 : ℚ) ≤ (u : ℚ) := by exact_mod_cast hlo
    have h2 : (u : ℚ) ≤ (u1 : ℚ) := by exact_mod_cast hhi
    push_cast
    constructor
    · apply div_nonneg_of_nonpos _ hneg.le
      linarith
    · rw [div_le_one_of_neg hneg]
      linarith

/-- Truncation of a convex combination of two integers stays between them. -/
theorem to_int_lerp (a b : Int) (t : ℚ) (h0 : 0 ≤ t) (h1 : t ≤ 1) :
    min a b ≤ to_int ((a : ℚ) + ((b : ℚ) - (a : ℚ)) * t) ∧
      to_int ((a : ℚ) + ((b : ℚ) - (a : ℚ)) * t) ≤ max a b := by
  have key : ((min a b : Int) : ℚ) ≤ (a : ℚ) + ((b : ℚ) - (a : ℚ)) * t ∧
      (a : ℚ) + ((b : ℚ) - (a : ℚ)) * t ≤ ((max a b : Int) : ℚ) := by
    rcases le_total a b with h | h
    · rw [min_eq_left h, max_eq_right h]
      have hq : (a : ℚ) ≤ (b : ℚ) := by exact_mod_cast h
      constructor
      · nlinarith [mul_nonneg (sub_nonneg.mpr hq) h0]
      · nlinarith [mul_nonneg (sub_nonneg.mpr hq) (sub_nonneg.mpr h1)]
    · rw [min_eq_right h, max_eq_left h]
      have hq : (b : ℚ) ≤ (a : ℚ) := by exact_mod_cast h
      constructor
      · nlinarith [mul_nonneg (sub_nonneg.mpr hq) (sub_nonneg.mpr h1)]
      · nlinarith [mul_nonneg (sub_nonneg.mpr hq) h0]
  constructor
  · have := to_int_mono key.1
    rwa [to_int_intCast] at this
  · have := to_int_mono key.2
    rwa [to_int_intCast] at this

/-- In the shallow regime the computed row lies between the rows of the endpoints. -/
theorem shallow_cell_bounds (x1 y1 x2 y2 x : Int) (hne : x1 ≠ x2)
    (hlo : min x1 x2 ≤ x) (hhi : x ≤ max x1 x2) :
    min y1 y2 ≤ to_int ((y1 : ℚ) +
        (((y2 : ℚ) - (y1 : ℚ)) / ((x2 : ℚ) - (x1 : ℚ))) * ((x - x1 : Int) : ℚ)) ∧
      to_int ((y1 : ℚ) +
        (((y2 : ℚ) - (y1 : ℚ)) / ((x2 : ℚ) - (x1 : ℚ))) * ((x - x1 : Int) : ℚ)) ≤ max y1 y2 := by
  obtain ⟨h0, h1⟩ := ratio_unit x x1 x2 hne hlo hhi
  have e : (y1 : ℚ) + (((y2 : ℚ) - (y1 : ℚ)) / ((x2 : ℚ) - (x1 : ℚ))) * ((x - x1 : Int) : ℚ) =
      (y1 : ℚ) + ((y2 : ℚ) - (y1 : ℚ)) * (((x - x1 : Int) : ℚ) / ((x2 : ℚ) - (x1 : ℚ))) := by
    rw [div_mul_eq_mul_div, mul_div_assoc]
  rw [e]
  exact to_int_lerp y1 y2 _ h0 h1

/-- In the steep regime the computed column lies between the columns of the endpoints. -/
theorem steep_cell_bounds (x1 y1 x2 y2 y : Int) (hne : y1 ≠ y2)
    (hlo : min y1 y2 ≤ y) (hhi : y ≤ max y1 y2) :
    min x1 x2 ≤ to_int ((x1 : ℚ) +
        ((y - y1 : Int) : ℚ) / (((y2 : ℚ) - (y1 : ℚ)) / ((x2 : ℚ) - (x1 : ℚ)))) ∧
      to_int ((x1 : ℚ) +
        ((y - y1 : Int) : ℚ) / (((y2 : ℚ) - (y1 : ℚ)) / ((x2 : ℚ) - (x1 : ℚ)))) ≤ max x1 x2 := by
  obtain ⟨h0, h1⟩ := ratio_unit y y1 y2 hne hlo hhi
  have e : (x1 : ℚ) +
        ((y - y1 : Int) : ℚ) / (((y2 : ℚ) - (y1 : ℚ)) / ((x2 : ℚ) - (x1 : ℚ))) =
      (x1 : ℚ) + ((x2 : ℚ) - (x1 : ℚ)) * (((y - y1 : Int) : ℚ) / ((y2 : ℚ) - (y1 : ℚ))) := by
    rw [div_div_eq_mul_div]
    ring
  rw [e]
  exact to_int_lerp x1 x2 _ h0 h1

/-! ## Buffers, `draw` and sequences of `fill_buff` -/

namespace RoshellGraphics

/-- Decoding the index of a cell of the terminal gives the cell back. -/
theorem decode_encode_of_in_terminal (g : RoshellGraphics) (p : Point)
    (hw : 0 < g.term_width_) (hx0 : 0 ≤ p.first) (hx : p.first < g.term_width_)
    (hy0 : 0 ≤ p.second) (_hy : p.second < g.term_height_) :
    g.decode_index_ (g.encode_point_ p) = some p := by
  have hne : g.term_width_ ≠ 0 := ne_of_gt hw
  have hidx : 0 ≤ p.second * g.term_width_ + p.first :=
    add_nonneg (mul_nonneg hy0 hw.le) hx0
  unfold decode_index_ encode_point_
  rw [if_neg hne, Int.tmod_eq_emod hidx hw.le, Int.tdiv_eq_ediv hidx hw.le]
  have h1 : (p.second * g.term_width_ + p.first) % g.term_width_ = p.first := by
    rw [add_comm, Int.add_mul_emod_self, Int.emod_eq_of_lt hx0 hx]
  have h2 : (p.second * g.term_width_ + p.first) / g.term_width_ = p.second := by
    rw [add_comm, Int.add_mul_ediv_right _ _ hne, Int.ediv_eq_zero_of_lt hx0 hx, zero_add]
  rw [h1, h2]

/-- What `clear_buffer` leaves when the buffer length is not negative. -/
theorem clear_buffer_spec (g : RoshellGraphics) (hlen : 0 ≤ g.term_height_ * g.term_width_) :
    ∃ g1, g.clear_buffer = some g1 ∧
      (g1.buffer_.length : Int) = g.term_width_ * g.term_height_ ∧
      (g1.buffer_count_.length : Int) = g.term_width_ * g.term_height_ ∧
      (∀ ch ∈ g1.buffer_, ch = ' ') ∧ (∀ n ∈ g1.buffer_count_, n = 0) ∧
      g1.term_width_ = g.term_width_ ∧ g1.term_height_ = g.term_height_ := by
  refine ⟨{ g with
      buffer_ := List.replicate (g.term_height_ * g.term_width_).toNat ' ',
      buffer_count_ := List.replicate (g.term_height_ * g.term_width_).toNat 0 },
    by unfold clear_buffer; rw [if_pos hlen], ?_, ?_, ?_, ?_, rfl, rfl⟩
  · simp only [List.length_replicate]
    rw [Int.toNat_of_nonneg hlen, mul_comm]
  · simp only [List.length_replicate]
    rw [Int.toNat_of_nonneg hlen, mul_comm]
  · intro ch hch
    exact List.eq_of_mem_replicate hch
  · intro n hn
    exact List.eq_of_mem_replicate hn

/-- Invariant of the loop of `draw`: the cells from `i` to `i + n` receive `draw_cell`,
the other cells and the counts are unchanged. -/
theorem draw_for_spec : ∀ (n i : Nat) (g : RoshellGraphics),
    i + n ≤ g.buffer_.length → g.buffer_.length ≤ g.buffer_count_.length →
    ∃ b : List Char, draw_for n i g = some { g with buffer_ := b } ∧
      b.length = g.buffer_.length ∧
      ∀ j : Nat, b[j]? =
        if i ≤ j ∧ j < i + n then
          (g.buffer_[j]?).map (fun ch => draw_cell ch (g.buffer_count_.getD j 0))
        else g.buffer_[j]? := by
  intro n
  induction n with
  | zero =>
    intro i g _ _
    refine ⟨g.buffer_, rfl, rfl, ?_⟩
    intro j
    have : ¬ (i ≤ j ∧ j < i + 0) := by omega
    rw [if_neg this]
  | succ n ih =>
    intro i g h1 h2
    have hi : i < g.buffer_.length := by omega
    have hic : i < g.buffer_count_.length := by omega
    have hb : g.buffer_[i]? = some g.buffer_[i] := List.getElem?_eq_getElem hi
    have hc : g.buffer_count_[i]? = some g.buffer_count_[i] := List.getElem?_eq_getElem hic
    have hcd : g.buffer_count_.getD i 0 = g.buffer_count_[i] := by
      rw [List.getD_eq_getElem?_getD, hc]; rfl
    have key : ∀ x : Char, x = draw_cell g.buffer_[i] g.buffer_count_[i] →
        ∀ g1 : RoshellGraphics,
          (∀ j : Nat, g1.buffer_[j]? = if i = j then some x else g.buffer_[j]?) →
          g1.buffer_count_ = g.buffer_count_ →
          ∀ b : List Char, (∀ j : Nat, b[j]? =
            if i + 1 ≤ j ∧ j < i + 1 + n then
              (g1.buffer_[j]?).map (fun ch => draw_cell ch (g1.buffer_count_.getD j 0))
            else g1.buffer_[j]?) →
          ∀ j : Nat, b[j]? =
            if i ≤ j ∧ j < i + (n + 1) then
              (g.buffer_[j]?).map (fun ch => draw_cell ch (g.buffer_count_.getD j 0))
            else g.buffer_[j]? := by
      intro x hx g1 hg1 hg1c b hb3 j
      rw [hb3 j, hg1 j, hg1c]
      by_cases hj : i = j
      · subst hj
        have h3 : ¬ (i + 1 ≤ i ∧ i < i + 1 + n) := by omega
        have h4 : i ≤ i ∧ i < i + (n + 1) := by omega
        rw [if_neg h3, if_pos h4, if_pos rfl, hb, hcd, hx]
        rfl
      · rw [if_neg hj]
        by_cases hr : i + 1 ≤ j ∧ j < i + 1 + n
        · have h4 : i ≤ j ∧ j < i + (n + 1) := by omega
          rw [if_pos hr, if_pos h4]
        · have h4 : ¬ (i ≤ j ∧ j < i + (n + 1)) := by omega
          rw [if_neg hr, if_neg h4]
    by_cases hch : g.buffer_[i] ≠ ' '
    · obtain ⟨b, hb1, hb2, hb3⟩ := ih (i + 1) g (by omega) h2
      refine ⟨b, ?_, hb2, ?_⟩
      · rw [draw_for, hb]
        simp only [if_pos hch]
        exact hb1
      · refine key g.buffer_[i] (by simp [draw_cell, hch]) g ?_ rfl b hb3
        intro j
        by_cases hj : i = j
        · subst hj
          rw [if_pos rfl, hb]
        · rw [if_neg hj]
    · have hch2 : g.buffer_[i] = ' ' := not_not.mp hch
      by_cases h6 : g.buffer_count_[i] < 6
      · obtain ⟨b, hb1, hb2, hb3⟩ := ih (i + 1)
          { g with buffer_ := g.buffer_.set i (count_to_char_map_ g.buffer_count_[i]) }
          (by simp only [List.length_set]; omega) (by simp only [List.length_set]; omega)
        refine ⟨b, ?_, by rw [hb2, List.length_set], ?_⟩
        · rw [draw_for, hb]
          simp only [hch, if_false, hc, if_pos h6]
          exact hb1
        · refine key (count_to_char_map_ g.buffer_count_[i]) (by simp [draw_cell, hch2, h6])
            { g with buffer_ := g.buffer_.set i (count_to_char_map_ g.buffer_count_[i]) }
            ?_ rfl b hb3
          intro j
          simp only [List.getElem?_set, if_pos hi]
      · obtain ⟨b, hb1, hb2, hb3⟩ := ih (i + 1)
          { g with buffer_ := g.buffer_.set i '@' }
          (by simp only [List.length_set]; omega) (by simp only [List.length_set]; omega)
        refine ⟨b, ?_, by rw [hb2, List.length_set], ?_⟩
        · rw [draw_for, hb]
          simp only [hch, if_false, hc, if_neg h6]
          exact hb1
        · refine key '@' (by simp [draw_cell, hch2, h6])
            { g with buffer_ := g.buffer_.set i '@' } ?_ rfl b hb3
          intro j
          simp only [List.getElem?_set, if_pos hi]

/-- The buffer `draw` leaves: `draw_cell` of every cell and its count. -/
theorem draw_spec (g : RoshellGraphics) (hlen : g.buffer_.length ≤ g.buffer_count_.length) :
    ∃ b : List Char, g.draw = some { g with buffer_ := b } ∧
      b.length = g.buffer_.length ∧
      ∀ j : Nat, b[j]? =
        (g.buffer_[j]?).map (fun ch => draw_cell ch (g.buffer_count_.getD j 0)) := by
  obtain ⟨b, hb1, hb2, hb3⟩ := draw_for_spec g.buffer_.length 0 g (by omega) hlen
  refine ⟨b, hb1, hb2, ?_⟩
  intro j
  rw [hb3 j]
  by_cases hj : j < g.buffer_.length
  · rw [if_pos (by omega)]
  · rw [if_neg (by omega), List.getElem?_eq_none (by omega)]
    rfl

/-- A call of `fill_buff` changes neither the terminal size nor the buffer lengths. -/
theorem fill_buff_frame {g g1 : RoshellGraphics} {idx : Int} {c : Char}
    (h : g.fill_buff idx c = some g1) :
    g1.term_width_ = g.term_width_ ∧ g1.term_height_ = g.term_height_ ∧
      g1.buffer_.length = g.buffer_.length ∧
      g1.buffer_count_.length = g.buffer_count_.length := by
  unfold fill_buff at h
  split_ifs at h <;> cases h <;> simp

/-- A call of `fill_buff` on an index inside both buffers returns. -/
theorem fill_buff_some (g : RoshellGraphics) (idx : Int) (c : Char)
    (h0 : 0 ≤ idx) (h1 : idx < g.buffer_.length) (h2 : idx < g.buffer_count_.length) :
    ∃ g1, g.fill_buff idx c = some g1 := by
  unfold fill_buff
  by_cases hc : c ≠ ' '
  · rw [if_pos hc, if_pos ⟨h0, h1⟩]
    exact ⟨_, rfl⟩
  · rw [if_neg hc, if_pos ⟨h0, h2⟩]
    exact ⟨_, rfl⟩

/-- Calls made one after the other compose. -/
theorem fill_buff_calls_append : ∀ (l1 l2 : List (Int × Char)) (g : RoshellGraphics),
    fill_buff_calls g (l1 ++ l2) = (fill_buff_calls g l1).bind (fun g1 => fill_buff_calls g1 l2) := by
  intro l1
  induction l1 with
  | nil => intro l2 g; rfl
  | cons a l1 ih =>
    intro l2 g
    obtain ⟨idx, c⟩ := a
    simp only [List.cons_append, fill_buff_calls]
    cases g.fill_buff idx c with
    | none => rfl
    | some g1 => exact ih l2 g1

/-- A sequence of calls on indices inside both buffers returns and keeps the frame. -/
theorem fill_buff_calls_some : ∀ (calls : List (Int × Char)) (g : RoshellGraphics),
    (∀ a ∈ calls, 0 ≤ a.1 ∧ a.1 < g.buffer_.length ∧ a.1 < g.buffer_count_.length) →
    ∃ g1, fill_buff_calls g calls = some g1 ∧
      g1.term_width_ = g.term_width_ ∧ g1.term_height_ = g.term_height_ ∧
      g1.buffer_.length = g.buffer_.length ∧
      g1.buffer_count_.length = g.buffer_count_.length := by
  intro calls
  induction calls with
  | nil => intro g _; exact ⟨g, rfl, rfl, rfl, rfl, rfl⟩
  | cons a rest ih =>
    intro g hv
    obtain ⟨idx, c⟩ := a
    obtain ⟨h0, h1, h2⟩ := hv (idx, c) (List.mem_cons_self _ _)
    obtain ⟨g1, hg1⟩ := fill_buff_some g idx c h0 h1 h2
    obtain ⟨e1, e2, e3, e4⟩ := fill_buff_frame hg1
    obtain ⟨g2, hg2, f1, f2, f3, f4⟩ := ih g1 (by
      intro a ha
      rw [e3, e4]
      exact hv a (List.mem_cons_of_mem _ ha))
    refine ⟨g2, ?_, by rw [f1, e1], by rw [f2, e2], by rw [f3, e3], by rw [f4, e4]⟩
    simp only [fill_buff_calls, hg1]
    exact hg2

/-- Calls that paint no explicit glyph on cell `j` leave its character unchanged. -/
theorem fill_buff_calls_keep : ∀ (calls : List (Int × Char)) (g g1 : RoshellGraphics) (j : Nat),
    fill_buff_calls g calls = some g1 →
    (∀ a ∈ calls, a.1 = (j : Int) → a.2 = ' ') →
    g1.buffer_[j]? = g.buffer_[j]? := by
  intro calls
  induction calls with
  | nil =>
    intro g g1 j h _
    cases h
    rfl
  | cons a rest ih =>
    intro g g1 j h hb
    obtain ⟨idx, c⟩ := a
    simp only [fill_buff_calls] at h
    cases hf : g.fill_buff idx c with
    | none => rw [hf] at h; cases h
    | some g2 =>
      rw [hf] at h
      rw [ih g2 g1 j h (fun a ha => hb a (List.mem_cons_of_mem _ ha))]
      unfold fill_buff at hf
      split_ifs at hf with hc hr hr
      · cases hf
        have hne : idx.toNat ≠ j := by
          intro hj
          apply hc
          apply hb (idx, c) (List.mem_cons_self _ _)
          show idx = (j : Int)
          omega
        simp only [List.getElem?_set, if_neg hne]
      · cases hf
        rfl

/-- Blank calls add to each count the number of calls made on its cell. -/
theorem fill_buff_calls_blank : ∀ (l : List Int) (g : RoshellGraphics),
    (∀ idx ∈ l, 0 ≤ idx ∧ idx < g.buffer_count_.length) →
    ∃ cnt : List Int,
      fill_buff_calls g (l.map (fun idx => (idx, ' '))) = some { g with buffer_count_ := cnt } ∧
      cnt.length = g.buffer_count_.length ∧
      ∀ j : Nat, cnt[j]? = (g.buffer_count_[j]?).map (fun n => n + (l.count (j : Int) : Int)) := by
  intro l
  induction l with
  | nil =>
    intro g _
    refine ⟨g.buffer_count_, rfl, rfl, ?_⟩
    intro j
    simp
  | cons idx rest ih =>
    intro g hv
    obtain ⟨h0, h1⟩ := hv idx (List.mem_cons_self _ _)
    obtain ⟨cnt, hc1, hc2, hc3⟩ := ih
      { g with buffer_count_ := g.buffer_count_.set idx.toNat (g.buffer_count_.getD idx.toNat 0 + 1) }
      (by
        intro i hi
        simp only [List.length_set]
        exact hv i (List.mem_cons_of_mem _ hi))
    refine ⟨cnt, ?_, by rw [hc2, List.length_set], ?_⟩
    · simp only [List.map_cons, fill_buff_calls, fill_buff]
      simp only [ne_eq, not_true_eq_false, if_false, h0, h1, and_self, if_true]
      exact hc1
    · intro j
      rw [hc3 j]
      simp only [List.getElem?_set]
      have hlt : idx.toNat < g.buffer_count_.length := by omega
      by_cases hj : idx.toNat = j
      · have hij : idx = (j : Int) := by omega
        have hlt2 : j < g.buffer_count_.length := by omega
        rw [if_pos hj, if_pos hlt, List.getD_eq_getElem?_getD, hj,
          List.getElem?_eq_getElem hlt2, hij, List.count_cons_self]
        simp only [Option.map_some', Option.getD_some, Nat.cast_add, Nat.cast_one]
        congr 1
        ring
      · have hij : idx ≠ (j : Int) := by omega
        rw [if_neg hj, List.count_cons_of_ne (Ne.symm hij)]

/-! ## The rasteriser -/

/-- The index of a point depends on the terminal width only. -/
theorem encode_point_congr {g g1 : RoshellGraphics} (h : g1.term_width_ = g.term_width_)
    (p : Point) : g1.encode_point_ p = g.encode_point_ p := by
  unfold encode_point_
  rw [h]

/-- One loop of `line` makes the `fill_buff` calls of its indices, in order, and appends
those indices. -/
theorem line_for_eq (c : Char) (cell : Int → Point) :
    ∀ (n : Nat) (v : Int) (ind : List Int) (g : RoshellGraphics),
      line_for c cell n v (ind, g) =
        (fill_buff_calls g
          ((List.range n).map (fun (k : Nat) => (g.encode_point_ (cell (v + (k : Int))), c)))).map
          (fun g1 =>
            (ind ++ (List.range n).map (fun (k : Nat) => g.encode_point_ (cell (v + (k : Int)))),
              g1)) := by
  intro n
  induction n with
  | zero =>
    intro v ind g
    simp [line_for, fill_buff_calls]
  | succ n ih =>
    intro v ind g
    rw [line_for, List.range_succ_eq_map]
    simp only [List.map_cons, List.map_map, fill_buff_calls, Nat.cast_zero, add_zero]
    cases hf : g.fill_buff (g.encode_point_ (cell v)) c with
    | none => rfl
    | some g1 =>
      have hw := (fill_buff_frame hf).1
      simp only []
      rw [ih (v + 1) (ind ++ [g.encode_point_ (cell v)]) g1]
      have e1 : (fun k : Nat => (g1.encode_point_ (cell (v + 1 + (k : Int))), c)) =
          ((fun k : Nat => (g.encode_point_ (cell (v + (k : Int))), c)) ∘ Nat.succ) := by
        funext k
        simp only [Function.comp, Nat.succ_eq_add_one, Nat.cast_add, Nat.cast_one]
        rw [encode_point_congr hw, add_assoc, add_comm (1 : Int)]
      have e2 : (fun k : Nat => g1.encode_point_ (cell (v + 1 + (k : Int)))) =
          ((fun k : Nat => g.encode_point_ (cell (v + (k : Int)))) ∘ Nat.succ) := by
        funext k
        simp only [Function.comp, Nat.succ_eq_add_one, Nat.cast_add, Nat.cast_one]
        rw [encode_point_congr hw, add_assoc, add_comm (1 : Int)]
      rw [e1, e2]
      simp only [List.append_assoc, List.singleton_append]

/-- The function `line` returns `line_indices` and makes the `fill_buff` calls of those
indices, in order. -/
theorem line_eq (g : RoshellGraphics) (pp1 pp2 : Point) (c : Char) :
    g.line pp1 pp2 c =
      (fill_buff_calls g ((g.line_indices pp1 pp2).map (fun idx => (idx, c)))).map
        (fun g1 => (g.line_indices pp1 pp2, g1)) := by
  unfold line line_indices line_points
  simp only []
  split_ifs <;> rw [line_for_eq] <;> simp only [List.map_map, List.nil_append] <;> rfl

/-- Every visited cell lies in the bounding box of the two clamped screen endpoints. -/
theorem line_points_bbox (g : RoshellGraphics) (pp1 pp2 p : Point)
    (hp : p ∈ g.line_points pp1 pp2) :
    min (g.put_within_limits_ (g.fix_frame pp1)).first
        (g.put_within_limits_ (g.fix_frame pp2)).first ≤ p.first ∧
      p.first ≤ max (g.put_within_limits_ (g.fix_frame pp1)).first
        (g.put_within_limits_ (g.fix_frame pp2)).first ∧
      min (g.put_within_limits_ (g.fix_frame pp1)).second
        (g.put_within_limits_ (g.fix_frame pp2)).second ≤ p.second ∧
      p.second ≤ max (g.put_within_limits_ (g.fix_frame pp1)).second
        (g.put_within_limits_ (g.fix_frame pp2)).second := by
  unfold line_points at hp
  simp only [] at hp
  generalize g.put_within_limits_ (g.fix_frame pp1) = P1 at hp ⊢
  generalize g.put_within_limits_ (g.fix_frame pp2) = P2 at hp ⊢
  split_ifs at hp with hx hy hs hlt hlt
  · simp only [List.mem_map, List.mem_range] at hp
    obtain ⟨k, hk, rfl⟩ := hp
    simp only []
    omega
  · simp only [List.mem_map, List.mem_range] at hp
    obtain ⟨k, hk, rfl⟩ := hp
    simp only []
    omega
  · simp only [List.mem_map, List.mem_range] at hp
    obtain ⟨k, hk, rfl⟩ := hp
    simp only []
    have hlo : min P1.first P2.first ≤ P1.first + (k : Int) := by omega
    have hhi : P1.first + (k : Int) ≤ max P1.first P2.first := by omega
    exact ⟨hlo, hhi, shallow_cell_bounds _ _ _ _ _ hx hlo hhi⟩
  · simp only [List.mem_map, List.mem_range] at hp
    obtain ⟨k, hk, rfl⟩ := hp
    simp only []
    have hlo : min P1.first P2.first ≤ P2.first + (k : Int) := by omega
    have hhi : P2.first + (k : Int) ≤ max P1.first P2.first := by omega
    exact ⟨hlo, hhi, shallow_cell_bounds _ _ _ _ _ hx hlo hhi⟩
  · simp only [List.mem_map, List.mem_range] at hp
    obtain ⟨k, hk, rfl⟩ := hp
    simp only []
    have hlo : min P1.second P2.second ≤ P1.second + (k : Int) := by omega
    have hhi : P1.second + (k : Int) ≤ max P1.second P2.second := by omega
    have hne : P1.second ≠ P2.second := by omega
    exact ⟨(steep_cell_bounds _ _ _ _ _ hne hlo hhi).1,
      (steep_cell_bounds _ _ _ _ _ hne hlo hhi).2, hlo, hhi⟩
  · simp only [List.mem_map, List.mem_range] at hp
    obtain ⟨k, hk, rfl⟩ := hp
    simp only []
    have hne : P1.second ≠ P2.second := by
      intro he
      apply hs
      rw [he]
      simp
    have hlo : min P1.second P2.second ≤ P2.second + (k : Int) := by omega
    have hhi : P2.second + (k : Int) ≤ max P1.second P2.second := by omega
    exact ⟨(steep_cell_bounds _ _ _ _ _ hne hlo hhi).1,
      (steep_cell_bounds _ _ _ _ _ hne hlo hhi).2, hlo, hhi⟩

/-- No cell is visited twice: the stepping coordinate increases at every iteration. -/
theorem line_points_nodup (g : RoshellGraphics) (pp1 pp2 : Point) :
    (g.line_points pp1 pp2).Nodup := by
  unfold line_points
  simp only []
  split_ifs <;> refine List.Nodup.map_on ?_ (List.nodup_range _) <;> intro a _ b _ h
  · have h2 := congrArg Point.second h
    simp only [] at h2
    omega
  · have h2 := congrArg Point.second h
    simp only [] at h2
    omega
  · have h2 := congrArg Point.first h
    simp only [] at h2
    omega
  · have h2 := congrArg Point.first h
    simp only [] at h2
    omega
  · have h2 := congrArg Point.second h
    simp only [] at h2
    omega
  · have h2 := congrArg Point.second h
    simp only [] at h2
    omega

/-- Clamping leaves a cell of the terminal unchanged. -/
theorem put_within_limits_id (g : RoshellGraphics) (s : Point) (h : g.in_terminal s) :
    g.put_within_limits_ s = s := by
  obtain ⟨h1, h2, h3, h4⟩ := h
  cases s with
  | mk a b =>
    simp only [put_within_limits_, Point.mk.injEq]
    simp only [] at h1 h2 h3 h4
    constructor <;> omega

/-- The index of a cell of the terminal is a position of the buffers. -/
theorem encode_point_bounds (g : RoshellGraphics) (p : Point) (h : g.in_terminal p) :
    0 ≤ g.encode_point_ p ∧ g.encode_point_ p < g.term_width_ * g.term_height_ := by
  obtain ⟨h1, h2, h3, h4⟩ := h
  unfold encode_point_
  constructor
  · have := mul_nonneg h3 (le_trans h1 h2.le)
    omega
  · have h5 : (p.second + 1) * g.term_width_ ≤ g.term_height_ * g.term_width_ :=
      mul_le_mul_of_nonneg_right (by omega) (le_trans h1 h2.le)
    nlinarith

/-- Distinct cells of the terminal have distinct indices. -/
theorem encode_point_inj (g : RoshellGraphics) (p q : Point)
    (hp : g.in_terminal p) (hq : g.in_terminal q)
    (h : g.encode_point_ p = g.encode_point_ q) : p = q := by
  have e1 := decode_encode_of_in_terminal g p (lt_of_le_of_lt hp.1 hp.2.1) hp.1 hp.2.1 hp.2.2.1 hp.2.2.2
  have e2 := decode_encode_of_in_terminal g q (lt_of_le_of_lt hq.1 hq.2.1) hq.1 hq.2.1 hq.2.2.1 hq.2.2.2
  rw [h, e2] at e1
  exact (Option.some.inj e1).symm

/-- A segment between two cells of the terminal visits cells of the terminal only. -/
theorem line_points_in_terminal (g : RoshellGraphics) (pp1 pp2 : Point)
    (h1 : g.in_terminal (g.fix_frame pp1)) (h2 : g.in_terminal (g.fix_frame pp2)) :
    ∀ p ∈ g.line_points pp1 pp2, g.in_terminal p := by
  intro p hp
  have hb := line_points_bbox g pp1 pp2 p hp
  rw [put_within_limits_id g _ h1, put_within_limits_id g _ h2] at hb
  obtain ⟨a1, a2, a3, a4⟩ := h1
  obtain ⟨b1, b2, b3, b4⟩ := h2
  obtain ⟨c1, c2, c3, c4⟩ := hb
  unfold in_terminal
  omega

/-- A segment between two cells of the terminal returns positions of the buffers only. -/
theorem line_indices_bounds (g : RoshellGraphics) (pp1 pp2 : Point)
    (h1 : g.in_terminal (g.fix_frame pp1)) (h2 : g.in_terminal (g.fix_frame pp2)) :
    ∀ idx ∈ g.line_indices pp1 pp2, 0 ≤ idx ∧ idx < g.term_width_ * g.term_height_ := by
  intro idx hidx
  unfold line_indices at hidx
  obtain ⟨p, hp, rfl⟩ := List.mem_map.mp hidx
  exact encode_point_bounds g p (line_points_in_terminal g pp1 pp2 h1 h2 p hp)

/-- A segment between two cells of the terminal returns no index twice. -/
theorem line_indices_nodup (g : RoshellGraphics) (pp1 pp2 : Point)
    (h1 : g.in_terminal (g.fix_frame pp1)) (h2 : g.in_terminal (g.fix_frame pp2)) :
    (g.line_indices pp1 pp2).Nodup := by
  unfold line_indices
  refine List.Nodup.map_on ?_ (line_points_nodup g pp1 pp2)
  intro p hp q hq h
  exact encode_point_inj g p q (line_points_in_terminal g pp1 pp2 h1 h2 p hp)
    (line_points_in_terminal g pp1 pp2 h1 h2 q hq) h

/-- A blank `line` whose indices are inside the count buffer returns and adds to each
count the number of times its index is returned. -/
theorem line_blank (g : RoshellGraphics) (pp1 pp2 : Point)
    (hv : ∀ idx ∈ g.line_indices pp1 pp2, 0 ≤ idx ∧ idx < g.buffer_count_.length) :
    ∃ cnt : List Int,
      g.line pp1 pp2 ' ' = some (g.line_indices pp1 pp2, { g with buffer_count_ := cnt }) ∧
      cnt.length = g.buffer_count_.length ∧
      ∀ j : Nat, cnt[j]? =
        (g.buffer_count_[j]?).map (fun n => n + ((g.line_indices pp1 pp2).count (j : Int) : Int)) := by
  obtain ⟨cnt, h1, h2, h3⟩ := fill_buff_calls_blank (g.line_indices pp1 pp2) g hv
  refine ⟨cnt, ?_, h2, h3⟩
  rw [line_eq, h1]
  rfl

/-- On a canvas with `width * height` cells, `line` between two cells of the terminal
returns, with `line_indices` as its list. -/
theorem line_some (g : RoshellGraphics) (pp1 pp2 : Point) (c : Char)
    (hb : (g.buffer_.length : Int) = g.term_width_ * g.term_height_)
    (hc : (g.buffer_count_.length : Int) = g.term_width_ * g.term_height_)
    (h1 : g.in_terminal (g.fix_frame pp1)) (h2 : g.in_terminal (g.fix_frame pp2)) :
    ∃ g1 : RoshellGraphics, g.line pp1 pp2 c = some (g.line_indices pp1 pp2, g1) ∧
      g1.term_width_ = g.term_width_ ∧ g1.term_height_ = g.term_height_ ∧
      g1.buffer_.length = g.buffer_.length ∧
      g1.buffer_count_.length = g.buffer_count_.length := by
  have hbounds := line_indices_bounds g pp1 pp2 h1 h2
  obtain ⟨g1, hg1, e1, e2, e3, e4⟩ := fill_buff_calls_some
    ((g.line_indices pp1 pp2).map (fun idx => (idx, c))) g (by
      intro a ha
      obtain ⟨idx, hidx, rfl⟩ := List.mem_map.mp ha
      have := hbounds idx hidx
      simp only []
      omega)
  refine ⟨g1, ?_, e1, e2, e3, e4⟩
  rw [line_eq, hg1]
  rfl

/-- The cells of a horizontal segment between two cells of the terminal. -/
theorem horizontal_points (g : RoshellGraphics) (pp1 pp2 : Point)
    (h1 : g.in_terminal (g.fix_frame pp1)) (h2 : g.in_terminal (g.fix_frame pp2))
    (hy : pp1.second = pp2.second) (hx : pp1.first ≠ pp2.first) :
    g.line_points pp1 pp2 =
      (List.range (Int.natAbs (pp2.first - pp1.first))).map
        (fun (k : Nat) =>
          (⟨min (g.fix_frame pp1).first (g.fix_frame pp2).first + (k : Int),
            (g.fix_frame pp1).second⟩ : Point)) := by
  unfold line_points
  simp only []
  rw [put_within_limits_id g _ h1, put_within_limits_id g _ h2]
  have hsy : (g.fix_frame pp2).second = (g.fix_frame pp1).second := by
    simp only [fix_frame, hy]
  have hsx : (g.fix_frame pp1).first ≠ (g.fix_frame pp2).first := by
    simp only [fix_frame]
    omega
  have hd : (g.fix_frame pp2).first - (g.fix_frame pp1).first = pp2.first - pp1.first := by
    simp only [fix_frame]
    omega
  have hslope : (((g.fix_frame pp2).second : ℚ) - ((g.fix_frame pp1).second : ℚ)) /
      (((g.fix_frame pp2).first : ℚ) - ((g.fix_frame pp1).first : ℚ)) = 0 := by
    rw [hsy, sub_self, zero_div]
  rw [if_neg hsx, hslope]
  have habs : |(0 : ℚ)| ≤ 1 := by norm_num
  rw [if_pos habs]
  have hcell : ∀ z : Int, to_int (((g.fix_frame pp1).second : ℚ) + 0 * (z : ℚ)) =
      (g.fix_frame pp1).second := by
    intro z
    rw [zero_mul, add_zero, to_int_intCast]
  simp only [hcell]
  by_cases hlt : (g.fix_frame pp1).first < (g.fix_frame pp2).first
  · rw [if_pos hlt, min_eq_left hlt.le]
    congr 2
    omega
  · rw [if_neg hlt, min_eq_right (not_lt.mp hlt)]
    congr 2
    omega

/-- The character buffer of `canvas_20x10` has 20 * 10 cells. -/
theorem canvas_20x10_buffer_length :
    (canvas_20x10.buffer_.length : Int) = canvas_20x10.term_width_ * canvas_20x10.term_height_ := by
  show ((List.replicate 200 ' ').length : Int) = 20 * 10
  rw [List.length_replicate]
  rfl

/-- The count buffer of `canvas_20x10` has 20 * 10 cells. -/
theorem canvas_20x10_count_length :
    (canvas_20x10.buffer_count_.length : Int) =
      canvas_20x10.term_width_ * canvas_20x10.term_height_ := by
  show ((List.replicate 200 (0 : Int)).length : Int) = 20 * 10
  rw [List.length_replicate]
  rfl

/-- The canvas `canvas_20x10` is what `clear_buffer` returns on a 20 x 10 terminal. -/
theorem canvas_20x10_cleared :
    clear_buffer ⟨10, 20, [], []⟩ = some canvas_20x10 := by
  rfl

/-! ## The claims about the canvas -/

/-- Claim C1 (defect of the code): on the 20 x 10 canvas the segment from the in-bounds
natural point (5, 0) to the far natural point (0, -995) has the clamped screen endpoints
(15, 5) and (10, 10); the loop starts at x = 10 on row 10 and computes the index 210, which
is not below 20 * 10, in either order of the endpoints, and the buffer write at that index
has no defined result. -/
theorem C1_far_endpoint_index_outside_buffer :
    canvas_20x10.in_terminal (canvas_20x10.fix_frame ⟨5, 0⟩) ∧
      canvas_20x10.put_within_limits_ (canvas_20x10.fix_frame ⟨5, 0⟩) = ⟨15, 5⟩ ∧
      canvas_20x10.fix_frame ⟨0, -995⟩ = ⟨10, 1000⟩ ∧
      canvas_20x10.put_within_limits_ (canvas_20x10.fix_frame ⟨0, -995⟩) = ⟨10, 10⟩ ∧
      canvas_20x10.line_indices ⟨5, 0⟩ ⟨0, -995⟩ = [210, 191, 172, 153, 134] ∧
      canvas_20x10.line_indices ⟨0, -995⟩ ⟨5, 0⟩ = [210, 191, 172, 153, 134] ∧
      ¬ ((210 : Int) < canvas_20x10.term_width_ * canvas_20x10.term_height_) ∧
      canvas_20x10.line ⟨5, 0⟩ ⟨0, -995⟩ ' ' = none ∧
      canvas_20x10.line ⟨0, -995⟩ ⟨5, 0⟩ ' ' = none := by
  have h1 : canvas_20x10.put_within_limits_ (canvas_20x10.fix_frame ⟨5, 0⟩) = ⟨15, 5⟩ := by
    decide
  have h2 : canvas_20x10.put_within_limits_ (canvas_20x10.fix_frame ⟨0, -995⟩) = ⟨10, 10⟩ := by
    decide
  have h5 : Int.toNat 5 = 5 := rfl
  have hw : canvas_20x10.term_width_ = 20 := rfl
  have e1 : canvas_20x10.line_indices ⟨5, 0⟩ ⟨0, -995⟩ = [210, 191, 172, 153, 134] := by
    unfold line_indices line_points
    rw [h1, h2]
    norm_num [h5, hw, List.range_succ, List.range_zero, Function.comp, encode_point_, to_int]
  have e2 : canvas_20x10.line_indices ⟨0, -995⟩ ⟨5, 0⟩ = [210, 191, 172, 153, 134] := by
    unfold line_indices line_points
    rw [h1, h2]
    norm_num [h5, hw, List.range_succ, List.range_zero, Function.comp, encode_point_, to_int]
  have hfill : canvas_20x10.fill_buff 210 ' ' = none := by
    have hlen : canvas_20x10.buffer_count_.length = 200 := List.length_replicate _ _
    unfold fill_buff
    rw [if_neg (by decide), if_neg]
    rw [hlen]
    omega
  refine ⟨by decide, h1, by decide, h2, e1, e2, by decide, ?_, ?_⟩
  · rw [line_eq, e1]
    simp only [List.map_cons, fill_buff_calls, hfill]
    rfl
  · rw [line_eq, e2]
    simp only [List.map_cons, fill_buff_calls, hfill]
    rfl

/-- Claim C2: on a freshly cleared canvas, for every segment whose two endpoints are cells
of the terminal, `line(p1, p2, ' ')` twice and then `draw()` all return, and afterwards every
cell whose index the segment returns holds ':' and every other cell holds ' '. -/
theorem C2_double_blank_line_density (g0 g : RoshellGraphics) (pp1 pp2 : Point)
    (hclear : g0.clear_buffer = some g)
    (h1 : g.in_terminal (g.fix_frame pp1)) (h2 : g.in_terminal (g.fix_frame pp2)) :
    ∃ (ind : List Int) (g1 g2 g3 : RoshellGraphics),
      g.line pp1 pp2 ' ' = some (ind, g1) ∧ g1.line pp1 pp2 ' ' = some (ind, g2) ∧
      g2.draw = some g3 ∧
      (g3.buffer_.length : Int) = g.term_width_ * g.term_height_ ∧
      ∀ i : Nat, (i : Int) < g.term_width_ * g.term_height_ →
        g3.buffer_[i]? = some (if (i : Int) ∈ ind then ':' else ' ') := by
  -- the cleared canvas
  unfold clear_buffer at hclear
  simp only [] at hclear
  split_ifs at hclear with hlen
  cases hclear
  simp only [] at h1 h2 ⊢
  set N := (g0.term_height_ * g0.term_width_).toNat with hN
  set g : RoshellGraphics :=
    { term_height_ := g0.term_height_, term_width_ := g0.term_width_,
      buffer_ := List.replicate N ' ', buffer_count_ := List.replicate N 0 } with hg
  have hNint : (N : Int) = g0.term_width_ * g0.term_height_ := by
    rw [hN, Int.toNat_of_nonneg hlen, mul_comm]
  have hbounds := line_indices_bounds g pp1 pp2 h1 h2
  have hnodup := line_indices_nodup g pp1 pp2 h1 h2
  have hwh : g.term_width_ * g.term_height_ = (N : Int) := hNint.symm
  -- first call
  obtain ⟨cnt1, hl1, hc1, hs1⟩ := line_blank g pp1 pp2 (by
    intro idx hidx
    have := hbounds idx hidx
    simp only [hg, List.length_replicate] at this ⊢
    omega)
  -- second call
  obtain ⟨cnt2, hl2, hc2, hs2⟩ := line_blank { g with buffer_count_ := cnt1 } pp1 pp2 (by
    intro idx hidx
    have := hbounds idx hidx
    simp only [hc1]
    simp only [hg, List.length_replicate] at this ⊢
    omega)
  have hind : line_indices { g with buffer_count_ := cnt1 } pp1 pp2 = g.line_indices pp1 pp2 := rfl
  rw [hind] at hl2 hs2
  -- draw
  obtain ⟨b, hd1, hd2, hd3⟩ := draw_spec
    { g with buffer_count_ := cnt2 } (by
      simp only [hc2, hc1, hg, List.length_replicate]
      exact le_refl _)
  refine ⟨g.line_indices pp1 pp2, _, _, _, hl1, hl2, hd1, ?_, ?_⟩
  · simp only [hd2, hg, List.length_replicate]
    exact hNint
  · intro i hi
    have hiN : i < N := by omega
    rw [show ({ g with buffer_count_ := cnt2 } : RoshellGraphics).buffer_ =
      List.replicate N ' ' from rfl] at hd3
    simp only []
    rw [hd3 i, List.getElem?_replicate, if_pos hiN]
    have hcnt2 : cnt2[i]? = some (0 + ((g.line_indices pp1 pp2).count (i : Int) : Int)
        + ((g.line_indices pp1 pp2).count (i : Int) : Int)) := by
      rw [hs2 i]
      simp only []
      rw [hs1 i]
      simp only [hg, List.getElem?_replicate, if_pos hiN, Option.map_some']
    have hget : List.getD cnt2 i 0 = 0 + ((g.line_indices pp1 pp2).count (i : Int) : Int)
        + ((g.line_indices pp1 pp2).count (i : Int) : Int) := by
      rw [List.getD_eq_getElem?_getD, hcnt2]
      rfl
    simp only [Option.map_some']
    rw [hget]
    by_cases hmem : (i : Int) ∈ g.line_indices pp1 pp2
    · rw [if_pos hmem, List.count_eq_one_of_mem hnodup hmem]
      rfl
    · rw [if_neg hmem, List.count_eq_zero_of_not_mem hmem]
      rfl

/-- Claim C2 at the segment (-5, 0)-(5, 0) of the 20 x 10 canvas. -/
theorem C2_double_blank_line_density_witness :
    ∃ (ind : List Int) (g1 g2 g3 : RoshellGraphics),
      canvas_20x10.line ⟨-5, 0⟩ ⟨5, 0⟩ ' ' = some (ind, g1) ∧
      g1.line ⟨-5, 0⟩ ⟨5, 0⟩ ' ' = some (ind, g2) ∧
      g2.draw = some g3 ∧
      (g3.buffer_.length : Int) = canvas_20x10.term_width_ * canvas_20x10.term_height_ ∧
      ∀ i : Nat, (i : Int) < canvas_20x10.term_width_ * canvas_20x10.term_height_ →
        g3.buffer_[i]? = some (if (i : Int) ∈ ind then ':' else ' ') :=
  C2_double_blank_line_density ⟨10, 20, [], []⟩ canvas_20x10 ⟨-5, 0⟩ ⟨5, 0⟩ canvas_20x10_cleared
    (by decide) (by decide)

/-- Claim C3: for every valid cell index and every non-blank glyph, after any sequence of
`fill_buff` calls in which the last explicit glyph painted on the cell is that glyph (blank
overdraws of the cell and calls on other cells may come before and after), `draw()` leaves
the glyph in the cell. -/
theorem C3_explicit_glyph_priority (g : RoshellGraphics) (idx : Int) (glyph : Char)
    (pre post : List (Int × Char))
    (hlen : g.buffer_count_.length = g.buffer_.length)
    (hidx : 0 ≤ idx ∧ idx < g.buffer_.length)
    (hglyph : glyph ≠ ' ')
    (hvalid : ∀ a ∈ pre ++ post, 0 ≤ a.1 ∧ a.1 < g.buffer_.length)
    (hpost : ∀ a ∈ post, a.1 = idx → a.2 = ' ') :
    ∃ g1 g2 : RoshellGraphics,
      fill_buff_calls g (pre ++ (idx, glyph) :: post) = some g1 ∧
      g1.draw = some g2 ∧ g2.buffer_[idx.toNat]? = some glyph := by
  obtain ⟨ga, ha, _, _, ha3, ha4⟩ := fill_buff_calls_some pre g (by
    intro a ha
    have := hvalid a (List.mem_append_left _ ha)
    exact ⟨this.1, this.2, by rw [hlen]; exact this.2⟩)
  have hfill : ga.fill_buff idx glyph = some { ga with buffer_ := ga.buffer_.set idx.toNat glyph } := by
    unfold fill_buff
    rw [if_pos hglyph, if_pos ⟨hidx.1, by rw [ha3]; exact hidx.2⟩]
  obtain ⟨g1, h1, _, _, h13, h14⟩ := fill_buff_calls_some post
    { ga with buffer_ := ga.buffer_.set idx.toNat glyph } (by
    intro a ha
    have := hvalid a (List.mem_append_right _ ha)
    simp only [List.length_set, ha3, ha4, hlen]
    exact ⟨this.1, this.2, this.2⟩)
  have hkeep := fill_buff_calls_keep post _ g1 idx.toNat h1 (by
    intro a ha hj
    apply hpost a ha
    rw [hj]
    omega)
  have hcell : g1.buffer_[idx.toNat]? = some glyph := by
    rw [hkeep]
    simp only [List.getElem?_set, if_true]
    rw [if_pos (by rw [ha3]; omega)]
  obtain ⟨b, hd1, _, hd3⟩ := draw_spec g1 (by
    rw [h13, h14]
    simp only [List.length_set, ha3, ha4, hlen]
    exact le_refl _)
  refine ⟨g1, { g1 with buffer_ := b }, ?_, hd1, ?_⟩
  · rw [fill_buff_calls_append, ha]
    simp only [Option.bind, fill_buff_calls, hfill]
    exact h1
  · simp only []
    rw [hd3 idx.toNat, hcell]
    simp only [Option.map_some', draw_cell, if_pos hglyph]

/-- Claim C3 at cell 105 of the 20 x 10 canvas: two blank overdraws with a glyph on
another cell between them, then `*`, then a blank overdraw. -/
theorem C3_explicit_glyph_priority_witness :
    ∃ g1 g2 : RoshellGraphics,
      fill_buff_calls canvas_20x10 ([(105, ' '), (7, '#'), (105, ' ')] ++ (105, '*') :: [(105, ' ')]) =
        some g1 ∧
      g1.draw = some g2 ∧ g2.buffer_[(105 : Int).toNat]? = some '*' :=
  C3_explicit_glyph_priority canvas_20x10 105 '*' [(105, ' '), (7, '#'), (105, ' ')] [(105, ' ')]
    (by rw [canvas_20x10, List.length_replicate, List.length_replicate])
    (by rw [canvas_20x10, List.length_replicate]; decide)
    (by decide)
    (by rw [canvas_20x10, List.length_replicate]; decide)
    (by decide)

/-- Claim C4: `draw()` returns, keeps the counts, leaves every non-blank cell unchanged and
replaces every blank cell by the density glyph of its count: 0 gives ' ', 1 '.', 2 ':',
3 '*', 4 '$', 5 '%' and every count of 6 or more '@'. -/
theorem C4_draw_density_table (g : RoshellGraphics) (hlen : g.buffer_count_.length = g.buffer_.length) :
    ∃ g1 : RoshellGraphics, g.draw = some g1 ∧
      g1.buffer_.length = g.buffer_.length ∧ g1.buffer_count_ = g.buffer_count_ ∧
      ∀ (i : Nat) (ch : Char) (n : Int),
        g.buffer_[i]? = some ch → g.buffer_count_[i]? = some n →
          (ch ≠ ' ' → g1.buffer_[i]? = some ch) ∧
          (ch = ' ' →
            (n = 0 → g1.buffer_[i]? = some ' ') ∧
            (n = 1 → g1.buffer_[i]? = some '.') ∧
            (n = 2 → g1.buffer_[i]? = some ':') ∧
            (n = 3 → g1.buffer_[i]? = some '*') ∧
            (n = 4 → g1.buffer_[i]? = some '$') ∧
            (n = 5 → g1.buffer_[i]? = some '%') ∧
            (6 ≤ n → g1.buffer_[i]? = some '@')) := by
  obtain ⟨b, hd1, hd2, hd3⟩ := draw_spec g (le_of_eq hlen.symm)
  refine ⟨{ g with buffer_ := b }, hd1, hd2, rfl, ?_⟩
  intro i ch n hch hn
  have hget : g.buffer_count_.getD i 0 = n := by
    rw [List.getD_eq_getElem?_getD, hn]
    rfl
  have hcell : b[i]? = some (draw_cell ch n) := by
    rw [hd3 i, hch, hget]
    rfl
  simp only []
  rw [hcell]
  refine ⟨?_, ?_⟩
  · intro h
    simp only [draw_cell, if_pos h]
  · intro h
    subst h
    refine ⟨?_, ?_, ?_, ?_, ?_, ?_, ?_⟩
    · intro h
      subst h
      rfl
    · intro h
      subst h
      rfl
    · intro h
      subst h
      rfl
    · intro h
      subst h
      rfl
    · intro h
      subst h
      rfl
    · intro h
      subst h
      rfl
    · intro h
      have h6 : ¬ n < 6 := by omega
      simp only [draw_cell, ne_eq, not_true_eq_false, if_false, if_neg h6]

/-- Claim C4 at a canvas of three cells. -/
theorem C4_draw_density_table_witness :
    ∃ g1 : RoshellGraphics,
      draw ⟨1, 3, [' ', 'x', ' '], [2, 7, 9]⟩ = some g1 ∧
      g1.buffer_.length = 3 ∧ g1.buffer_count_ = [2, 7, 9] ∧
      ∀ (i : Nat) (ch : Char) (n : Int),
        ([' ', 'x', ' '] : List Char)[i]? = some ch → ([2, 7, 9] : List Int)[i]? = some n →
          (ch ≠ ' ' → g1.buffer_[i]? = some ch) ∧
          (ch = ' ' →
            (n = 0 → g1.buffer_[i]? = some ' ') ∧
            (n = 1 → g1.buffer_[i]? = some '.') ∧
            (n = 2 → g1.buffer_[i]? = some ':') ∧
            (n = 3 → g1.buffer_[i]? = some '*') ∧
            (n = 4 → g1.buffer_[i]? = some '$') ∧
            (n = 5 → g1.buffer_[i]? = some '%') ∧
            (6 ≤ n → g1.buffer_[i]? = some '@')) :=
  C4_draw_density_table ⟨1, 3, [' ', 'x', ' '], [2, 7, 9]⟩ rfl

/-- Claim C5: for a horizontal segment (same y, different x) whose endpoints are cells of
the terminal, `line` returns |x2 - x1| indices, all of them in the screen row of the
segment, each one more than the one before. -/
theorem C5_horizontal_segment (g : RoshellGraphics) (pp1 pp2 : Point) (c : Char)
    (hb : (g.buffer_.length : Int) = g.term_width_ * g.term_height_)
    (hc : (g.buffer_count_.length : Int) = g.term_width_ * g.term_height_)
    (h1 : g.in_terminal (g.fix_frame pp1)) (h2 : g.in_terminal (g.fix_frame pp2))
    (hy : pp1.second = pp2.second) (hx : pp1.first ≠ pp2.first) :
    ∃ (ind : List Int) (g1 : RoshellGraphics),
      g.line pp1 pp2 c = some (ind, g1) ∧
      ind.length = Int.natAbs (pp2.first - pp1.first) ∧
      (∀ idx ∈ ind,
        (g.decode_index_ idx).map Point.second = some (g.fix_frame pp1).second) ∧
      (∀ k : Nat, k + 1 < ind.length → ind[k + 1]? = (ind[k]?).map (fun idx => idx + 1)) ∧
      ind = (List.range (Int.natAbs (pp2.first - pp1.first))).map
        (fun (k : Nat) => (g.fix_frame pp1).second * g.term_width_ +
          (min (g.fix_frame pp1).first (g.fix_frame pp2).first + (k : Int))) := by
  obtain ⟨g1, hl, _⟩ := line_some g pp1 pp2 c hb hc h1 h2
  have hpts := horizontal_points g pp1 pp2 h1 h2 hy hx
  have hform : g.line_indices pp1 pp2 =
      (List.range (Int.natAbs (pp2.first - pp1.first))).map
        (fun (k : Nat) => (g.fix_frame pp1).second * g.term_width_ +
          (min (g.fix_frame pp1).first (g.fix_frame pp2).first + (k : Int))) := by
    unfold line_indices
    rw [hpts, List.map_map]
    rfl
  refine ⟨g.line_indices pp1 pp2, g1, hl, ?_, ?_, ?_, hform⟩
  · rw [hform, List.length_map, List.length_range]
  · intro idx hidx
    unfold line_indices at hidx
    obtain ⟨p, hp, rfl⟩ := List.mem_map.mp hidx
    have hin := line_points_in_terminal g pp1 pp2 h1 h2 p hp
    rw [decode_encode_of_in_terminal g p (lt_of_le_of_lt hin.1 hin.2.1) hin.1 hin.2.1 hin.2.2.1
      hin.2.2.2]
    rw [hpts] at hp
    obtain ⟨k, _, rfl⟩ := List.mem_map.mp hp
    rfl
  · intro k hk
    rw [hform] at hk ⊢
    rw [List.length_map, List.length_range] at hk
    rw [List.getElem?_map, List.getElem?_map, List.getElem?_range hk,
      List.getElem?_range (by omega : k < _)]
    simp only [Option.map_some', Nat.cast_add, Nat.cast_one, Option.some.injEq]
    ring

/-- Claim C5 at the example of the specification: on the 20 x 10 canvas the segment
(-5, 0)-(5, 0) returns the ten indices 105..114. -/
theorem C5_horizontal_segment_witness :
    ∃ g1 : RoshellGraphics,
      canvas_20x10.line ⟨-5, 0⟩ ⟨5, 0⟩ ' ' =
        some ([105, 106, 107, 108, 109, 110, 111, 112, 113, 114], g1) := by
  obtain ⟨ind, g1, hl, _, _, _, hform⟩ := C5_horizontal_segment canvas_20x10 ⟨-5, 0⟩ ⟨5, 0⟩ ' '
    canvas_20x10_buffer_length canvas_20x10_count_length (by decide) (by decide) rfl (by decide)
  refine ⟨g1, ?_⟩
  rw [hl, hform]
  rfl

/-- Claim C6: for a positive width and a screen point with `0 <= x < width` and
`0 <= y < height`, `encode_point_` is `y * width + x` and `decode_index_` maps it back to
the point. -/
theorem C6_decode_encode (g : RoshellGraphics) (p : Point)
    (hw : 0 < g.term_width_) (hx0 : 0 ≤ p.first) (hx : p.first < g.term_width_)
    (hy0 : 0 ≤ p.second) (hy : p.second < g.term_height_) :
    g.encode_point_ p = p.second * g.term_width_ + p.first ∧
      g.decode_index_ (g.encode_point_ p) = some p :=
  ⟨rfl, decode_encode_of_in_terminal g p hw hx0 hx hy0 hy⟩

/-- Claim C6 at the screen point (3, 4) of the 20 x 10 canvas. -/
theorem C6_decode_encode_witness :
    canvas_20x10.encode_point_ ⟨3, 4⟩ = 4 * 20 + 3 ∧
      canvas_20x10.decode_index_ (canvas_20x10.encode_point_ ⟨3, 4⟩) = some ⟨3, 4⟩ :=
  C6_decode_encode canvas_20x10 ⟨3, 4⟩ (by decide) (by decide) (by decide) (by decide) (by decide)

/-- Claim C7: `clear_buffer()` leaves both buffers with exactly
`term_width_ * term_height_` cells, every character blank and every count 0, whatever the
buffers held before (the product of the two sizes being non-negative). -/
theorem C7_clear_buffer (g : RoshellGraphics) (hlen : 0 ≤ g.term_height_ * g.term_width_) :
    ∃ g1, g.clear_buffer = some g1 ∧
      (g1.buffer_.length : Int) = g.term_width_ * g.term_height_ ∧
      (g1.buffer_count_.length : Int) = g.term_width_ * g.term_height_ ∧
      (∀ ch ∈ g1.buffer_, ch = ' ') ∧ (∀ n ∈ g1.buffer_count_, n = 0) ∧
      g1.term_width_ = g.term_width_ ∧ g1.term_height_ = g.term_height_ :=
  clear_buffer_spec g hlen

/-- Claim C7 at a 3 x 2 terminal whose buffers held other contents. -/
theorem C7_clear_buffer_witness :
    ∃ g1 : RoshellGraphics, clear_buffer ⟨2, 3, ['x'], [5, 6]⟩ = some g1 ∧
      (g1.buffer_.length : Int) = 3 * 2 ∧
      (g1.buffer_count_.length : Int) = 3 * 2 ∧
      (∀ ch ∈ g1.buffer_, ch = ' ') ∧ (∀ n ∈ g1.buffer_count_, n = 0) ∧
      g1.term_width_ = 3 ∧ g1.term_height_ = 2 :=
  C7_clear_buffer ⟨2, 3, ['x'], [5, 6]⟩ (by decide)

/-- Claim C8: `fix_frame` maps (x, y) to (x + width/2, -y + height/2) with integer
division, and (sx - width/2, height/2 - sy) maps the result back to (x, y), for every point
and every terminal size. -/
theorem C8_fix_frame_inverse (g : RoshellGraphics) (p : Point) :
    g.fix_frame p =
        ⟨p.first + Int.tdiv g.term_width_ 2, -p.second + Int.tdiv g.term_height_ 2⟩ ∧
      (⟨(g.fix_frame p).first - Int.tdiv g.term_width_ 2,
        Int.tdiv g.term_height_ 2 - (g.fix_frame p).second⟩ : Point) = p := by
  refine ⟨rfl, ?_⟩
  cases p with
  | mk a b =>
    simp only [fix_frame, Point.mk.injEq]
    constructor <;> ring

end RoshellGraphics

/-! ## The claims about the projection -/

/-- Claim C9: for a camera-space point with non-zero depth, `project_cam_point` is
(x * f / z, (y * f / z) / 2). -/
theorem C9_project_cam_point (pp : PerspectiveProjection) (p : Vector3f) (hz : p.z ≠ 0) :
    pp.project_cam_point p =
      some ⟨p.x * (pp.camera_.focal_distance : ℚ) / p.z,
        (p.y * (pp.camera_.focal_distance : ℚ) / p.z) / 2⟩ := by
  unfold PerspectiveProjection.project_cam_point
  rw [if_neg hz]
  simp only [Option.some.injEq, Vector2f.mk.injEq]
  constructor
  · rw [mul_div_assoc]
  · rw [mul_div_assoc]
    norm_num
    ring

/-- Claim C9 at the camera-space point (6, 8, 4) with focal distance 2. -/
theorem C9_project_cam_point_witness :
    PerspectiveProjection.project_cam_point
        ⟨⟨⟨3, 4, 5⟩, 2⟩, ⟨⟨3, 4, 5⟩, ⟨0, 1, 0, 1, 0, 0, 0, 0, 1⟩, 5,
          ⟨0, 1, 0, 0, 1, 0, 0, 0, 0, 0, 1, 5, 0, 0, 0, 1⟩⟩⟩ ⟨6, 8, 4⟩ =
      some ⟨6 * ((2 : Int) : ℚ) / 4, (8 * ((2 : Int) : ℚ) / 4) / 2⟩ :=
  C9_project_cam_point _ ⟨6, 8, 4⟩ (by norm_num)

/-- Claim C10 (defect of the code): for a camera at (0, 0, r) the azimuth is
`asin(0 / sqrt(0))`, a division by zero, so the transform of the projector has no value and
no world point (0, 0, d) is projected to (0, 0). -/
theorem C10_camera_on_z_axis_undefined (m : Libm) (hsqrt : m.sqrt 0 = 0) (r d : ℚ) (f : Int) :
    PerspectiveProjection.create m ⟨⟨0, 0, r⟩, f⟩ = none ∧
      (PerspectiveProjection.create m ⟨⟨0, 0, r⟩, f⟩).bind
        (fun pp => pp.project_world_point ⟨0, 0, d⟩) = none := by
  have h : Transform.update m ⟨0, 0, r⟩ = none := by
    unfold Transform.update
    simp only []
    split_ifs with h1 h2
    · rfl
    · rfl
    · exfalso
      apply h2
      have : (0 : ℚ) ^ 2 + 0 ^ 2 = 0 := by norm_num
      rw [this]
      exact hsqrt
  have hc : PerspectiveProjection.create m ⟨⟨0, 0, r⟩, f⟩ = none := by
    unfold PerspectiveProjection.create
    simp only [h]
  exact ⟨hc, by rw [hc]; rfl⟩

/-- Claim C10 at the camera (0, 0, 1) with focal distance 1 and the world point (0, 0, 2),
for a sample `Libm` whose `sqrt` is exact on squares. -/
theorem C10_camera_on_z_axis_undefined_witness :
    PerspectiveProjection.create
        ⟨fun q => (Nat.sqrt q.num.toNat : ℚ) / (Nat.sqrt q.den : ℚ), fun _ => 0, fun _ => 1,
          fun _ => 0, fun _ => 0⟩ ⟨⟨0, 0, 1⟩, 1⟩ = none ∧
      (PerspectiveProjection.create
        ⟨fun q => (Nat.sqrt q.num.toNat : ℚ) / (Nat.sqrt q.den : ℚ), fun _ => 0, fun _ => 1,
          fun _ => 0, fun _ => 0⟩ ⟨⟨0, 0, 1⟩, 1⟩).bind
        (fun pp => pp.project_world_point ⟨0, 0, 2⟩) = none :=
  C10_camera_on_z_axis_undefined _ (by norm_num) 1 2 1

/-! ## Batch projection and the camera transform -/

/-- The sample square root of 25 is 5. -/
theorem libm_sample_sqrt_25 : libm_sample.sqrt 25 = 5 := by
  have h1 : Int.toNat 25 = 5 * 5 := rfl
  simp only [libm_sample]
  norm_num
  rw [h1, Nat.sqrt_eq]
  norm_num

/-- The sample square root of 0 is 0. -/
theorem libm_sample_sqrt_0 : libm_sample.sqrt 0 = 0 := by
  simp only [libm_sample]
  norm_num

/-- The transform exists when neither of the two divisors of `update` is zero. -/
theorem Transform.update_some (m : Libm) (origin : Vector3f)
    (h1 : m.sqrt (origin.x ^ 2 + origin.y ^ 2 + origin.z ^ 2) ≠ 0)
    (h2 : m.sqrt (origin.x ^ 2 + origin.y ^ 2) ≠ 0) :
    ∃ r : Matrix3f,
      r = Transform.angles_to_rotation_matrix m
        (m.asin (origin.y / m.sqrt (origin.x ^ 2 + origin.y ^ 2)))
        (m.acos (origin.z / m.sqrt (origin.x ^ 2 + origin.y ^ 2 + origin.z ^ 2))) ∧
      Transform.update m origin = some
        { origin_ := origin,
          rotation_matrix_ := r,
          rho_ := m.sqrt (origin.x ^ 2 + origin.y ^ 2 + origin.z ^ 2),
          T_ :=
            { m00 := r.m00, m01 := r.m01, m02 := r.m02, m03 := 0,
              m10 := r.m10, m11 := r.m11, m12 := r.m12, m13 := 0,
              m20 := r.m20, m21 := r.m21, m22 := r.m22,
              m23 := m.sqrt (origin.x ^ 2 + origin.y ^ 2 + origin.z ^ 2),
              m30 := 0, m31 := 0, m32 := 0, m33 := 1 } } := by
  refine ⟨_, rfl, ?_⟩
  unfold Transform.update
  simp only [if_neg h1, if_neg h2]

/-- The transform of the sample camera at (3, 4, 0) exists. -/
theorem libm_sample_update_some :
    ∃ tf : Transform, Transform.update libm_sample ⟨3, 4, 0⟩ = some tf := by
  have e1 : ((3 : ℚ) ^ 2 + 4 ^ 2 + 0 ^ 2) = 25 := by norm_num
  have e2 : ((3 : ℚ) ^ 2 + 4 ^ 2) = 25 := by norm_num
  obtain ⟨r, _, h⟩ := Transform.update_some libm_sample ⟨3, 4, 0⟩
    (by simp only [e1, libm_sample_sqrt_25]; norm_num)
    (by simp only [e2, libm_sample_sqrt_25]; norm_num)
  exact ⟨_, h⟩

/-- The two divisors of `update` are not zero for the sample camera at (3, 4, 0). -/
theorem libm_sample_divisors :
    libm_sample.sqrt ((3 : ℚ) ^ 2 + 4 ^ 2 + 0 ^ 2) ≠ 0 ∧
      libm_sample.sqrt ((3 : ℚ) ^ 2 + 4 ^ 2) ≠ 0 := by
  have e1 : ((3 : ℚ) ^ 2 + 4 ^ 2 + 0 ^ 2) = 25 := by norm_num
  have e2 : ((3 : ℚ) ^ 2 + 4 ^ 2) = 25 := by norm_num
  rw [e1, e2, libm_sample_sqrt_25]
  norm_num

namespace PerspectiveProjection

/-- The loop of `project_multiple_cam_points` fills the columns from `i` to `i + n`
with the projections and leaves the other columns unchanged. -/
theorem project_multiple_cam_points_for_spec (pp : PerspectiveProjection)
    (cam : List Vector3f) :
    ∀ (n i : Nat) (image : List (Option Vector2f)),
      i + n ≤ cam.length → cam.length ≤ image.length →
      ∃ out : List (Option Vector2f),
        pp.project_multiple_cam_points_for cam n i image = some out ∧
        out.length = image.length ∧
        ∀ j : Nat, out[j]? =
          if i ≤ j ∧ j < i + n then (cam[j]?).map (fun p => pp.project_cam_point p)
          else image[j]? := by
  intro n
  induction n with
  | zero =>
    intro i image _ _
    refine ⟨image, rfl, rfl, ?_⟩
    intro j
    have : ¬ (i ≤ j ∧ j < i + 0) := by omega
    rw [if_neg this]
  | succ n ih =>
    intro i image h1 h2
    have hi : i < cam.length := by omega
    have hii : i < image.length := by omega
    have hc : cam[i]? = some cam[i] := List.getElem?_eq_getElem hi
    obtain ⟨out, ho1, ho2, ho3⟩ := ih (i + 1) (image.set i (pp.project_cam_point cam[i]))
      (by omega) (by rw [List.length_set]; exact h2)
    refine ⟨out, ?_, by rw [ho2, List.length_set], ?_⟩
    · rw [project_multiple_cam_points_for, hc]
      simp only [if_pos hii]
      exact ho1
    · intro j
      rw [ho3 j, List.getElem?_set]
      by_cases hj : i = j
      · subst hj
        have h3 : ¬ (i + 1 ≤ i ∧ i < i + 1 + n) := by omega
        have h4 : i ≤ i ∧ i < i + (n + 1) := by omega
        rw [if_neg h3, if_pos h4, if_pos rfl, if_pos hii, hc]
        rfl
      · rw [if_neg hj]
        by_cases hr : i + 1 ≤ j ∧ j < i + 1 + n
        · have h4 : i ≤ j ∧ j < i + (n + 1) := by omega
          rw [if_pos hr, if_pos h4]
        · have h4 : ¬ (i ≤ j ∧ j < i + (n + 1)) := by omega
          rw [if_neg hr, if_neg h4]

/-- Column `i` of the transformed matrix is `transform_world_point` of column `i`. -/
theorem transform_multiple_world_points_eq (pp : PerspectiveProjection)
    (pts : List Vector3f) :
    pp.transform_multiple_world_points pts = pts.map (fun p => pp.transform_world_point p) := by
  unfold transform_multiple_world_points
  simp only [List.map_map]
  rfl

/-- Claim C11: for every matrix of world points, `project_multiple_world_points` returns a
matrix with as many columns, and its column `i` is `project_world_point` of column `i` of
the input (a column without a defined value where `project_world_point` has none). -/
theorem C11_project_multiple_world_points (pp : PerspectiveProjection)
    (points_in_world_frame : List Vector3f) :
    ∃ out : List (Option Vector2f),
      pp.project_multiple_world_points points_in_world_frame = some out ∧
      out.length = points_in_world_frame.length ∧
      ∀ (i : Nat) (hi : i < points_in_world_frame.length),
        out[i]? = some (pp.project_world_point points_in_world_frame[i]) := by
  have hlen : (pp.transform_multiple_world_points points_in_world_frame).length =
      points_in_world_frame.length := by
    rw [transform_multiple_world_points_eq, List.length_map]
  obtain ⟨out, ho1, ho2, ho3⟩ := project_multiple_cam_points_for_spec pp
    (pp.transform_multiple_world_points points_in_world_frame)
    (pp.transform_multiple_world_points points_in_world_frame).length 0
    (List.replicate points_in_world_frame.length none) (by omega)
    (by rw [hlen, List.length_replicate])
  refine ⟨out, ho1, by rw [ho2, List.length_replicate], ?_⟩
  intro i hi
  rw [ho3 i, if_pos (by omega), transform_multiple_world_points_eq, List.getElem?_map,
    List.getElem?_eq_getElem hi]
  rfl

/-- Claim C12: `update_camera` replaces the transform by the one derived from
`camera.location` and keeps `camera_`: the focal distance is unchanged and
`project_cam_point` gives the same result for every camera-space point. -/
theorem C12_update_camera_keeps_focal (m : Libm) (pp : PerspectiveProjection) (camera : Camera)
    (tf : Transform) (htf : Transform.update m camera.location = some tf) :
    pp.update_camera m camera = some { camera_ := pp.camera_, tf_ := tf } ∧
      ({ camera_ := pp.camera_, tf_ := tf } : PerspectiveProjection).camera_.focal_distance =
        pp.camera_.focal_distance ∧
      ∀ p : Vector3f,
        ({ camera_ := pp.camera_, tf_ := tf } : PerspectiveProjection).project_cam_point p =
          pp.project_cam_point p := by
  refine ⟨?_, rfl, fun p => rfl⟩
  unfold update_camera
  rw [htf]

/-- Claim C12 at a projector with focal distance 2, updated to the camera at (3, 4, 0). -/
theorem C12_update_camera_keeps_focal_witness :
    ∃ tf : Transform, Transform.update libm_sample ⟨3, 4, 0⟩ = some tf ∧
      update_camera libm_sample
          ⟨⟨⟨0, 0, 5⟩, 2⟩, ⟨⟨0, 0, 5⟩, ⟨0, 1, 0, 1, 0, 0, 0, 0, 1⟩, 5,
            ⟨0, 1, 0, 0, 1, 0, 0, 0, 0, 0, 1, 5, 0, 0, 0, 1⟩⟩⟩ ⟨⟨3, 4, 0⟩, 9⟩ =
        some { camera_ := ⟨⟨0, 0, 5⟩, 2⟩, tf_ := tf } ∧
      ∀ p : Vector3f,
        ({ camera_ := ⟨⟨0, 0, 5⟩, 2⟩, tf_ := tf } : PerspectiveProjection).project_cam_point p =
          project_cam_point
            ⟨⟨⟨0, 0, 5⟩, 2⟩, ⟨⟨0, 0, 5⟩, ⟨0, 1, 0, 1, 0, 0, 0, 0, 1⟩, 5,
              ⟨0, 1, 0, 0, 1, 0, 0, 0, 0, 0, 1, 5, 0, 0, 0, 1⟩⟩⟩ p := by
  obtain ⟨tf, htf⟩ := libm_sample_update_some
  have h := C12_update_camera_keeps_focal libm_sample
    ⟨⟨⟨0, 0, 5⟩, 2⟩, ⟨⟨0, 0, 5⟩, ⟨0, 1, 0, 1, 0, 0, 0, 0, 1⟩, 5,
      ⟨0, 1, 0, 0, 1, 0, 0, 0, 0, 0, 1, 5, 0, 0, 0, 1⟩⟩⟩ ⟨⟨3, 4, 0⟩, 9⟩ tf htf
  exact ⟨tf, htf, h.1, h.2.2⟩

/-- Claim C17: when the transform has a value, `rho_` is the square root of the sum of
the squares, the 4x4 matrix has the rotation as its top-left block, (0, 0, rho) as its
top-right column and (0, 0, 0, 1) as its bottom row, and `transform_world_point(p)` is the
first three rows of its product with (p, 1), that is `R * p + (0, 0, rho)`. -/
theorem C17_transform_world_point_affine (m : Libm) (camera : Camera)
    (h1 : m.sqrt (camera.location.x ^ 2 + camera.location.y ^ 2 + camera.location.z ^ 2) ≠ 0)
    (h2 : m.sqrt (camera.location.x ^ 2 + camera.location.y ^ 2) ≠ 0) :
    ∃ pp : PerspectiveProjection, create m camera = some pp ∧
      pp.tf_.rho_ =
        m.sqrt (camera.location.x ^ 2 + camera.location.y ^ 2 + camera.location.z ^ 2) ∧
      pp.tf_.get_transformation_matrix =
        { m00 := pp.tf_.rotation_matrix_.m00, m01 := pp.tf_.rotation_matrix_.m01,
          m02 := pp.tf_.rotation_matrix_.m02, m03 := 0,
          m10 := pp.tf_.rotation_matrix_.m10, m11 := pp.tf_.rotation_matrix_.m11,
          m12 := pp.tf_.rotation_matrix_.m12, m13 := 0,
          m20 := pp.tf_.rotation_matrix_.m20, m21 := pp.tf_.rotation_matrix_.m21,
          m22 := pp.tf_.rotation_matrix_.m22, m23 := pp.tf_.rho_,
          m30 := 0, m31 := 0, m32 := 0, m33 := 1 } ∧
      ∀ p : Vector3f,
        pp.transform_world_point p =
          { x := (pp.tf_.rotation_matrix_.mul_vec p).x + 0,
            y := (pp.tf_.rotation_matrix_.mul_vec p).y + 0,
            z := (pp.tf_.rotation_matrix_.mul_vec p).z + pp.tf_.rho_ } ∧
        (pp.tf_.get_transformation_matrix.mul_vec ⟨p.x, p.y, p.z, 1⟩).x =
          (pp.transform_world_point p).x ∧
        (pp.tf_.get_transformation_matrix.mul_vec ⟨p.x, p.y, p.z, 1⟩).y =
          (pp.transform_world_point p).y ∧
        (pp.tf_.get_transformation_matrix.mul_vec ⟨p.x, p.y, p.z, 1⟩).z =
          (pp.transform_world_point p).z := by
  obtain ⟨r, _, h⟩ := Transform.update_some m camera.location h1 h2
  refine ⟨_, by unfold create; rw [h], rfl, rfl, ?_⟩
  intro p
  refine ⟨?_, rfl, rfl, rfl⟩
  simp only [transform_world_point, Transform.get_transformation_matrix, Matrix3f.mul_vec,
    Vector3f.mk.injEq]
  refine ⟨?_, ?_, ?_⟩ <;> ring

/-- Claim C17 at the camera at (3, 4, 0) with the sample `Libm`. -/
theorem C17_transform_world_point_affine_witness :
    ∃ pp : PerspectiveProjection, create libm_sample ⟨⟨3, 4, 0⟩, 2⟩ = some pp ∧
      pp.tf_.rho_ =
        libm_sample.sqrt ((3 : ℚ) ^ 2 + 4 ^ 2 + 0 ^ 2) ∧
      pp.tf_.get_transformation_matrix =
        { m00 := pp.tf_.rotation_matrix_.m00, m01 := pp.tf_.rotation_matrix_.m01,
          m02 := pp.tf_.rotation_matrix_.m02, m03 := 0,
          m10 := pp.tf_.rotation_matrix_.m10, m11 := pp.tf_.rotation_matrix_.m11,
          m12 := pp.tf_.rotation_matrix_.m12, m13 := 0,
          m20 := pp.tf_.rotation_matrix_.m20, m21 := pp.tf_.rotation_matrix_.m21,
          m22 := pp.tf_.rotation_matrix_.m22, m23 := pp.tf_.rho_,
          m30 := 0, m31 := 0, m32 := 0, m33 := 1 } ∧
      ∀ p : Vector3f,
        pp.transform_world_point p =
          { x := (pp.tf_.rotation_matrix_.mul_vec p).x + 0,
            y := (pp.tf_.rotation_matrix_.mul_vec p).y + 0,
            z := (pp.tf_.rotation_matrix_.mul_vec p).z + pp.tf_.rho_ } ∧
        (pp.tf_.get_transformation_matrix.mul_vec ⟨p.x, p.y, p.z, 1⟩).x =
          (pp.transform_world_point p).x ∧
        (pp.tf_.get_transformation_matrix.mul_vec ⟨p.x, p.y, p.z, 1⟩).y =
          (pp.transform_world_point p).y ∧
        (pp.tf_.get_transformation_matrix.mul_vec ⟨p.x, p.y, p.z, 1⟩).z =
          (pp.transform_world_point p).z :=
  C17_transform_world_point_affine libm_sample ⟨⟨3, 4, 0⟩, 2⟩ libm_sample_divisors.1
    libm_sample_divisors.2

/-- Claim C19 (defect of the code, the one of claim C10): for a camera at (0, 0, r) the
transform has no value, so the world origin is mapped neither to (0, 0, rho) nor to the
image point (0, 0); for every camera for which the two divisors of `update` are not zero
the world origin is mapped to (0, 0, rho) and projected to (0, 0). -/
theorem C19_origin_camera_on_z_axis (m : Libm) (hsqrt : m.sqrt 0 = 0) :
    (∀ (r : ℚ) (f : Int),
      (create m ⟨⟨0, 0, r⟩, f⟩).map (fun pp => pp.transform_world_point ⟨0, 0, 0⟩) = none ∧
      (create m ⟨⟨0, 0, r⟩, f⟩).bind (fun pp => pp.project_world_point ⟨0, 0, 0⟩) = none) ∧
    (∀ camera : Camera,
      m.sqrt (camera.location.x ^ 2 + camera.location.y ^ 2 + camera.location.z ^ 2) ≠ 0 →
      m.sqrt (camera.location.x ^ 2 + camera.location.y ^ 2) ≠ 0 →
      ∃ pp : PerspectiveProjection, create m camera = some pp ∧
        pp.transform_world_point ⟨0, 0, 0⟩ =
          ⟨0, 0, m.sqrt (camera.location.x ^ 2 + camera.location.y ^ 2 +
            camera.location.z ^ 2)⟩ ∧
        pp.project_world_point ⟨0, 0, 0⟩ = some ⟨0, 0⟩) := by
  constructor
  · intro r f
    have h : Transform.update m ⟨0, 0, r⟩ = none := by
      unfold Transform.update
      simp only []
      split_ifs with h1 h2
      · rfl
      · rfl
      · exfalso
        apply h2
        have : (0 : ℚ) ^ 2 + 0 ^ 2 = 0 := by norm_num
        rw [this]
        exact hsqrt
    have hc : create m ⟨⟨0, 0, r⟩, f⟩ = none := by
      unfold create
      simp only [h]
    rw [hc]
    exact ⟨rfl, rfl⟩
  · intro camera h1 h2
    obtain ⟨r, _, h⟩ := Transform.update_some m camera.location h1 h2
    have ht : ∀ tf : Transform, tf.T_.m03 = 0 → tf.T_.m13 = 0 →
        transform_world_point ⟨camera, tf⟩ ⟨0, 0, 0⟩ = ⟨0, 0, tf.T_.m23⟩ := by
      intro tf e1 e2
      simp only [transform_world_point, Transform.get_transformation_matrix, e1, e2,
        Vector3f.mk.injEq]
      refine ⟨?_, ?_, ?_⟩ <;> ring
    refine ⟨_, by unfold create; rw [h], ?_, ?_⟩
    · rw [ht _ rfl rfl]
    · unfold project_world_point
      rw [ht _ rfl rfl]
      unfold project_cam_point
      simp only [if_neg h1, zero_mul, mul_zero]

/-- Claim C19 with the sample `Libm`. -/
theorem C19_origin_camera_on_z_axis_witness :
    (∀ (r : ℚ) (f : Int),
      (create libm_sample ⟨⟨0, 0, r⟩, f⟩).map (fun pp => pp.transform_world_point ⟨0, 0, 0⟩) = none ∧
      (create libm_sample ⟨⟨0, 0, r⟩, f⟩).bind (fun pp => pp.project_world_point ⟨0, 0, 0⟩) = none) ∧
    (∀ camera : Camera,
      libm_sample.sqrt (camera.location.x ^ 2 + camera.location.y ^ 2 + camera.location.z ^ 2) ≠ 0 →
      libm_sample.sqrt (camera.location.x ^ 2 + camera.location.y ^ 2) ≠ 0 →
      ∃ pp : PerspectiveProjection, create libm_sample camera = some pp ∧
        pp.transform_world_point ⟨0, 0, 0⟩ =
          ⟨0, 0, libm_sample.sqrt (camera.location.x ^ 2 + camera.location.y ^ 2 +
            camera.location.z ^ 2)⟩ ∧
        pp.project_world_point ⟨0, 0, 0⟩ = some ⟨0, 0⟩) :=
  C19_origin_camera_on_z_axis libm_sample libm_sample_sqrt_0

end PerspectiveProjection

/-- Claim C18 (defect of the code): the third row of `angles_to_rotation_matrix` has
`cos(theta)` in its second entry, where the second row has `sin(theta)`; the entry (0, 2)
of `R * R^T` is `sin(phi) * cos(theta) * (sin(theta) - cos(theta))` and the entry (2, 2) is
`2 * (sin(phi) * cos(theta))^2 + cos(phi)^2`, so `R * R^T` is not the identity whenever the
first of the two is not zero. -/
theorem C18_rotation_rows_not_orthonormal (m : Libm) (theta phi : ℚ)
    (h : m.sin phi * m.cos theta * (m.sin theta - m.cos theta) ≠ 0) :
    ((Transform.angles_to_rotation_matrix m theta phi).mul
        (Transform.angles_to_rotation_matrix m theta phi).transpose).m02 =
        m.sin phi * m.cos theta * (m.sin theta - m.cos theta) ∧
      ((Transform.angles_to_rotation_matrix m theta phi).mul
        (Transform.angles_to_rotation_matrix m theta phi).transpose).m22 =
        2 * (m.sin phi * m.cos theta) ^ 2 + m.cos phi ^ 2 ∧
      (Transform.angles_to_rotation_matrix m theta phi).mul
        (Transform.angles_to_rotation_matrix m theta phi).transpose ≠ Matrix3f.identity := by
  have e : ((Transform.angles_to_rotation_matrix m theta phi).mul
        (Transform.angles_to_rotation_matrix m theta phi).transpose).m02 =
        m.sin phi * m.cos theta * (m.sin theta - m.cos theta) := by
    simp only [Transform.angles_to_rotation_matrix, Matrix3f.mul, Matrix3f.transpose]
    ring
  refine ⟨e, ?_, ?_⟩
  · simp only [Transform.angles_to_rotation_matrix, Matrix3f.mul, Matrix3f.transpose]
    ring
  · intro hid
    have h2 := congrArg Matrix3f.m02 hid
    rw [e] at h2
    exact h h2

/-- Claim C18 at theta = 0 and phi = 1 with the sample `Libm`. -/
theorem C18_rotation_rows_not_orthonormal_witness :
    ((Transform.angles_to_rotation_matrix libm_sample 0 1).mul
        (Transform.angles_to_rotation_matrix libm_sample 0 1).transpose).m02 =
        libm_sample.sin 1 * libm_sample.cos 0 * (libm_sample.sin 0 - libm_sample.cos 0) ∧
      ((Transform.angles_to_rotation_matrix libm_sample 0 1).mul
        (Transform.angles_to_rotation_matrix libm_sample 0 1).transpose).m22 =
        2 * (libm_sample.sin 1 * libm_sample.cos 0) ^ 2 + libm_sample.cos 1 ^ 2 ∧
      (Transform.angles_to_rotation_matrix libm_sample 0 1).mul
        (Transform.angles_to_rotation_matrix libm_sample 0 1).transpose ≠ Matrix3f.identity :=
  C18_rotation_rows_not_orthonormal libm_sample 0 1 (by simp only [libm_sample]; norm_num)

/-! ## The plot -/

namespace PlotGraph

/-- Adding a non-negative amount to an integer and truncating does not go below it. -/
theorem to_int_add_nonneg (a : Int) (q : ℚ) (hq : 0 ≤ q) : a ≤ to_int ((a : ℚ) + q) := by
  have h : (a : ℚ) ≤ (a : ℚ) + q := by linarith
  have := to_int_mono h
  rwa [to_int_intCast] at this

/-- After `DrawAxis` the y-limit is not below the origin, for a non-negative height. -/
theorem DrawAxis_y_len_nonneg (pg : PlotGraph) (ylabel : String) (hh : 0 ≤ pg.term_height_) :
    0 ≤ (pg.DrawAxis ylabel).1.ylimit_.second - (pg.DrawAxis ylabel).1.origin_.second := by
  have hq : (0 : ℚ) ≤ 0.85 * (pg.term_height_ : ℚ) := by
    have : (0 : ℚ) ≤ (pg.term_height_ : ℚ) := by exact_mod_cast hh
    have h85 : (0 : ℚ) ≤ 0.85 := by norm_num
    exact mul_nonneg h85 this
  have := to_int_add_nonneg (Int.tdiv (-pg.term_height_) 2 + pg.pad_h_) _ hq
  simp only [DrawAxis]
  omega

/-- Every sample is marked with `*` at its plotted point. -/
theorem loop_calls_marker (pg : PlotGraph) (min_y max_y : ℚ) :
    ∀ (vals : List Int) (prev : Point) (i0 k : Nat) (hk : k < vals.length),
      PlotCall.add_text (pg.plotted max_y vals[k] (i0 + k)) "*" ∈
        loop_calls pg min_y max_y prev vals i0 := by
  intro vals
  induction vals with
  | nil =>
    intro prev i0 k hk
    simp at hk
  | cons v rest ih =>
    intro prev i0 k hk
    rw [loop_calls]
    cases k with
    | zero =>
      apply List.mem_append_left
      unfold iteration_calls
      apply List.mem_append_right
      simp
    | succ k =>
      apply List.mem_append_right
      have hk2 : k < rest.length := by
        simp only [List.length_cons] at hk
        omega
      have := ih (pg.plotted max_y v i0) (i0 + 1) k hk2
      simp only [List.getElem_cons_succ]
      rw [show i0 + (k + 1) = i0 + 1 + k by omega]
      exact this

/-- The anchor points and the tick spacing of the 80 x 24 plot after `DrawAxis`. -/
theorem plot_80x24_axis (ylabel : String) :
    (plot_80x24.DrawAxis ylabel).1 =
      { term_width_ := 80, term_height_ := 24, pad_h_ := 2, pad_w_ := 4, one_tick_x_ := 2,
        origin_ := ⟨-36, -10⟩, xlimit_ := ⟨32, -10⟩, ylimit_ := ⟨-36, 10⟩ } := by
  have e1 : Int.tdiv (-(80 : Int)) 2 + 4 = -36 := by decide
  have e2 : Int.tdiv (-(24 : Int)) 2 + 2 = -10 := by decide
  have e3 : to_int (((-36 : Int) : ℚ) + 0.85 * ((80 : Int) : ℚ)) = 32 := by
    have : ((-36 : Int) : ℚ) + 0.85 * ((80 : Int) : ℚ) = ((32 : Int) : ℚ) := by norm_num
    rw [this, to_int_intCast]
  have e4 : to_int (((-10 : Int) : ℚ) + 0.85 * ((24 : Int) : ℚ)) = 10 := by
    unfold to_int
    norm_num
  have e5 : Int.tdiv ((32 : Int) - (-36)) 30 = 2 := by decide
  simp only [DrawAxis, plot_80x24, e1, e2, e3, e4, e5]

end PlotGraph

/-! ## Clamping of an off-screen segment -/

namespace RoshellGraphics

/-- Claim C16 fails: on the 20 x 10 canvas the segment between the natural points (-15, 3)
and (-15, -2) lies in the screen column x = -5, left of the terminal; its endpoints are
clamped to the two different screen points (0, 2) and (0, 7), and `line` touches the five
cells (0, 2) .. (0, 6) of column 0. -/
theorem C16_off_screen_segment_not_degenerate :
    canvas_20x10.fix_frame ⟨-15, 3⟩ = ⟨-5, 2⟩ ∧
      canvas_20x10.fix_frame ⟨-15, -2⟩ = ⟨-5, 7⟩ ∧
      canvas_20x10.off_screen (canvas_20x10.fix_frame ⟨-15, 3⟩)
        (canvas_20x10.fix_frame ⟨-15, -2⟩) ∧
      canvas_20x10.put_within_limits_ (canvas_20x10.fix_frame ⟨-15, 3⟩) = ⟨0, 2⟩ ∧
      canvas_20x10.put_within_limits_ (canvas_20x10.fix_frame ⟨-15, -2⟩) = ⟨0, 7⟩ ∧
      canvas_20x10.put_within_limits_ (canvas_20x10.fix_frame ⟨-15, 3⟩) ≠
        canvas_20x10.put_within_limits_ (canvas_20x10.fix_frame ⟨-15, -2⟩) ∧
      canvas_20x10.line_points ⟨-15, 3⟩ ⟨-15, -2⟩ = [⟨0, 2⟩, ⟨0, 3⟩, ⟨0, 4⟩, ⟨0, 5⟩, ⟨0, 6⟩] ∧
      ∃ g1 : RoshellGraphics,
        canvas_20x10.line ⟨-15, 3⟩ ⟨-15, -2⟩ ' ' = some ([40, 60, 80, 100, 120], g1) := by
  have h1 : canvas_20x10.put_within_limits_ (canvas_20x10.fix_frame ⟨-15, 3⟩) = ⟨0, 2⟩ := by
    decide
  have h2 : canvas_20x10.put_within_limits_ (canvas_20x10.fix_frame ⟨-15, -2⟩) = ⟨0, 7⟩ := by
    decide
  have hpts : canvas_20x10.line_points ⟨-15, 3⟩ ⟨-15, -2⟩ =
      [⟨0, 2⟩, ⟨0, 3⟩, ⟨0, 4⟩, ⟨0, 5⟩, ⟨0, 6⟩] := by
    unfold line_points
    rw [h1, h2]
    decide
  have hind : canvas_20x10.line_indices ⟨-15, 3⟩ ⟨-15, -2⟩ = [40, 60, 80, 100, 120] := by
    unfold line_indices
    rw [hpts]
    decide
  refine ⟨by decide, by decide, ?_, h1, h2, by rw [h1, h2]; decide, hpts, ?_⟩
  · intro t _ _ hin
    have hx := hin.1
    have e1 : (canvas_20x10.fix_frame ⟨-15, 3⟩).first = -5 := by decide
    have e2 : (canvas_20x10.fix_frame ⟨-15, -2⟩).first = -5 := by decide
    rw [e1, e2] at hx
    norm_num at hx
  · have hb : canvas_20x10.buffer_.length = 200 := List.length_replicate _ _
    have hc : canvas_20x10.buffer_count_.length = 200 := List.length_replicate _ _
    obtain ⟨g1, hg1, _⟩ := fill_buff_calls_some
      ((canvas_20x10.line_indices ⟨-15, 3⟩ ⟨-15, -2⟩).map (fun idx => (idx, ' '))) canvas_20x10
      (by
        rw [hind, hb, hc]
        decide)
    refine ⟨g1, ?_⟩
    rw [line_eq, hg1, hind]
    rfl

/-! ## Idempotence and symmetry -/

/-- A second pass of the loop body of `draw` over a cell changes nothing. -/
theorem draw_cell_idem (ch : Char) (cnt : Int) :
    draw_cell (draw_cell ch cnt) cnt = draw_cell ch cnt := by
  by_cases h : ch ≠ ' '
  · simp only [draw_cell, if_pos h]
  · by_cases h2 : (if cnt < 6 then count_to_char_map_ cnt else '@') ≠ ' '
    · simp only [draw_cell, if_neg h, if_pos h2]
    · simp only [draw_cell, if_neg h, if_neg h2]

/-- The cells visited do not depend on the order of the two endpoints. -/
theorem line_points_symm (g : RoshellGraphics) (pp1 pp2 : Point) :
    g.line_points pp1 pp2 = g.line_points pp2 pp1 := by
  unfold line_points
  simp only []
  generalize g.put_within_limits_ (g.fix_frame pp1) = P1
  generalize g.put_within_limits_ (g.fix_frame pp2) = P2
  by_cases hx : P1.first = P2.first
  · rw [if_pos hx, if_pos hx.symm]
    by_cases hy : P1.second < P2.second
    · rw [if_pos hy, if_neg (by omega), hx]
    · rw [if_neg hy]
      by_cases hy2 : P2.second < P1.second
      · rw [if_pos hy2, hx]
      · have he : P1.second = P2.second := by omega
        rw [if_neg hy2, he, hx]
  · rw [if_neg hx, if_neg (Ne.symm hx)]
    have hdx : ((P2.first : ℚ) - (P1.first : ℚ)) ≠ 0 := by
      intro h
      apply hx
      have : (P2.first : ℚ) = (P1.first : ℚ) := by linarith
      exact_mod_cast this.symm
    have hs : ((P1.second : ℚ) - (P2.second : ℚ)) / ((P1.first : ℚ) - (P2.first : ℚ)) =
        ((P2.second : ℚ) - (P1.second : ℚ)) / ((P2.first : ℚ) - (P1.first : ℚ)) := by
      rw [← neg_sub (P2.second : ℚ), ← neg_sub (P2.first : ℚ), neg_div_neg_eq]
    rw [hs]
    by_cases habs : |((P2.second : ℚ) - (P1.second : ℚ)) / ((P2.first : ℚ) - (P1.first : ℚ))| ≤ 1
    · rw [if_pos habs, if_pos habs]
      have hcell : ∀ x : Int, to_int ((P2.second : ℚ) +
            ((P2.second : ℚ) - (P1.second : ℚ)) / ((P2.first : ℚ) - (P1.first : ℚ)) *
              ((x - P2.first : Int) : ℚ)) =
          to_int ((P1.second : ℚ) +
            ((P2.second : ℚ) - (P1.second : ℚ)) / ((P2.first : ℚ) - (P1.first : ℚ)) *
              ((x - P1.first : Int) : ℚ)) := by
        intro x
        congr 1
        push_cast
        field_simp
        ring
      simp only [hcell]
      by_cases hlt : P1.first < P2.first
      · rw [if_pos hlt, if_neg (by omega)]
      · rw [if_neg hlt, if_pos (by omega)]
    · rw [if_neg habs, if_neg habs]
      have hdy : ((P2.second : ℚ) - (P1.second : ℚ)) ≠ 0 := by
        intro h
        apply habs
        rw [h, zero_div, abs_zero]
        exact zero_le_one
      have hyne : P1.second ≠ P2.second := by
        intro h
        apply hdy
        rw [h, sub_self]
      have hcell : ∀ y : Int, to_int ((P2.first : ℚ) + ((y - P2.second : Int) : ℚ) /
            (((P2.second : ℚ) - (P1.second : ℚ)) / ((P2.first : ℚ) - (P1.first : ℚ)))) =
          to_int ((P1.first : ℚ) + ((y - P1.second : Int) : ℚ) /
            (((P2.second : ℚ) - (P1.second : ℚ)) / ((P2.first : ℚ) - (P1.first : ℚ)))) := by
        intro y
        congr 1
        push_cast
        field_simp
        ring
      simp only [hcell]
      by_cases hlt : P1.second < P2.second
      · rw [if_pos hlt, if_neg (by omega)]
      · rw [if_neg hlt, if_pos (by omega)]

/-- Claim C23: for every state whose two buffers have the same length (whatever the
counts), `draw()` returns a state on which a second `draw()` changes nothing, and the count
buffer and the terminal size are those of the state before. -/
theorem C23_draw_idempotent (g : RoshellGraphics) (hlen : g.buffer_count_.length = g.buffer_.length) :
    ∃ g1 : RoshellGraphics, g.draw = some g1 ∧ g1.draw = some g1 ∧
      g1.buffer_count_ = g.buffer_count_ ∧
      g1.term_width_ = g.term_width_ ∧ g1.term_height_ = g.term_height_ := by
  obtain ⟨b, hd1, hd2, hd3⟩ := draw_spec g (le_of_eq hlen.symm)
  obtain ⟨b2, he1, he2, he3⟩ := draw_spec { g with buffer_ := b }
    (by simp only [hd2]; exact le_of_eq hlen.symm)
  have hbb : b2 = b := by
    apply List.ext_getElem?
    intro j
    rw [he3 j]
    simp only []
    rw [hd3 j]
    cases g.buffer_[j]? with
    | none => rfl
    | some ch =>
      simp only [Option.map_some', draw_cell_idem]
  refine ⟨{ g with buffer_ := b }, hd1, ?_, rfl, rfl, rfl⟩
  rw [he1, hbb]

/-- Claim C23 at a canvas of four cells, two of them blank with a positive count. -/
theorem C23_draw_idempotent_witness :
    ∃ g1 : RoshellGraphics,
      draw ⟨1, 4, [' ', 'x', ' ', ' '], [2, 7, 0, 9]⟩ = some g1 ∧ g1.draw = some g1 ∧
      g1.buffer_count_ = [2, 7, 0, 9] ∧ g1.term_width_ = 4 ∧ g1.term_height_ = 1 :=
  C23_draw_idempotent ⟨1, 4, [' ', 'x', ' ', ' '], [2, 7, 0, 9]⟩ rfl

/-- Claim C24: `line(p1, p2, c)` and `line(p2, p1, c)` visit the same cells in the same
order, compute the same list of indices and have the same result: the same list and the
same two buffers, or no defined result for both (slope arithmetic exact). -/
theorem C24_line_symmetric (g : RoshellGraphics) (pp1 pp2 : Point) (c : Char) :
    g.line_points pp1 pp2 = g.line_points pp2 pp1 ∧
      g.line_indices pp1 pp2 = g.line_indices pp2 pp1 ∧
      g.line pp1 pp2 c = g.line pp2 pp1 c := by
  have h := line_points_symm g pp1 pp2
  have h2 : g.line_indices pp1 pp2 = g.line_indices pp2 pp1 := by
    unfold line_indices
    rw [h]
  refine ⟨h, h2, ?_⟩
  rw [line_eq, line_eq, h2]

end RoshellGraphics

/-! ## Rounding to binary32 -/

/-- The nearest integer is not below the floor. -/
theorem floor_le_round_half_even (x : ℚ) : ⌊x⌋ ≤ round_half_even x := by
  unfold round_half_even
  split_ifs <;> omega

/-- The nearest integer is at most one above the floor. -/
theorem round_half_even_le_floor_add_one (x : ℚ) : round_half_even x ≤ ⌊x⌋ + 1 := by
  unfold round_half_even
  split_ifs <;> omega

/-- An integer is its own nearest integer. -/
theorem round_half_even_intCast (n : Int) : round_half_even (n : ℚ) = n := by
  unfold round_half_even
  simp

/-- Rounding to the nearest integer, ties to even, is monotone. -/
theorem round_half_even_mono {x y : ℚ} (h : x ≤ y) : round_half_even x ≤ round_half_even y := by
  have hf : ⌊x⌋ ≤ ⌊y⌋ := Int.floor_mono h
  rcases lt_or_eq_of_le hf with hlt | heq
  · have h1 := round_half_even_le_floor_add_one x
    have h2 := floor_le_round_half_even y
    omega
  · unfold round_half_even
    rw [← heq]
    split_ifs <;> first | omega | (exfalso; linarith)

/-- The nearest integer is at most one half above the value. -/
theorem round_half_even_sub_le (x : ℚ) : (round_half_even x : ℚ) - x ≤ 1 / 2 := by
  have h1 := Int.floor_le x
  have h2 := Int.lt_floor_add_one x
  unfold round_half_even
  split_ifs <;> push_cast <;> linarith

/-- The nearest integer is at most one half below the value. -/
theorem sub_round_half_even_le (x : ℚ) : x - (round_half_even x : ℚ) ≤ 1 / 2 := by
  have h1 := Int.floor_le x
  have h2 := Int.lt_floor_add_one x
  unfold round_half_even
  split_ifs <;> push_cast <;> linarith

/-- Rounding to the nearest integer, ties to even, commutes with negation. -/
theorem round_half_even_neg (x : ℚ) : round_half_even (-x) = -round_half_even x := by
  by_cases hx : (⌊x⌋ : ℚ) = x
  · rw [← hx, ← Int.cast_neg, round_half_even_intCast, round_half_even_intCast]
  · have h1 := Int.floor_le x
    have h2 := Int.lt_floor_add_one x
    have h3 : (⌊x⌋ : ℚ) < x := lt_of_le_of_ne h1 hx
    have hf : ⌊-x⌋ = -⌊x⌋ - 1 := by
      rw [Int.floor_eq_iff]
      push_cast
      constructor <;> linarith
    unfold round_half_even
    rw [hf]
    push_cast
    split_ifs <;> first | omega | (exfalso; linarith)

/-- A power of two is positive. -/
theorem ulp_pos (e : Int) : (0 : ℚ) < 2 ^ e := zpow_pos (by norm_num) e

/-- A value and its negation lie in the same binade. -/
theorem binary32_exponent_neg (q : ℚ) : binary32_exponent (-q) = binary32_exponent q := by
  unfold binary32_exponent
  rw [abs_neg]

/-- The exponent of a binade is at least -126. -/
theorem binary32_exponent_ge (q : ℚ) : -126 ≤ binary32_exponent q := le_max_right _ _

/-- The binary logarithm of a magnitude between two consecutive powers of two. -/
theorem log_eq_of_bounds (q : ℚ) (e : Int) (h1 : (2 : ℚ) ^ e ≤ |q|) (h2 : |q| < (2 : ℚ) ^ (e + 1)) :
    Int.log 2 |q| = e := by
  have hpos : (0 : ℚ) < |q| := lt_of_lt_of_le (ulp_pos e) h1
  have a : e ≤ Int.log 2 |q| := by
    rw [← Int.zpow_le_iff_le_log (by norm_num) hpos]
    exact_mod_cast h1
  have b : Int.log 2 |q| < e + 1 := by
    rw [← Int.lt_zpow_iff_log_lt (by norm_num) hpos]
    exact_mod_cast h2
  omega

/-- The exponent of the binade of a magnitude between two consecutive powers of two. -/
theorem binary32_exponent_eq (q : ℚ) (e : Int) (h1 : (2 : ℚ) ^ e ≤ |q|)
    (h2 : |q| < (2 : ℚ) ^ (e + 1)) (h3 : -126 ≤ e) : binary32_exponent q = e := by
  unfold binary32_exponent
  rw [log_eq_of_bounds q e h1 h2]
  exact max_eq_left h3

/-- The magnitude is below the end of its binade. -/
theorem abs_lt_zpow_exponent (q : ℚ) : |q| < (2 : ℚ) ^ (binary32_exponent q + 1) := by
  have h := Int.lt_zpow_succ_log_self (b := 2) (by norm_num) |q|
  have h2 : ((2 : ℕ) : ℚ) ^ (Int.log 2 |q| + 1) ≤ (2 : ℚ) ^ (binary32_exponent q + 1) := by
    rw [Nat.cast_ofNat]
    apply zpow_le_zpow_right₀ (by norm_num)
    have : Int.log 2 |q| ≤ binary32_exponent q := le_max_left _ _
    omega
  exact lt_of_lt_of_le h h2

/-- Above the subnormal range the magnitude is at least the start of its binade. -/
theorem zpow_exponent_le_abs (q : ℚ) (hq : q ≠ 0) (h : -126 < binary32_exponent q) :
    (2 : ℚ) ^ (binary32_exponent q) ≤ |q| := by
  have hlog : binary32_exponent q = Int.log 2 |q| := by
    unfold binary32_exponent at h ⊢
    rcases le_total (Int.log 2 |q|) (-126) with hle | hle
    · rw [max_eq_right hle] at h
      omega
    · exact max_eq_left hle
  have hpos : 0 < |q| := abs_pos.mpr hq
  rw [hlog]
  have := Int.zpow_log_le_self (b := 2) (by norm_num) hpos
  exact_mod_cast this

/-- The exponent of the binade is monotone on the positive values. -/
theorem binary32_exponent_mono {a b : ℚ} (ha : 0 < a) (h : a ≤ b) :
    binary32_exponent a ≤ binary32_exponent b := by
  unfold binary32_exponent
  apply max_le_max _ (le_refl _)
  rw [abs_of_pos ha, abs_of_pos (lt_of_lt_of_le ha h)]
  exact Int.log_mono_right ha h

/-- Zero is a binary32 value. -/
theorem round32_zero : round32 0 = 0 := by
  unfold round32
  rw [zero_div]
  have := round_half_even_intCast 0
  rw [Int.cast_zero] at this
  rw [this, Int.cast_zero, zero_mul]

/-- The rounding to binary32 commutes with negation. -/
theorem round32_neg (q : ℚ) : round32 (-q) = -round32 q := by
  unfold round32
  rw [binary32_exponent_neg, neg_div, round_half_even_neg]
  push_cast
  ring

/-- The rounding to binary32 of a non-negative value is not negative. -/
theorem round32_nonneg {q : ℚ} (h : 0 ≤ q) : 0 ≤ round32 q := by
  unfold round32
  apply mul_nonneg _ (ulp_pos _).le
  have h1 : (0 : ℚ) ≤ q / 2 ^ (binary32_exponent q - 23) := div_nonneg h (ulp_pos _).le
  have h2 := round_half_even_mono h1
  have h3 := round_half_even_intCast 0
  rw [Int.cast_zero] at h3
  rw [h3] at h2
  exact_mod_cast h2

/-- The rounding at a value whose binade is known. -/
theorem round32_eval (q : ℚ) (e n : Int) (h1 : (2 : ℚ) ^ e ≤ |q|) (h2 : |q| < (2 : ℚ) ^ (e + 1))
    (h3 : -126 ≤ e) (hn : round_half_even (q / 2 ^ (e - 23)) = n) :
    round32 q = (n : ℚ) * 2 ^ (e - 23) := by
  unfold round32
  rw [binary32_exponent_eq q e h1 h2 h3, hn]

/-- The rounded value is at most the end of the binade. -/
theorem round32_le_zpow {q : ℚ} (h : 0 ≤ q) : round32 q ≤ (2 : ℚ) ^ (binary32_exponent q + 1) := by
  have hlt := abs_lt_zpow_exponent q
  rw [abs_of_nonneg h] at hlt
  have hu := ulp_pos (binary32_exponent q - 23)
  have e1 : (2 : ℚ) ^ (binary32_exponent q + 1) = ((16777216 : Int) : ℚ) * 2 ^ (binary32_exponent q - 23) := by
    rw [show binary32_exponent q + 1 = 24 + (binary32_exponent q - 23) by ring,
      zpow_add₀ (by norm_num : (2 : ℚ) ≠ 0)]
    norm_num
  have h4 : q / 2 ^ (binary32_exponent q - 23) ≤ ((16777216 : Int) : ℚ) := by
    rw [div_le_iff₀ hu, ← e1]
    exact hlt.le
  have h5 := round_half_even_mono h4
  rw [round_half_even_intCast] at h5
  unfold round32
  rw [e1]
  apply mul_le_mul_of_nonneg_right _ hu.le
  exact_mod_cast h5

/-- Above the subnormal range the rounded value is at least the start of the binade. -/
theorem zpow_le_round32 {q : ℚ} (h : 0 < q) (he : -126 < binary32_exponent q) :
    (2 : ℚ) ^ (binary32_exponent q) ≤ round32 q := by
  have hle := zpow_exponent_le_abs q (ne_of_gt h) he
  rw [abs_of_pos h] at hle
  have hu := ulp_pos (binary32_exponent q - 23)
  have e1 : (2 : ℚ) ^ (binary32_exponent q) = ((8388608 : Int) : ℚ) * 2 ^ (binary32_exponent q - 23) := by
    rw [show binary32_exponent q = 23 + (binary32_exponent q - 23) by ring,
      zpow_add₀ (by norm_num : (2 : ℚ) ≠ 0)]
    norm_num
  have h4 : ((8388608 : Int) : ℚ) ≤ q / 2 ^ (binary32_exponent q - 23) := by
    rw [le_div_iff₀ hu, ← e1]
    exact hle
  have h5 := round_half_even_mono h4
  rw [round_half_even_intCast] at h5
  unfold round32
  rw [e1]
  apply mul_le_mul_of_nonneg_right _ hu.le
  exact_mod_cast h5

/-- The rounding to binary32 is monotone on the non-negative values. -/
theorem round32_mono_of_nonneg {a b : ℚ} (ha : 0 ≤ a) (h : a ≤ b) : round32 a ≤ round32 b := by
  rcases eq_or_lt_of_le ha with h0 | hpos
  · rw [← h0, round32_zero]
    exact round32_nonneg (le_trans ha h)
  · have hb : 0 < b := lt_of_lt_of_le hpos h
    have he := binary32_exponent_mono hpos h
    rcases eq_or_lt_of_le he with heq | hlt
    · unfold round32
      rw [heq]
      apply mul_le_mul_of_nonneg_right _ (ulp_pos _).le
      have := round_half_even_mono (div_le_div_of_nonneg_right h (ulp_pos (binary32_exponent b - 23)).le)
      exact_mod_cast this
    · have h1 := round32_le_zpow ha
      have h2 := zpow_le_round32 hb (by have := binary32_exponent_ge a; omega)
      have h3 : (2 : ℚ) ^ (binary32_exponent a + 1) ≤ (2 : ℚ) ^ (binary32_exponent b) :=
        zpow_le_zpow_right₀ (by norm_num) (by omega)
      linarith

/-- The rounding to binary32 is monotone. -/
theorem round32_mono {a b : ℚ} (h : a ≤ b) : round32 a ≤ round32 b := by
  rcases le_total 0 a with ha | ha
  · exact round32_mono_of_nonneg ha h
  · rcases le_total 0 b with hb | hb
    · have h1 := round32_nonneg (neg_nonneg.mpr ha)
      rw [round32_neg] at h1
      have h2 := round32_nonneg hb
      linarith
    · have := round32_mono_of_nonneg (neg_nonneg.mpr hb) (neg_le_neg h)
      rw [round32_neg, round32_neg] at this
      linarith

/-- The distance between a value and its rounding is at most half a unit in the last place. -/
theorem round32_abs_sub_le (q : ℚ) : |round32 q - q| ≤ 2 ^ (binary32_exponent q - 24) := by
  have hu := ulp_pos (binary32_exponent q - 23)
  have e1 : (2 : ℚ) ^ (binary32_exponent q - 24) = 1 / 2 * 2 ^ (binary32_exponent q - 23) := by
    rw [show binary32_exponent q - 24 = -1 + (binary32_exponent q - 23) by ring,
      zpow_add₀ (by norm_num : (2 : ℚ) ≠ 0)]
    norm_num
  have h1 := round_half_even_sub_le (q / 2 ^ (binary32_exponent q - 23))
  have h2 := sub_round_half_even_le (q / 2 ^ (binary32_exponent q - 23))
  have hq : q = q / 2 ^ (binary32_exponent q - 23) * 2 ^ (binary32_exponent q - 23) := by
    field_simp
  unfold round32
  rw [e1, abs_le]
  constructor
  · nlinarith
  · nlinarith

/-- A dyadic value with a significand below 2^24 and an exponent in range is a binary32 value. -/
theorem round32_dyadic (m : Int) (k : Nat) (hm : |m| < 2 ^ 24) (hk : k ≤ 149) :
    round32 ((m : ℚ) / 2 ^ k) = (m : ℚ) / 2 ^ k := by
  rcases eq_or_ne m 0 with h0 | h0
  · rw [h0, Int.cast_zero, zero_div, round32_zero]
  have hek : binary32_exponent ((m : ℚ) / 2 ^ k) + (k : Int) ≤ 23 := by
    unfold binary32_exponent
    have h126 : (-126 : Int) + (k : Int) ≤ 23 := by omega
    have hpos : (0 : ℚ) < |(m : ℚ) / 2 ^ k| := by
      apply abs_pos.mpr
      apply div_ne_zero
      · exact_mod_cast h0
      · positivity
    have hlt : |(m : ℚ) / 2 ^ k| < ((2 : ℕ) : ℚ) ^ ((24 : Int) - (k : Int)) := by
      rw [abs_div, abs_of_pos (by positivity : (0 : ℚ) < 2 ^ k), Nat.cast_ofNat,
        zpow_sub₀ (by norm_num : (2 : ℚ) ≠ 0), zpow_natCast]
      apply div_lt_div_of_pos_right _ (by positivity)
      have : ((|m| : Int) : ℚ) < ((2 ^ 24 : Int) : ℚ) := by exact_mod_cast hm
      rw [Int.cast_abs] at this
      norm_num at this ⊢
      exact this
    have := (Int.lt_zpow_iff_log_lt (by norm_num) hpos).mp hlt
    rcases le_total (Int.log 2 |(m : ℚ) / 2 ^ k|) (-126) with h | h
    · rw [max_eq_right h]
      omega
    · rw [max_eq_left h]
      omega
  obtain ⟨j, hj⟩ : ∃ j : Nat, (j : Int) = 23 - binary32_exponent ((m : ℚ) / 2 ^ k) - (k : Int) :=
    ⟨(23 - binary32_exponent ((m : ℚ) / 2 ^ k) - (k : Int)).toNat, by omega⟩
  have he : binary32_exponent ((m : ℚ) / 2 ^ k) - 23 = -((j : Int) + (k : Int)) := by omega
  have hquot : (m : ℚ) / 2 ^ k / 2 ^ (binary32_exponent ((m : ℚ) / 2 ^ k) - 23) =
      ((m * 2 ^ j : Int) : ℚ) := by
    rw [he, zpow_neg, zpow_add₀ (by norm_num : (2 : ℚ) ≠ 0), zpow_natCast, zpow_natCast]
    push_cast
    field_simp
    ring
  unfold round32
  rw [hquot, round_half_even_intCast, he, zpow_neg, zpow_add₀ (by norm_num : (2 : ℚ) ≠ 0),
    zpow_natCast, zpow_natCast]
  push_cast
  field_simp
  ring

/-- An integer of magnitude below `2 ^ 24` is a binary32 value. -/
theorem round32_intCast (m : Int) (hm : |m| < 2 ^ 24) : round32 (m : ℚ) = (m : ℚ) := by
  have := round32_dyadic m 0 hm (by omega)
  simpa using this


/-- A value of magnitude at least `2 ^ (-126)` is rounded with a relative error of at most
`2 ^ (-24)`. -/
theorem round32_rel_err (q : ℚ) (h : (2 : ℚ) ^ (-126 : Int) ≤ |q|) :
    |round32 q - q| ≤ |q| * 2 ^ (-24 : Int) := by
  have hq : q ≠ 0 := by
    intro h0
    rw [h0, abs_zero] at h
    exact absurd h (not_le.mpr (ulp_pos _))
  have hle : (2 : ℚ) ^ (binary32_exponent q) ≤ |q| := by
    rcases eq_or_lt_of_le (binary32_exponent_ge q) with he | he
    · rw [← he]
      exact h
    · exact zpow_exponent_le_abs q hq he
  have h1 := round32_abs_sub_le q
  have e1 : (2 : ℚ) ^ (binary32_exponent q - 24) = 2 ^ (binary32_exponent q) * 2 ^ (-24 : Int) := by
    rw [show binary32_exponent q - 24 = binary32_exponent q + (-24) by ring,
      zpow_add₀ (by norm_num : (2 : ℚ) ≠ 0)]
  rw [e1] at h1
  have h24 : (0 : ℚ) ≤ 2 ^ (-24 : Int) := (ulp_pos _).le
  exact le_trans h1 (mul_le_mul_of_nonneg_right hle h24)

namespace RoshellGraphics

/-- The function `line_fl` returns `line_indices_fl` and makes the `fill_buff` calls of
those indices, in order. -/
theorem line_fl_eq (fl : ℚ → ℚ) (ov : AbsOverload) (g : RoshellGraphics) (pp1 pp2 : Point)
    (c : Char) :
    g.line_fl fl ov pp1 pp2 c =
      (fill_buff_calls g ((g.line_indices_fl fl ov pp1 pp2).map (fun idx => (idx, c)))).map
        (fun g1 => (g.line_indices_fl fl ov pp1 pp2, g1)) := by
  unfold line_fl line_indices_fl line_points_fl
  simp only []
  split_ifs <;> rw [line_for_eq] <;> simp only [List.map_map, List.nil_append] <;> rfl

/-- With exact arithmetic and the overload `float abs(float)` the cells of `line_fl` are
those of `line`. -/
theorem line_points_fl_exact (g : RoshellGraphics) (pp1 pp2 : Point) :
    g.line_points_fl id AbsOverload.float_abs pp1 pp2 = g.line_points pp1 pp2 := by
  unfold line_points_fl line_points abs_slope_le_one
  simp only [id, decide_eq_true_eq]

end RoshellGraphics

/-! ## The overload of `abs` in `line` -/

namespace RoshellGraphics

/-- A natural number below `2 ^ 24` is a binary32 value. -/
theorem round32_natCast (n : Nat) (h : n < 2 ^ 24) : round32 (n : ℚ) = (n : ℚ) := by
  have := round32_intCast (n : Int) (by rw [abs_of_nonneg (by omega)]; exact_mod_cast h)
  simpa using this

/-- When every index of `line_indices_fl` is a position of both buffers, `line_fl` returns
that list. -/
theorem line_fl_some (fl : ℚ → ℚ) (ov : AbsOverload) (g : RoshellGraphics) (pp1 pp2 : Point)
    (c : Char)
    (hv : ∀ idx ∈ g.line_indices_fl fl ov pp1 pp2,
      0 ≤ idx ∧ idx < g.buffer_.length ∧ idx < g.buffer_count_.length) :
    ∃ g1 : RoshellGraphics,
      g.line_fl fl ov pp1 pp2 c = some (g.line_indices_fl fl ov pp1 pp2, g1) := by
  obtain ⟨g1, hg1, _⟩ := fill_buff_calls_some
    ((g.line_indices_fl fl ov pp1 pp2).map (fun idx => (idx, c))) g (by
      intro a ha
      obtain ⟨idx, hidx, rfl⟩ := List.mem_map.mp ha
      exact hv idx hidx)
  refine ⟨g1, ?_⟩
  rw [line_fl_eq, hg1]
  rfl

/-- The compiled `line` on the 20 x 10 canvas, between the screen points (10, 4) and
(13, 9): the binary32 slope 1.6666666 is converted to the `int` 1 by `int abs(int)`, the
loop steps along x and visits three cells. -/
theorem line_points_fl_binary32_int_abs_steep :
    canvas_20x10.line_points_fl round32 AbsOverload.int_abs ⟨0, 1⟩ ⟨3, -4⟩ =
      [⟨10, 4⟩, ⟨11, 5⟩, ⟨12, 7⟩] := by
  have h1 : canvas_20x10.put_within_limits_ (canvas_20x10.fix_frame ⟨0, 1⟩) = ⟨10, 4⟩ := by decide
  have h2 : canvas_20x10.put_within_limits_ (canvas_20x10.fix_frame ⟨3, -4⟩) = ⟨13, 9⟩ := by decide
  have h3 : Int.toNat 3 = 3 := rfl
  have e0 : round32 (0 : ℚ) = 0 := round32_zero
  have e1 : round32 (1 : ℚ) = 1 := by simpa using round32_natCast 1 (by norm_num)
  have e2 : round32 (2 : ℚ) = 2 := by simpa using round32_natCast 2 (by norm_num)
  have e3 : round32 (3 : ℚ) = 3 := by simpa using round32_natCast 3 (by norm_num)
  have e4 : round32 (4 : ℚ) = 4 := by simpa using round32_natCast 4 (by norm_num)
  have e5 : round32 (5 : ℚ) = 5 := by simpa using round32_natCast 5 (by norm_num)
  have e9 : round32 (9 : ℚ) = 9 := by simpa using round32_natCast 9 (by norm_num)
  have e10 : round32 (10 : ℚ) = 10 := by simpa using round32_natCast 10 (by norm_num)
  have e13 : round32 (13 : ℚ) = 13 := by simpa using round32_natCast 13 (by norm_num)
  have s : round32 (5 / 3) = 13981013 / 8388608 := by
    rw [round32_eval (5 / 3) 0 13981013 (by norm_num [abs_of_pos]) (by norm_num [abs_of_pos])
      (by norm_num) (by unfold round_half_even; norm_num)]
    norm_num
  unfold line_points_fl
  rw [h1, h2]
  norm_num [h3, List.range_succ, List.range_zero, e0, e1, e2, e3, e4, e5, e9, e10, e13, s]
  have hs : abs_slope_le_one AbsOverload.int_abs (13981013 / 8388608) = true := by
    unfold abs_slope_le_one to_int
    norm_num
  have a1 : round32 (13981013 / 8388608) = 13981013 / 8388608 := by
    have := round32_dyadic 13981013 23 (by norm_num) (by norm_num)
    norm_num at this ⊢
    exact this
  have a2 : round32 (13981013 / 4194304) = 13981013 / 4194304 := by
    have := round32_dyadic 13981013 22 (by norm_num) (by norm_num)
    norm_num at this ⊢
    exact this
  have b1 : round32 (47535445 / 8388608) = 11883861 / 2097152 := by
    rw [round32_eval _ 2 11883861 (by norm_num [abs_of_pos]) (by norm_num [abs_of_pos])
      (by norm_num) (by unfold round_half_even; norm_num)]
    norm_num
  have b2 : round32 (30758229 / 4194304) = 15379114 / 2097152 := by
    rw [round32_eval _ 2 15379114 (by norm_num [abs_of_pos]) (by norm_num [abs_of_pos])
      (by norm_num) (by unfold round_half_even; norm_num)]
    norm_num
  have t0 : to_int 4 = 4 := by simpa using to_int_intCast 4
  have t1 : to_int (11883861 / 2097152) = 5 := by
    unfold to_int
    norm_num
  have t2 : to_int (15379114 / 2097152) = 7 := by
    unfold to_int
    norm_num
  rw [if_pos hs, a1, a2, t0]
  have c1 : (4 : ℚ) + 13981013 / 8388608 = 47535445 / 8388608 := by norm_num
  have c2 : (4 : ℚ) + 13981013 / 4194304 = 30758229 / 4194304 := by norm_num
  rw [c1, c2, b1, b2, t1, t2]

/-- The same segment with exact slope arithmetic and `int abs(int)`: the slope 5/3 is
converted to the `int` 1 and the loop steps along x. -/
theorem line_points_fl_exact_int_abs_steep :
    canvas_20x10.line_points_fl id AbsOverload.int_abs ⟨0, 1⟩ ⟨3, -4⟩ =
      [⟨10, 4⟩, ⟨11, 5⟩, ⟨12, 7⟩] := by
  have h1 : canvas_20x10.put_within_limits_ (canvas_20x10.fix_frame ⟨0, 1⟩) = ⟨10, 4⟩ := by decide
  have h2 : canvas_20x10.put_within_limits_ (canvas_20x10.fix_frame ⟨3, -4⟩) = ⟨13, 9⟩ := by decide
  have h3 : Int.toNat 3 = 3 := rfl
  have hs : abs_slope_le_one AbsOverload.int_abs (5 / 3) = true := by
    unfold abs_slope_le_one to_int
    norm_num
  unfold line_points_fl
  rw [h1, h2]
  norm_num [h3, List.range_succ, List.range_zero, hs, to_int]

/-- The same segment with exact slope arithmetic and `float abs(float)`: the loop steps
along y and visits five cells. -/
theorem line_points_fl_exact_float_abs_steep :
    canvas_20x10.line_points_fl id AbsOverload.float_abs ⟨0, 1⟩ ⟨3, -4⟩ =
      [⟨10, 4⟩, ⟨10, 5⟩, ⟨11, 6⟩, ⟨11, 7⟩, ⟨12, 8⟩] := by
  have h1 : canvas_20x10.put_within_limits_ (canvas_20x10.fix_frame ⟨0, 1⟩) = ⟨10, 4⟩ := by decide
  have h2 : canvas_20x10.put_within_limits_ (canvas_20x10.fix_frame ⟨3, -4⟩) = ⟨13, 9⟩ := by decide
  have h5 : Int.toNat 5 = 5 := rfl
  have hs : abs_slope_le_one AbsOverload.float_abs (5 / 3) = false := by
    unfold abs_slope_le_one
    norm_num [abs_of_pos]
  unfold line_points_fl
  rw [h1, h2]
  norm_num [h5, List.range_succ, List.range_zero, hs, to_int]

/-- The compiled `line` returns the indices 90, 111, 152 for that segment. -/
theorem line_fl_binary32_int_abs_steep :
    ∃ g1 : RoshellGraphics,
      canvas_20x10.line_fl round32 AbsOverload.int_abs ⟨0, 1⟩ ⟨3, -4⟩ ' ' =
        some ([90, 111, 152], g1) := by
  have hind : canvas_20x10.line_indices_fl round32 AbsOverload.int_abs ⟨0, 1⟩ ⟨3, -4⟩ =
      [90, 111, 152] := by
    unfold line_indices_fl
    rw [line_points_fl_binary32_int_abs_steep]
    decide
  have hb : canvas_20x10.buffer_.length = 200 := List.length_replicate _ _
  have hc : canvas_20x10.buffer_count_.length = 200 := List.length_replicate _ _
  obtain ⟨g1, hg1⟩ := line_fl_some round32 AbsOverload.int_abs canvas_20x10 ⟨0, 1⟩ ⟨3, -4⟩ ' '
    (by
      rw [hind, hb, hc]
      decide)
  rw [hind] at hg1
  exact ⟨g1, hg1⟩

/-- Claim C15 (defect of the code): on the 20 x 10 canvas the segment between the natural
points (0, 1) and (3, -4) has the clamped screen endpoints (10, 4) and (13, 9) and the slope
5/3 > 1, yet `line` as the header compiles on its own (`abs` is `int abs(int)`) steps along
x, with exact slope arithmetic and in binary32 alike: it visits (10, 4), (11, 5), (12, 7)
and returns the indices 90, 111, 152, and the consecutive cells (11, 5) and (12, 7) are two
rows apart.  With `float abs(float)` the same segment is stepped along y without a gap. -/
theorem C15_truncated_slope_leaves_gap :
    canvas_20x10.put_within_limits_ (canvas_20x10.fix_frame ⟨0, 1⟩) = ⟨10, 4⟩ ∧
      canvas_20x10.put_within_limits_ (canvas_20x10.fix_frame ⟨3, -4⟩) = ⟨13, 9⟩ ∧
      ¬ |(((9 : Int) : ℚ) - ((4 : Int) : ℚ)) / (((13 : Int) : ℚ) - ((10 : Int) : ℚ))| ≤ 1 ∧
      canvas_20x10.line_points_fl id AbsOverload.int_abs ⟨0, 1⟩ ⟨3, -4⟩ =
        [⟨10, 4⟩, ⟨11, 5⟩, ⟨12, 7⟩] ∧
      canvas_20x10.line_points_fl round32 AbsOverload.int_abs ⟨0, 1⟩ ⟨3, -4⟩ =
        [⟨10, 4⟩, ⟨11, 5⟩, ⟨12, 7⟩] ∧
      (∃ a b : Point,
        (canvas_20x10.line_points_fl round32 AbsOverload.int_abs ⟨0, 1⟩ ⟨3, -4⟩)[1]? = some a ∧
          (canvas_20x10.line_points_fl round32 AbsOverload.int_abs ⟨0, 1⟩ ⟨3, -4⟩)[2]? = some b ∧
          b.first = a.first + 1 ∧ b.second = a.second + 2) ∧
      (∃ g1 : RoshellGraphics,
        canvas_20x10.line_fl round32 AbsOverload.int_abs ⟨0, 1⟩ ⟨3, -4⟩ ' ' =
          some ([90, 111, 152], g1)) ∧
      canvas_20x10.line_points_fl id AbsOverload.float_abs ⟨0, 1⟩ ⟨3, -4⟩ =
        [⟨10, 4⟩, ⟨10, 5⟩, ⟨11, 6⟩, ⟨11, 7⟩, ⟨12, 8⟩] := by
  refine ⟨by decide, by decide, ?_, line_points_fl_exact_int_abs_steep,
    line_points_fl_binary32_int_abs_steep, ?_, line_fl_binary32_int_abs_steep,
    line_points_fl_exact_float_abs_steep⟩
  · norm_num [abs_of_pos]
  · rw [line_points_fl_binary32_int_abs_steep]
    exact ⟨⟨11, 5⟩, ⟨12, 7⟩, rfl, rfl, rfl, rfl⟩

/-- Claim C22 (defect of the code): on the 20 x 10 canvas the clamped screen endpoints of
the segment between the natural points (0, 1) and (3, -4) are (10, 4) and (13, 9), so
max(|dx|, |dy|) = 5, yet `line` as the header compiles on its own (`abs` is
`int abs(int)`) returns the three indices 90, 111, 152. -/
theorem C22_truncated_slope_count :
    canvas_20x10.put_within_limits_ (canvas_20x10.fix_frame ⟨0, 1⟩) = ⟨10, 4⟩ ∧
      canvas_20x10.put_within_limits_ (canvas_20x10.fix_frame ⟨3, -4⟩) = ⟨13, 9⟩ ∧
      max ((13 : Int) - 10).natAbs ((9 : Int) - 4).natAbs = 5 ∧
      (canvas_20x10.line_indices_fl id AbsOverload.int_abs ⟨0, 1⟩ ⟨3, -4⟩).length = 3 ∧
      ∃ (ind : List Int) (g1 : RoshellGraphics),
        canvas_20x10.line_fl round32 AbsOverload.int_abs ⟨0, 1⟩ ⟨3, -4⟩ ' ' = some (ind, g1) ∧
          ind = [90, 111, 152] ∧ ind.length = 3 := by
  refine ⟨by decide, by decide, by decide, ?_, ?_⟩
  · unfold line_indices_fl
    rw [line_points_fl_exact_int_abs_steep]
    rfl
  · obtain ⟨g1, hg1⟩ := line_fl_binary32_int_abs_steep
    exact ⟨[90, 111, 152], g1, hg1, rfl, rfl⟩

end RoshellGraphics

/-! ## Segments that degenerate under clamping -/

namespace RoshellGraphics

/-- The loop of `line` visits no cell exactly when both endpoints are clamped to the same
screen point; the rounding only has to leave zero unchanged. -/
theorem line_points_fl_eq_nil_iff (fl : ℚ → ℚ) (h0 : fl 0 = 0) (ov : AbsOverload)
    (g : RoshellGraphics) (pp1 pp2 : Point) :
    g.line_points_fl fl ov pp1 pp2 = [] ↔
      g.put_within_limits_ (g.fix_frame pp1) = g.put_within_limits_ (g.fix_frame pp2) := by
  unfold line_points_fl
  simp only []
  generalize g.put_within_limits_ (g.fix_frame pp1) = P1
  generalize g.put_within_limits_ (g.fix_frame pp2) = P2
  have hext : P1 = P2 ↔ P1.first = P2.first ∧ P1.second = P2.second := by
    cases P1
    cases P2
    simp only [Point.mk.injEq]
  rw [hext]
  by_cases hx : P1.first = P2.first
  · rw [if_pos hx]
    split_ifs with hy <;> simp only [List.map_eq_nil_iff, List.range_eq_nil] <;> omega
  · rw [if_neg hx]
    by_cases hs : abs_slope_le_one ov
        (fl (fl (fl (P2.second : ℚ) - fl (P1.second : ℚ)) /
          fl (fl (P2.first : ℚ) - fl (P1.first : ℚ)))) = true
    · rw [if_pos hs]
      split_ifs <;> simp only [List.map_eq_nil_iff, List.range_eq_nil] <;> omega
    · rw [if_neg hs]
      have hy : P1.second ≠ P2.second := by
        intro he
        apply hs
        rw [he, sub_self, h0, zero_div, h0]
        cases ov <;> simp [abs_slope_le_one, to_int]
      split_ifs <;> simp only [List.map_eq_nil_iff, List.range_eq_nil] <;> omega

/-- The function `line_fl` returns the empty list and the unchanged canvas exactly when
both endpoints are clamped to the same screen point. -/
theorem line_fl_eq_nil_iff (fl : ℚ → ℚ) (h0 : fl 0 = 0) (ov : AbsOverload)
    (g : RoshellGraphics) (pp1 pp2 : Point) (c : Char) :
    g.line_fl fl ov pp1 pp2 c = some ([], g) ↔
      g.put_within_limits_ (g.fix_frame pp1) = g.put_within_limits_ (g.fix_frame pp2) := by
  rw [← line_points_fl_eq_nil_iff fl h0 ov g pp1 pp2, line_fl_eq]
  constructor
  · intro h
    cases hf : g.fill_buff_calls ((g.line_indices_fl fl ov pp1 pp2).map (fun idx => (idx, c))) with
    | none => rw [hf] at h; cases h
    | some g1 =>
      rw [hf] at h
      simp only [Option.map_some', Option.some.injEq, Prod.mk.injEq] at h
      have hnil := h.1
      unfold line_indices_fl at hnil
      exact List.map_eq_nil_iff.mp hnil
  · intro h
    have hnil : g.line_indices_fl fl ov pp1 pp2 = [] := by
      unfold line_indices_fl
      rw [h]
      rfl
    rw [hnil]
    rfl

/-- With exact arithmetic and `float abs(float)`, `line_fl` is `line`. -/
theorem line_fl_exact (g : RoshellGraphics) (pp1 pp2 : Point) (c : Char) :
    g.line_fl id AbsOverload.float_abs pp1 pp2 c = g.line pp1 pp2 c := by
  rw [line_fl_eq, line_eq]
  unfold line_indices_fl line_indices
  rw [line_points_fl_exact]

/-- Claim C16 as amended: for every segment, fully off-screen or not, `line` touches no
cell (it returns an empty list and changes neither buffer) exactly when
`put_within_limits_` clamps both endpoints to the same screen point; when the two clamped
points differ the loop visits at least one cell.  It holds with exact slope arithmetic and
for the compiled function, in binary32 under either overload of `abs`. -/
theorem C16_degenerate_iff_clamped_to_one_point (g : RoshellGraphics) (pp1 pp2 : Point)
    (c : Char) (ov : AbsOverload) :
    (g.line pp1 pp2 c = some ([], g) ↔
        g.put_within_limits_ (g.fix_frame pp1) = g.put_within_limits_ (g.fix_frame pp2)) ∧
      (g.line_points pp1 pp2 = [] ↔
        g.put_within_limits_ (g.fix_frame pp1) = g.put_within_limits_ (g.fix_frame pp2)) ∧
      (g.line_fl round32 ov pp1 pp2 c = some ([], g) ↔
        g.put_within_limits_ (g.fix_frame pp1) = g.put_within_limits_ (g.fix_frame pp2)) ∧
      (g.line_points_fl round32 ov pp1 pp2 = [] ↔
        g.put_within_limits_ (g.fix_frame pp1) = g.put_within_limits_ (g.fix_frame pp2)) := by
  refine ⟨?_, ?_, line_fl_eq_nil_iff round32 round32_zero ov g pp1 pp2 c,
    line_points_fl_eq_nil_iff round32 round32_zero ov g pp1 pp2⟩
  · rw [← line_fl_exact]
    exact line_fl_eq_nil_iff id rfl AbsOverload.float_abs g pp1 pp2 c
  · rw [← line_points_fl_exact]
    exact line_points_fl_eq_nil_iff id rfl AbsOverload.float_abs g pp1 pp2

/-- Claim C16 as amended, at the off-screen segment between the screen points (-5, 2) and
(-10, 2) of the 20 x 10 canvas, both clamped to (0, 2), and at the off-screen segment
between the screen points (-5, 2) and (-5, 7), clamped to (0, 2) and (0, 7). -/
theorem C16_degenerate_iff_clamped_to_one_point_witness :
    (canvas_20x10.off_screen (canvas_20x10.fix_frame ⟨-15, 3⟩)
        (canvas_20x10.fix_frame ⟨-20, 3⟩) ∧
      canvas_20x10.line ⟨-15, 3⟩ ⟨-20, 3⟩ '#' = some ([], canvas_20x10) ∧
      canvas_20x10.line_fl round32 AbsOverload.int_abs ⟨-15, 3⟩ ⟨-20, 3⟩ '#' =
        some ([], canvas_20x10)) ∧
      canvas_20x10.line_points ⟨-15, 3⟩ ⟨-15, -2⟩ ≠ [] ∧
      canvas_20x10.line_points_fl round32 AbsOverload.int_abs ⟨-15, 3⟩ ⟨-15, -2⟩ ≠ [] := by
  have hoff : canvas_20x10.off_screen (canvas_20x10.fix_frame ⟨-15, 3⟩)
      (canvas_20x10.fix_frame ⟨-20, 3⟩) := by
    intro t h0 h1 hin
    have hx := hin.1
    have e1 : (canvas_20x10.fix_frame ⟨-15, 3⟩).first = -5 := by decide
    have e2 : (canvas_20x10.fix_frame ⟨-20, 3⟩).first = -10 := by decide
    rw [e1, e2] at hx
    norm_num at hx
    nlinarith
  have a := C16_degenerate_iff_clamped_to_one_point canvas_20x10 ⟨-15, 3⟩ ⟨-20, 3⟩ '#'
    AbsOverload.int_abs
  have b := C16_degenerate_iff_clamped_to_one_point canvas_20x10 ⟨-15, 3⟩ ⟨-15, -2⟩ '#'
    AbsOverload.int_abs
  refine ⟨⟨hoff, a.1.mpr (by decide), a.2.2.1.mpr (by decide)⟩, ?_, ?_⟩
  · intro h
    exact absurd (b.2.1.mp h) (by decide)
  · intro h
    exact absurd (b.2.2.2.mp h) (by decide)

end RoshellGraphics

/-! ## The plot in binary32 -/

namespace PlotGraph

/-- The loop of `PlotPoints_fl` returns and appends `loop_calls_fl` to the calls made
before. -/
theorem PlotPoints_for_fl_eq (fl : ℚ → ℚ) (pg : PlotGraph) (min_y max_y : ℚ) (hmax : max_y ≠ 0) :
    ∀ (vals : List Int) (i : Nat) (p1 p2 : Point) (calls : List PlotCall),
      ∃ q1 q2 : Point,
        PlotPoints_for_fl fl pg min_y max_y vals i (p1, p2, calls) =
          some (q1, q2, calls ++ loop_calls_fl fl pg min_y max_y p1 vals i) := by
  intro vals
  induction vals with
  | nil =>
    intro i p1 p2 calls
    exact ⟨p1, p2, by simp [PlotPoints_for_fl, loop_calls_fl]⟩
  | cons v rest ih =>
    intro i p1 p2 calls
    by_cases hi : i ≥ 1
    · obtain ⟨q1, q2, h⟩ := ih (i + 1) (pg.plotted_fl fl max_y v i) p1
        ((calls ++ [PlotCall.add_line (pg.plotted_fl fl max_y v i) p1
            (slope_glyph (pg.plotted_fl fl max_y v i) p1), PlotCall.add_text p1 "*"]) ++
          [PlotCall.add_text ⟨pg.ylimit_.first - 4, pg.ylimit_.second⟩ (toString (to_int max_y)),
            PlotCall.add_text ⟨pg.origin_.first - 4, pg.origin_.second⟩ (toString (to_int min_y)),
            PlotCall.add_text (pg.plotted_fl fl max_y v i) "*"])
      refine ⟨q1, q2, ?_⟩
      rw [PlotPoints_for_fl, if_neg hmax]
      simp only [if_pos hi]
      rw [loop_calls_fl, iteration_calls_fl, if_pos hi]
      simp only [List.append_assoc] at h ⊢
      exact h
    · obtain ⟨q1, q2, h⟩ := ih (i + 1) (pg.plotted_fl fl max_y v i) p2
        (calls ++
          [PlotCall.add_text ⟨pg.ylimit_.first - 4, pg.ylimit_.second⟩ (toString (to_int max_y)),
            PlotCall.add_text ⟨pg.origin_.first - 4, pg.origin_.second⟩ (toString (to_int min_y)),
            PlotCall.add_text (pg.plotted_fl fl max_y v i) "*"])
      refine ⟨q1, q2, ?_⟩
      rw [PlotPoints_for_fl, if_neg hmax]
      simp only [if_neg hi]
      rw [loop_calls_fl, iteration_calls_fl, if_neg hi]
      simp only [List.append_assoc, List.nil_append] at h ⊢
      exact h

/-- The function `PlotPoints_fl` returns the state after `DrawAxis` and the calls of
`DrawAxis` followed by `loop_calls_fl`. -/
theorem PlotPoints_fl_eq (fl : ℚ → ℚ) (pg : PlotGraph) (values : List Int) (min_y max_y : ℚ)
    (ylabel : String) (hmax : max_y ≠ 0) :
    pg.PlotPoints_fl fl values min_y max_y ylabel =
      some ((pg.DrawAxis ylabel).1,
        (pg.DrawAxis ylabel).2 ++
          loop_calls_fl fl (pg.DrawAxis ylabel).1 min_y max_y pg.origin_ values 0) := by
  obtain ⟨q1, q2, h⟩ := PlotPoints_for_fl_eq fl (pg.DrawAxis ylabel).1 min_y max_y hmax values 0
    pg.origin_ pg.origin_ (pg.DrawAxis ylabel).2
  unfold PlotPoints_fl
  simp only [h]

/-- Every sample is marked with `*` at its plotted point. -/
theorem loop_calls_fl_marker (fl : ℚ → ℚ) (pg : PlotGraph) (min_y max_y : ℚ) :
    ∀ (vals : List Int) (prev : Point) (i0 k : Nat) (hk : k < vals.length),
      PlotCall.add_text (pg.plotted_fl fl max_y vals[k] (i0 + k)) "*" ∈
        loop_calls_fl fl pg min_y max_y prev vals i0 := by
  intro vals
  induction vals with
  | nil =>
    intro prev i0 k hk
    simp at hk
  | cons v rest ih =>
    intro prev i0 k hk
    rw [loop_calls_fl]
    cases k with
    | zero =>
      apply List.mem_append_left
      unfold iteration_calls_fl
      apply List.mem_append_right
      simp
    | succ k =>
      apply List.mem_append_right
      have hk2 : k < rest.length := by
        simp only [List.length_cons] at hk
        omega
      have := ih (pg.plotted_fl fl max_y v i0) (i0 + 1) k hk2
      simp only [List.getElem_cons_succ]
      rw [show i0 + (k + 1) = i0 + 1 + k by omega]
      exact this

/-- After `DrawAxis` the y-limit is at most the terminal height above the origin. -/
theorem DrawAxis_y_len_le (pg : PlotGraph) (ylabel : String) (hh : 0 ≤ pg.term_height_) :
    (pg.DrawAxis ylabel).1.ylimit_.second - (pg.DrawAxis ylabel).1.origin_.second ≤
      pg.term_height_ := by
  have hq : ((Int.tdiv (-pg.term_height_) 2 + pg.pad_h_ : Int) : ℚ) + 0.85 * (pg.term_height_ : ℚ) ≤
      ((Int.tdiv (-pg.term_height_) 2 + pg.pad_h_ + pg.term_height_ : Int) : ℚ) := by
    have : (0 : ℚ) ≤ (pg.term_height_ : ℚ) := by exact_mod_cast hh
    push_cast
    nlinarith
  have := to_int_mono hq
  rw [to_int_intCast] at this
  simp only [DrawAxis]
  omega

/-- The plotted height in binary32 is monotone in the sample value. -/
theorem plotted_fl_mono (pg : PlotGraph) (max_y : ℚ) (hmax : 0 < max_y)
    (hlen : 0 ≤ pg.ylimit_.second - pg.origin_.second) (v1 v2 : Int) (i j : Nat)
    (hv : v1 ≤ v2) :
    (pg.plotted_fl round32 max_y v1 i).second ≤ (pg.plotted_fl round32 max_y v2 j).second := by
  have hq : (0 : ℚ) ≤ round32 ((pg.ylimit_.second - pg.origin_.second : Int) : ℚ) :=
    round32_nonneg (by exact_mod_cast hlen)
  have hvq : round32 (v1 : ℚ) ≤ round32 (v2 : ℚ) := round32_mono (by exact_mod_cast hv)
  have h := to_int_mono (round32_mono (div_le_div_of_nonneg_right
    (round32_mono (mul_le_mul_of_nonneg_right hvq hq)) hmax.le))
  simp only [plotted_fl]
  omega

end PlotGraph

/-! ## Error bounds of the binary32 product and quotient -/

/-- A value of magnitude at least 1 is rounded to within the factor `1 ± 2 ^ (-24)`. -/
theorem round32_of_one_le (q : ℚ) (hq : 1 ≤ q) :
    q * (1 - 1 / 16777216) ≤ round32 q ∧ round32 q ≤ q * (1 + 1 / 16777216) := by
  have h126 : (2 : ℚ) ^ (-126 : Int) ≤ |q| := by
    rw [abs_of_pos (by linarith)]
    have : (2 : ℚ) ^ (-126 : Int) ≤ 1 := zpow_le_one_of_nonpos₀ (by norm_num) (by norm_num)
    linarith
  have h := round32_rel_err q h126
  rw [abs_of_pos (by linarith : (0 : ℚ) < q)] at h
  have e : (2 : ℚ) ^ (-24 : Int) = 1 / 16777216 := by norm_num
  rw [e, abs_le] at h
  constructor <;> nlinarith [h.1, h.2]

/-- A half-integer of magnitude below `2 ^ 22` is a binary32 value. -/
theorem round32_add_half (y : Int) (hy : |y| < 2 ^ 22) :
    round32 ((y : ℚ) + 1 / 2) = (y : ℚ) + 1 / 2 := by
  have h := round32_dyadic (2 * y + 1) 1 (by
    rw [abs_lt] at hy ⊢
    constructor <;> omega) (by norm_num)
  have e : ((2 * y + 1 : Int) : ℚ) / 2 ^ 1 = (y : ℚ) + 1 / 2 := by
    push_cast
    ring
  rwa [e] at h

/-- Truncation of a non-negative integer plus one half. -/
theorem to_int_add_half (y : Int) (hy : 0 ≤ y) : to_int ((y : ℚ) + 1 / 2) = y := by
  have h0 : (0 : ℚ) ≤ (y : ℚ) + 1 / 2 := by
    have : (0 : ℚ) ≤ (y : ℚ) := by exact_mod_cast hy
    linarith
  unfold to_int
  rw [if_pos h0, Int.floor_eq_iff]
  constructor <;> linarith

namespace PlotGraph

/-- The binary32 product and quotient of `PlotPoints` stay at or below the length of the
y-axis, for a factor between 0 and `max_y`. -/
theorem quotient_le_y_len (y : Int) (hy0 : 0 ≤ y) (hy : y ≤ 65535) (a max_y : ℚ) (ha0 : 0 ≤ a)
    (ha : a ≤ max_y) (hm : 1 ≤ max_y) :
    to_int (round32 (round32 (a * (y : ℚ)) / max_y)) ≤ y := by
  have hyq : (0 : ℚ) ≤ (y : ℚ) := by exact_mod_cast hy0
  have hyq2 : (y : ℚ) ≤ 65535 := by exact_mod_cast hy
  have hmp : (0 : ℚ) < max_y := by linarith
  rcases eq_or_lt_of_le hy0 with h0 | hpos
  · rw [← h0, Int.cast_zero, mul_zero, round32_zero, zero_div, round32_zero]
    have := to_int_intCast 0
    rw [Int.cast_zero] at this
    rw [this]
  · have hy1 : (1 : ℚ) ≤ (y : ℚ) := by exact_mod_cast hpos
    have hM : (1 : ℚ) ≤ max_y * (y : ℚ) := by nlinarith
    have h1 : round32 (a * (y : ℚ)) ≤ round32 (max_y * (y : ℚ)) :=
      round32_mono (mul_le_mul_of_nonneg_right ha hyq)
    have h2 := (round32_of_one_le _ hM).2
    have h3 : round32 (a * (y : ℚ)) / max_y ≤ (y : ℚ) + 1 / 2 := by
      rw [div_le_iff₀ hmp]
      nlinarith
    have h4 := round32_mono h3
    rw [round32_add_half y (by rw [abs_of_nonneg hy0]; omega)] at h4
    have h5 := to_int_mono h4
    rwa [to_int_add_half y hy0] at h5

/-- The binary32 product and quotient of `PlotPoints` at the factor `max_y` lose at most
one row. -/
theorem y_len_sub_one_le_quotient (y : Int) (hy0 : 0 ≤ y) (hy : y ≤ 65535) (max_y : ℚ)
    (hm : 1 ≤ max_y) :
    y - 1 ≤ to_int (round32 (round32 (max_y * (y : ℚ)) / max_y)) := by
  have hyq : (0 : ℚ) ≤ (y : ℚ) := by exact_mod_cast hy0
  have hyq2 : (y : ℚ) ≤ 65535 := by exact_mod_cast hy
  have hmp : (0 : ℚ) < max_y := by linarith
  rcases eq_or_lt_of_le hy0 with h0 | hpos
  · rw [← h0, Int.cast_zero, mul_zero, round32_zero, zero_div, round32_zero]
    have := to_int_intCast 0
    rw [Int.cast_zero] at this
    rw [this]
    omega
  · have hy1 : (1 : ℚ) ≤ (y : ℚ) := by exact_mod_cast hpos
    have hM : (1 : ℚ) ≤ max_y * (y : ℚ) := by nlinarith
    have h2 := (round32_of_one_le _ hM).1
    have h3 : ((y - 1 : Int) : ℚ) + 1 / 2 ≤ round32 (max_y * (y : ℚ)) / max_y := by
      rw [le_div_iff₀ hmp]
      push_cast
      nlinarith
    have h4 := round32_mono h3
    rw [round32_add_half (y - 1) (by rw [abs_of_nonneg (by omega)]; omega)] at h4
    have h5 := to_int_mono h4
    rwa [to_int_add_half (y - 1) (by omega)] at h5

/-- The plotted point in binary32 of a sample between 0 and `max_y`, on an axis of at most
65535 rows and for a `max_y` that is a binary32 value: it lies between the origin and the
y-limit, the sample 0 at the origin, the sample `max_y` at the y-limit or one row below
it, and at the y-limit when the product `max_y * y_len` is a binary32 value. -/
theorem plotted_fl_bounds (pg : PlotGraph) (max_y : ℚ) (hmax : 0 < max_y)
    (hfloat : round32 max_y = max_y)
    (hlen : 0 ≤ pg.ylimit_.second - pg.origin_.second)
    (hlen2 : pg.ylimit_.second - pg.origin_.second ≤ 65535) (v : Int) (i : Nat)
    (h0 : 0 ≤ v) (h1 : (v : ℚ) ≤ max_y) :
    pg.origin_.second ≤ (pg.plotted_fl round32 max_y v i).second ∧
      (pg.plotted_fl round32 max_y v i).second ≤ pg.ylimit_.second ∧
      (v = 0 → (pg.plotted_fl round32 max_y v i).second = pg.origin_.second) ∧
      ((v : ℚ) = max_y →
        pg.ylimit_.second - 1 ≤ (pg.plotted_fl round32 max_y v i).second ∧
        (round32 (max_y * ((pg.ylimit_.second - pg.origin_.second : Int) : ℚ)) =
            max_y * ((pg.ylimit_.second - pg.origin_.second : Int) : ℚ) →
          (pg.plotted_fl round32 max_y v i).second = pg.ylimit_.second)) := by
  have hY : round32 ((pg.ylimit_.second - pg.origin_.second : Int) : ℚ) =
      ((pg.ylimit_.second - pg.origin_.second : Int) : ℚ) :=
    round32_intCast _ (by rw [abs_of_nonneg hlen]; omega)
  have hyq : (0 : ℚ) ≤ ((pg.ylimit_.second - pg.origin_.second : Int) : ℚ) := by
    exact_mod_cast hlen
  have hvq : (0 : ℚ) ≤ (v : ℚ) := by exact_mod_cast h0
  have ha0 : (0 : ℚ) ≤ round32 (v : ℚ) := round32_nonneg hvq
  have ha : round32 (v : ℚ) ≤ max_y := by
    have := round32_mono h1
    rwa [hfloat] at this
  have t0 : to_int 0 = 0 := by
    have := to_int_intCast 0
    rwa [Int.cast_zero] at this
  have hlo : 0 ≤ to_int (round32 (round32 (round32 (v : ℚ) *
      ((pg.ylimit_.second - pg.origin_.second : Int) : ℚ)) / max_y)) := by
    have := to_int_mono (round32_nonneg (div_nonneg (round32_nonneg (mul_nonneg ha0 hyq)) hmax.le))
    rwa [t0] at this
  have hzero : v = 0 → to_int (round32 (round32 (round32 (v : ℚ) *
      ((pg.ylimit_.second - pg.origin_.second : Int) : ℚ)) / max_y)) = 0 := by
    intro hv
    rw [hv, Int.cast_zero, round32_zero, zero_mul, round32_zero, zero_div, round32_zero, t0]
  have hhi : to_int (round32 (round32 (round32 (v : ℚ) *
      ((pg.ylimit_.second - pg.origin_.second : Int) : ℚ)) / max_y)) ≤
      pg.ylimit_.second - pg.origin_.second := by
    rcases eq_or_lt_of_le h0 with hv | hv
    · rw [hzero hv.symm]
      exact hlen
    · have hv1 : (1 : ℚ) ≤ (v : ℚ) := by exact_mod_cast hv
      exact quotient_le_y_len _ hlen hlen2 _ max_y ha0 ha (le_trans hv1 h1)
  simp only [plotted_fl]
  rw [hY]
  refine ⟨by omega, by omega, fun hv => by rw [hzero hv]; omega, fun hv => ?_⟩
  have hm1 : (1 : ℚ) ≤ max_y := by
    have hvpos : 0 < v := by
      have : (0 : ℚ) < (v : ℚ) := by rw [hv]; exact hmax
      exact_mod_cast this
    have hv1 : (1 : ℚ) ≤ (v : ℚ) := by exact_mod_cast hvpos
    rw [← hv]
    exact hv1
  rw [hv, hfloat]
  constructor
  · have := y_len_sub_one_le_quotient _ hlen hlen2 max_y hm1
    omega
  · intro hexact
    rw [hexact, mul_div_cancel_left₀ _ (ne_of_gt hmax), hY, to_int_intCast]
    omega

end PlotGraph

namespace PlotGraph

/-- The calls of `PlotPoints_fl` on the 80 x 24 plot for a single sample. -/
theorem plot_80x24_single (fl : ℚ → ℚ) (v : Int) (min_y max_y : ℚ) (hmax : max_y ≠ 0) :
    plot_80x24.PlotPoints_fl fl [v] min_y max_y "Value" =
      some ((plot_80x24.DrawAxis "Value").1,
        (plot_80x24.DrawAxis "Value").2 ++
          [PlotCall.add_text ⟨-40, 10⟩ (toString (to_int max_y)),
            PlotCall.add_text ⟨-40, -10⟩ (toString (to_int min_y)),
            PlotCall.add_text
              ⟨-34, -10 + to_int (fl (fl (fl (v : ℚ) * fl (((10 : Int) - (-10) : Int) : ℚ)) / max_y))⟩
              "*"]) := by
  rw [PlotPoints_fl_eq fl plot_80x24 [v] min_y max_y "Value" hmax]
  simp only [loop_calls_fl, iteration_calls_fl, plotted_fl, plot_80x24_axis]
  rfl

/-- Claim C13 fails: on the 80 x 24 plot (origin row -10, y-limit row 10) with the single
sample 1 and `max_y` the binary32 value of 0.1, the quotient 20 / 0.1f = 199.99999702 is
rounded to 200 before the truncation, so `PlotPoints` marks the sample at row 190, while
the formula of the claim, `origin.y + trunc(values[i] * (ylimit.y - origin.y) / max_y)`,
gives row 189. -/
theorem C13_binary32_quotient_rounds_up :
    (0 : ℚ) < 13421773 / 134217728 ∧
      round32 (13421773 / 134217728) = 13421773 / 134217728 ∧
      plot_80x24.PlotPoints_fl round32 [1] 0 (13421773 / 134217728) "Value" =
        some ((plot_80x24.DrawAxis "Value").1,
          (plot_80x24.DrawAxis "Value").2 ++
            [PlotCall.add_text ⟨-40, 10⟩ (toString (to_int (13421773 / 134217728))),
              PlotCall.add_text ⟨-40, -10⟩ (toString (to_int 0)),
              PlotCall.add_text ⟨-34, 190⟩ "*"]) ∧
      (plot_80x24.DrawAxis "Value").1.origin_.second +
        to_int (((1 : Int) : ℚ) *
          (((plot_80x24.DrawAxis "Value").1.ylimit_.second -
            (plot_80x24.DrawAxis "Value").1.origin_.second : Int) : ℚ) /
          (13421773 / 134217728)) = 189 := by
  refine ⟨by norm_num, ?_, ?_, ?_⟩
  · have := round32_dyadic 13421773 27 (by norm_num) (by norm_num)
    norm_num at this ⊢
    exact this
  · rw [plot_80x24_single round32 1 0 (13421773 / 134217728) (by norm_num)]
    have e1 : round32 ((1 : Int) : ℚ) = 1 := by
      simpa using round32_intCast 1 (by norm_num)
    have e20 : round32 ((((10 : Int) - (-10) : Int)) : ℚ) = 20 := by
      have := round32_intCast 20 (by norm_num)
      norm_num at this ⊢
      exact this
    have e20b : round32 (1 * 20) = 20 := by
      have := round32_intCast 20 (by norm_num)
      norm_num at this ⊢
      exact this
    have q : round32 (20 / (13421773 / 134217728)) = 200 := by
      rw [round32_eval _ 7 13107200 (by norm_num [abs_of_pos]) (by norm_num [abs_of_pos])
        (by norm_num) (by unfold round_half_even; norm_num)]
      norm_num
    have t : to_int 200 = 200 := by simpa using to_int_intCast 200
    rw [e1, e20, e20b, q, t]
    rfl
  · rw [plot_80x24_axis]
    simp only []
    unfold to_int
    norm_num

/-- Claim C13 as amended: with `max_y > 0` (and a terminal height that is not negative)
`PlotPoints` returns, marks sample `i` at the height `origin.y + trunc(q)`, where `q` is
the binary32 value that the code computes for `values[i] * (ylimit.y - origin.y) / max_y`
(the conversions to `float`, the product and the quotient are each rounded), and that
height is monotone in the sample value. -/
theorem C13_plotted_height_binary32_monotone (pg : PlotGraph) (values : List Int)
    (min_y max_y : ℚ) (ylabel : String)
    (hmax : 0 < max_y) (hh : 0 ≤ pg.term_height_) :
    ∃ calls : List PlotCall,
      pg.PlotPoints_fl round32 values min_y max_y ylabel = some ((pg.DrawAxis ylabel).1, calls) ∧
      (∀ (i : Nat) (hi : i < values.length),
        PlotCall.add_text
          ⟨(pg.DrawAxis ylabel).1.origin_.first +
              (pg.DrawAxis ylabel).1.one_tick_x_ * ((i : Int) + 1),
            (pg.DrawAxis ylabel).1.origin_.second +
              to_int (round32 (round32 (round32 (values[i] : ℚ) *
                round32 (((pg.DrawAxis ylabel).1.ylimit_.second -
                  (pg.DrawAxis ylabel).1.origin_.second : Int) : ℚ)) / max_y))⟩ "*" ∈ calls) ∧
      (∀ (i j : Nat) (hi : i < values.length) (hj : j < values.length),
        values[i] ≤ values[j] →
          (pg.DrawAxis ylabel).1.origin_.second +
              to_int (round32 (round32 (round32 (values[i] : ℚ) *
                round32 (((pg.DrawAxis ylabel).1.ylimit_.second -
                  (pg.DrawAxis ylabel).1.origin_.second : Int) : ℚ)) / max_y)) ≤
            (pg.DrawAxis ylabel).1.origin_.second +
              to_int (round32 (round32 (round32 (values[j] : ℚ) *
                round32 (((pg.DrawAxis ylabel).1.ylimit_.second -
                  (pg.DrawAxis ylabel).1.origin_.second : Int) : ℚ)) / max_y))) := by
  refine ⟨_, PlotPoints_fl_eq round32 pg values min_y max_y ylabel (ne_of_gt hmax), ?_, ?_⟩
  · intro i hi
    apply List.mem_append_right
    have := loop_calls_fl_marker round32 (pg.DrawAxis ylabel).1 min_y max_y values pg.origin_ 0 i hi
    rw [Nat.zero_add] at this
    simp only [plotted_fl] at this
    exact this
  · intro i j hi hj hv
    have := plotted_fl_mono _ max_y hmax (DrawAxis_y_len_nonneg pg ylabel hh) _ _ i j hv
    simp only [plotted_fl] at this
    exact this

/-- The example of the claim C13: on the 80 x 24 plot the samples 0, 5, 10, 5, 0 with
`max_y` = 10 are plotted in binary32 at the rows -10, 0, 10, 0, -10: they rise from the
origin row to the y-limit and fall back to the origin row. -/
theorem plot_80x24_example_heights :
    ([0, 5, 10, 5, 0] : List Int).map
        (fun v => (plot_80x24.DrawAxis "Value").1.origin_.second +
          to_int (round32 (round32 (round32 (v : ℚ) *
            round32 (((plot_80x24.DrawAxis "Value").1.ylimit_.second -
              (plot_80x24.DrawAxis "Value").1.origin_.second : Int) : ℚ)) / (10 : ℚ)))) =
      [-10, 0, 10, 0, -10] := by
  have e0 : round32 (0 : ℚ) = 0 := round32_zero
  have e5 : round32 (5 : ℚ) = 5 := by simpa using round32_intCast 5 (by norm_num)
  have e10 : round32 (10 : ℚ) = 10 := by simpa using round32_intCast 10 (by norm_num)
  have e20 : round32 (20 : ℚ) = 20 := by simpa using round32_intCast 20 (by norm_num)
  have e100 : round32 (100 : ℚ) = 100 := by simpa using round32_intCast 100 (by norm_num)
  have e200 : round32 (200 : ℚ) = 200 := by simpa using round32_intCast 200 (by norm_num)
  have t0 : to_int 0 = 0 := by simpa using to_int_intCast 0
  have t10 : to_int 10 = 10 := by simpa using to_int_intCast 10
  have t20 : to_int 20 = 20 := by simpa using to_int_intCast 20
  rw [plot_80x24_axis]
  norm_num [e0, e5, e10, e20, e100, e200, t0, t10, t20]

/-- Claim C13 as amended, at the samples 0, 5, 10, 5, 0 with `max_y` = 10 on the 80 x 24
plot, where the heights are the rows -10, 0, 10, 0, -10. -/
theorem C13_plotted_height_binary32_monotone_witness :
    (∃ calls : List PlotCall,
      plot_80x24.PlotPoints_fl round32 ([0, 5, 10, 5, 0] : List Int) 0 (10 : ℚ) "Value" =
        some ((plot_80x24.DrawAxis "Value").1, calls) ∧
      (∀ (i : Nat) (hi : i < ([0, 5, 10, 5, 0] : List Int).length),
        PlotCall.add_text
          ⟨(plot_80x24.DrawAxis "Value").1.origin_.first +
              (plot_80x24.DrawAxis "Value").1.one_tick_x_ * ((i : Int) + 1),
            (plot_80x24.DrawAxis "Value").1.origin_.second +
              to_int (round32 (round32 (round32 (([0, 5, 10, 5, 0] : List Int)[i] : ℚ) *
                round32 (((plot_80x24.DrawAxis "Value").1.ylimit_.second -
                  (plot_80x24.DrawAxis "Value").1.origin_.second : Int) : ℚ)) / (10 : ℚ)))⟩
          "*" ∈ calls) ∧
      (∀ (i j : Nat) (hi : i < ([0, 5, 10, 5, 0] : List Int).length)
          (hj : j < ([0, 5, 10, 5, 0] : List Int).length),
        ([0, 5, 10, 5, 0] : List Int)[i] ≤ ([0, 5, 10, 5, 0] : List Int)[j] →
          (plot_80x24.DrawAxis "Value").1.origin_.second +
              to_int (round32 (round32 (round32 (([0, 5, 10, 5, 0] : List Int)[i] : ℚ) *
                round32 (((plot_80x24.DrawAxis "Value").1.ylimit_.second -
                  (plot_80x24.DrawAxis "Value").1.origin_.second : Int) : ℚ)) / (10 : ℚ))) ≤
            (plot_80x24.DrawAxis "Value").1.origin_.second +
              to_int (round32 (round32 (round32 (([0, 5, 10, 5, 0] : List Int)[j] : ℚ) *
                round32 (((plot_80x24.DrawAxis "Value").1.ylimit_.second -
                  (plot_80x24.DrawAxis "Value").1.origin_.second : Int) : ℚ)) / (10 : ℚ))))) ∧
      ([0, 5, 10, 5, 0] : List Int).map
          (fun v => (plot_80x24.DrawAxis "Value").1.origin_.second +
            to_int (round32 (round32 (round32 (v : ℚ) *
              round32 (((plot_80x24.DrawAxis "Value").1.ylimit_.second -
                (plot_80x24.DrawAxis "Value").1.origin_.second : Int) : ℚ)) / (10 : ℚ)))) =
        [-10, 0, 10, 0, -10] :=
  ⟨C13_plotted_height_binary32_monotone plot_80x24 [0, 5, 10, 5, 0] 0 10 "Value" (by norm_num)
    (by decide), plot_80x24_example_heights⟩

/-- Claim C20 fails: on the 80 x 24 plot (origin row -10, y-limit row 10) with the single
sample 3355445 and `max_y` = 3355445, the binary32 product 3355445 * 20 is rounded to
67108896 and the quotient to 19.999998, so `PlotPoints` marks the sample at row 9, one row
below the y-limit. -/
theorem C20_binary32_max_below_y_limit :
    (0 : ℚ) < 3355445 ∧ round32 (3355445 : ℚ) = 3355445 ∧
      (0 : Int) ≤ 3355445 ∧ ((3355445 : Int) : ℚ) ≤ (3355445 : ℚ) ∧
      (plot_80x24.DrawAxis "Value").1.ylimit_.second = 10 ∧
      plot_80x24.PlotPoints_fl round32 [3355445] 0 3355445 "Value" =
        some ((plot_80x24.DrawAxis "Value").1,
          (plot_80x24.DrawAxis "Value").2 ++
            [PlotCall.add_text ⟨-40, 10⟩ (toString (to_int 3355445)),
              PlotCall.add_text ⟨-40, -10⟩ (toString (to_int 0)),
              PlotCall.add_text ⟨-34, 9⟩ "*"]) := by
  have em : round32 (3355445 : ℚ) = 3355445 := by
    have := round32_intCast 3355445 (by norm_num)
    norm_num at this ⊢
    exact this
  refine ⟨by norm_num, em, by norm_num, by norm_num, ?_, ?_⟩
  · rw [plot_80x24_axis]
  · rw [plot_80x24_single round32 3355445 0 3355445 (by norm_num)]
    have e1 : round32 ((3355445 : Int) : ℚ) = 3355445 := by
      rw [Int.cast_ofNat]
      exact em
    have e20 : round32 ((((10 : Int) - (-10) : Int)) : ℚ) = 20 := by
      have := round32_intCast 20 (by norm_num)
      norm_num at this ⊢
      exact this
    have p : round32 (3355445 * 20) = 67108896 := by
      rw [round32_eval _ 26 8388612 (by norm_num [abs_of_pos]) (by norm_num [abs_of_pos])
        (by norm_num) (by unfold round_half_even; norm_num)]
      norm_num
    have q : round32 (67108896 / 3355445) = 10485759 / 524288 := by
      rw [round32_eval _ 4 10485759 (by norm_num [abs_of_pos]) (by norm_num [abs_of_pos])
        (by norm_num) (by unfold round_half_even; norm_num)]
      norm_num
    have t : to_int (10485759 / 524288) = 19 := by
      unfold to_int
      norm_num
    rw [e1, e20, p, q, t]
    rfl

/-- Claim C20 as amended: with `max_y > 0` a binary32 value and a terminal height between 0
and 65535, sample `i` is placed at `x = origin.x + one_tick_x_ * (i + 1)`, and a sample
with `0 <= values[i] <= max_y` is plotted between `origin.y` and `ylimit.y`, the value 0 at
`origin.y` and the value `max_y` at `ylimit.y` or one row below it; it is at `ylimit.y`
when the product `max_y * (ylimit.y - origin.y)` is a binary32 value. -/
theorem C20_plotted_inside_axis_span_binary32 (pg : PlotGraph) (values : List Int)
    (min_y max_y : ℚ) (ylabel : String)
    (hmax : 0 < max_y) (hfloat : round32 max_y = max_y)
    (hh : 0 ≤ pg.term_height_) (hh2 : pg.term_height_ ≤ 65535) :
    ∃ calls : List PlotCall,
      pg.PlotPoints_fl round32 values min_y max_y ylabel = some ((pg.DrawAxis ylabel).1, calls) ∧
      ∀ (i : Nat) (hi : i < values.length),
        PlotCall.add_text ((pg.DrawAxis ylabel).1.plotted_fl round32 max_y values[i] i) "*" ∈ calls ∧
        ((pg.DrawAxis ylabel).1.plotted_fl round32 max_y values[i] i).first =
          (pg.DrawAxis ylabel).1.origin_.first +
            (pg.DrawAxis ylabel).1.one_tick_x_ * ((i : Int) + 1) ∧
        (0 ≤ values[i] → (values[i] : ℚ) ≤ max_y →
          (pg.DrawAxis ylabel).1.origin_.second ≤
              ((pg.DrawAxis ylabel).1.plotted_fl round32 max_y values[i] i).second ∧
            ((pg.DrawAxis ylabel).1.plotted_fl round32 max_y values[i] i).second ≤
              (pg.DrawAxis ylabel).1.ylimit_.second ∧
            (values[i] = 0 →
              ((pg.DrawAxis ylabel).1.plotted_fl round32 max_y values[i] i).second =
                (pg.DrawAxis ylabel).1.origin_.second) ∧
            ((values[i] : ℚ) = max_y →
              (pg.DrawAxis ylabel).1.ylimit_.second - 1 ≤
                  ((pg.DrawAxis ylabel).1.plotted_fl round32 max_y values[i] i).second ∧
                (round32 (max_y * (((pg.DrawAxis ylabel).1.ylimit_.second -
                      (pg.DrawAxis ylabel).1.origin_.second : Int) : ℚ)) =
                    max_y * (((pg.DrawAxis ylabel).1.ylimit_.second -
                      (pg.DrawAxis ylabel).1.origin_.second : Int) : ℚ) →
                  ((pg.DrawAxis ylabel).1.plotted_fl round32 max_y values[i] i).second =
                    (pg.DrawAxis ylabel).1.ylimit_.second))) := by
  refine ⟨_, PlotPoints_fl_eq round32 pg values min_y max_y ylabel (ne_of_gt hmax), ?_⟩
  intro i hi
  refine ⟨?_, rfl, ?_⟩
  · apply List.mem_append_right
    have := loop_calls_fl_marker round32 (pg.DrawAxis ylabel).1 min_y max_y values pg.origin_ 0 i hi
    rwa [Nat.zero_add] at this
  · intro h0 h1
    exact plotted_fl_bounds _ max_y hmax hfloat (DrawAxis_y_len_nonneg pg ylabel hh)
      (le_trans (DrawAxis_y_len_le pg ylabel hh) hh2) _ i h0 h1

/-- Claim C20 as amended, at the samples 0, 5, 10, 5, 0 with `max_y` = 10 on the 80 x 24
plot. -/
theorem C20_plotted_inside_axis_span_binary32_witness :
    ∃ calls : List PlotCall,
      plot_80x24.PlotPoints_fl round32 ([0, 5, 10, 5, 0] : List Int) 0 (10 : ℚ) "Value" =
        some ((plot_80x24.DrawAxis "Value").1, calls) ∧
      ∀ (i : Nat) (hi : i < ([0, 5, 10, 5, 0] : List Int).length),
        PlotCall.add_text ((plot_80x24.DrawAxis "Value").1.plotted_fl round32 (10 : ℚ)
          ([0, 5, 10, 5, 0] : List Int)[i] i) "*" ∈ calls ∧
        ((plot_80x24.DrawAxis "Value").1.plotted_fl round32 (10 : ℚ)
            ([0, 5, 10, 5, 0] : List Int)[i] i).first =
          (plot_80x24.DrawAxis "Value").1.origin_.first +
            (plot_80x24.DrawAxis "Value").1.one_tick_x_ * ((i : Int) + 1) ∧
        (0 ≤ ([0, 5, 10, 5, 0] : List Int)[i] → (([0, 5, 10, 5, 0] : List Int)[i] : ℚ) ≤ (10 : ℚ) →
          (plot_80x24.DrawAxis "Value").1.origin_.second ≤
              ((plot_80x24.DrawAxis "Value").1.plotted_fl round32 (10 : ℚ)
                ([0, 5, 10, 5, 0] : List Int)[i] i).second ∧
            ((plot_80x24.DrawAxis "Value").1.plotted_fl round32 (10 : ℚ)
                ([0, 5, 10, 5, 0] : List Int)[i] i).second ≤
              (plot_80x24.DrawAxis "Value").1.ylimit_.second ∧
            (([0, 5, 10, 5, 0] : List Int)[i] = 0 →
              ((plot_80x24.DrawAxis "Value").1.plotted_fl round32 (10 : ℚ)
                  ([0, 5, 10, 5, 0] : List Int)[i] i).second =
                (plot_80x24.DrawAxis "Value").1.origin_.second) ∧
            ((([0, 5, 10, 5, 0] : List Int)[i] : ℚ) = (10 : ℚ) →
              (plot_80x24.DrawAxis "Value").1.ylimit_.second - 1 ≤
                  ((plot_80x24.DrawAxis "Value").1.plotted_fl round32 (10 : ℚ)
                    ([0, 5, 10, 5, 0] : List Int)[i] i).second ∧
                (round32 ((10 : ℚ) * (((plot_80x24.DrawAxis "Value").1.ylimit_.second -
                      (plot_80x24.DrawAxis "Value").1.origin_.second : Int) : ℚ)) =
                    (10 : ℚ) * (((plot_80x24.DrawAxis "Value").1.ylimit_.second -
                      (plot_80x24.DrawAxis "Value").1.origin_.second : Int) : ℚ) →
                  ((plot_80x24.DrawAxis "Value").1.plotted_fl round32 (10 : ℚ)
                      ([0, 5, 10, 5, 0] : List Int)[i] i).second =
                    (plot_80x24.DrawAxis "Value").1.ylimit_.second))) :=
  C20_plotted_inside_axis_span_binary32 plot_80x24 [0, 5, 10, 5, 0] 0 10 "Value" (by norm_num)
    (by simpa using round32_intCast 10 (by norm_num)) (by decide) (by decide)

end PlotGraph

/-! ## Error bounds of the binary32 slope -/

/-- A value of magnitude at least `1 / 65536` is rounded with a relative error of at most
`2 ^ (-24)`. -/
theorem round32_err (q : ℚ) (h : 1 / 65536 ≤ |q|) : |round32 q - q| ≤ |q| / 16777216 := by
  have h126 : (2 : ℚ) ^ (-126 : Int) ≤ |q| := by
    have e : (2 : ℚ) ^ (-126 : Int) ≤ (2 : ℚ) ^ (-16 : Int) :=
      zpow_le_zpow_right₀ (by norm_num) (by norm_num)
    have e2 : (2 : ℚ) ^ (-16 : Int) = 1 / 65536 := by norm_num
    rw [e2] at e
    exact le_trans e h
  have := round32_rel_err q h126
  have e : (2 : ℚ) ^ (-24 : Int) = 1 / 16777216 := by norm_num
  rw [e] at this
  linarith

/-- The magnitude of a non-zero integer is at least 1. -/
theorem one_le_abs_intCast (n : Int) (h : n ≠ 0) : (1 : ℚ) ≤ |(n : ℚ)| := by
  have : 1 ≤ |n| := Int.one_le_abs h
  exact_mod_cast this

/-- The binary32 slope times the run is within half a cell of the rise, for coordinate
differences of at most 65535. -/
theorem slope_mul_run (dx dy : Int) (hdx : dx ≠ 0) (hx : |dx| ≤ 65535) (hy : |dy| ≤ 65535) :
    |round32 (round32 ((dy : ℚ) / (dx : ℚ)) * (dx : ℚ)) - (dy : ℚ)| ≤ 1 / 2 := by
  rcases eq_or_ne dy 0 with h0 | h0
  · rw [h0, Int.cast_zero, zero_div, round32_zero, zero_mul, round32_zero, sub_zero, abs_zero]
    norm_num
  · have hdxq : (dx : ℚ) ≠ 0 := by exact_mod_cast hdx
    have a1 := one_le_abs_intCast dx hdx
    have a2 := one_le_abs_intCast dy h0
    have b1 : |(dx : ℚ)| ≤ 65535 := by exact_mod_cast hx
    have b2 : |(dy : ℚ)| ≤ 65535 := by exact_mod_cast hy
    have hq : |(dy : ℚ) / (dx : ℚ)| * |(dx : ℚ)| = |(dy : ℚ)| := by
      rw [← abs_mul, div_mul_cancel₀ _ hdxq]
    have hqlow : 1 / 65536 ≤ |(dy : ℚ) / (dx : ℚ)| := by
      have hpos : (0 : ℚ) < |(dx : ℚ)| := by linarith
      have : 1 / 65536 * |(dx : ℚ)| ≤ |(dy : ℚ) / (dx : ℚ)| * |(dx : ℚ)| := by
        rw [hq]
        nlinarith
      exact le_of_mul_le_mul_right this hpos
    have e1 := round32_err _ hqlow
    have e2 : |round32 ((dy : ℚ) / (dx : ℚ)) * (dx : ℚ) - (dy : ℚ)| ≤ |(dy : ℚ)| / 16777216 := by
      have : round32 ((dy : ℚ) / (dx : ℚ)) * (dx : ℚ) - (dy : ℚ) =
          (round32 ((dy : ℚ) / (dx : ℚ)) - (dy : ℚ) / (dx : ℚ)) * (dx : ℚ) := by
        field_simp
      rw [this, abs_mul]
      calc |round32 ((dy : ℚ) / (dx : ℚ)) - (dy : ℚ) / (dx : ℚ)| * |(dx : ℚ)|
          ≤ |(dy : ℚ) / (dx : ℚ)| / 16777216 * |(dx : ℚ)| :=
            mul_le_mul_of_nonneg_right e1 (abs_nonneg _)
        _ = |(dy : ℚ)| / 16777216 := by rw [div_mul_eq_mul_div, hq]
    have hM1 : |(dy : ℚ)| - |round32 ((dy : ℚ) / (dx : ℚ)) * (dx : ℚ)| ≤
        |round32 ((dy : ℚ) / (dx : ℚ)) * (dx : ℚ) - (dy : ℚ)| := by
      rw [abs_sub_comm]
      exact abs_sub_abs_le_abs_sub _ _
    have hM2 : |round32 ((dy : ℚ) / (dx : ℚ)) * (dx : ℚ)| - |(dy : ℚ)| ≤
        |round32 ((dy : ℚ) / (dx : ℚ)) * (dx : ℚ) - (dy : ℚ)| :=
      abs_sub_abs_le_abs_sub _ _
    have hMlow : 1 / 65536 ≤ |round32 ((dy : ℚ) / (dx : ℚ)) * (dx : ℚ)| := by linarith
    have e3 := round32_err _ hMlow
    have tri := abs_sub_le (round32 (round32 ((dy : ℚ) / (dx : ℚ)) * (dx : ℚ)))
      (round32 ((dy : ℚ) / (dx : ℚ)) * (dx : ℚ)) (dy : ℚ)
    linarith

/-- The rise divided by the binary32 slope is within half a cell of the run, for
coordinate differences of at most 65535. -/
theorem rise_div_slope (dx dy : Int) (hdx : dx ≠ 0) (hdy : dy ≠ 0) (hx : |dx| ≤ 65535)
    (hy : |dy| ≤ 65535) :
    |round32 ((dy : ℚ) / round32 ((dy : ℚ) / (dx : ℚ))) - (dx : ℚ)| ≤ 1 / 2 := by
  have hdxq : (dx : ℚ) ≠ 0 := by exact_mod_cast hdx
  have hdyq : (dy : ℚ) ≠ 0 := by exact_mod_cast hdy
  have a1 := one_le_abs_intCast dx hdx
  have a2 := one_le_abs_intCast dy hdy
  have b1 : |(dx : ℚ)| ≤ 65535 := by exact_mod_cast hx
  have b2 : |(dy : ℚ)| ≤ 65535 := by exact_mod_cast hy
  have hq : |(dy : ℚ) / (dx : ℚ)| * |(dx : ℚ)| = |(dy : ℚ)| := by
    rw [← abs_mul, div_mul_cancel₀ _ hdxq]
  have hdxpos : (0 : ℚ) < |(dx : ℚ)| := by linarith
  have hqlow : 1 / 65536 ≤ |(dy : ℚ) / (dx : ℚ)| := by
    have : 1 / 65536 * |(dx : ℚ)| ≤ |(dy : ℚ) / (dx : ℚ)| * |(dx : ℚ)| := by
      rw [hq]
      nlinarith
    exact le_of_mul_le_mul_right this hdxpos
  have e1 := round32_err _ hqlow
  generalize hs : round32 ((dy : ℚ) / (dx : ℚ)) = s at e1 ⊢
  have hs1 : |(dy : ℚ) / (dx : ℚ)| - |s| ≤ |s - (dy : ℚ) / (dx : ℚ)| := by
    rw [abs_sub_comm]
    exact abs_sub_abs_le_abs_sub _ _
  have hspos : 0 < |s| := by linarith
  have hsne : s ≠ 0 := abs_pos.mp hspos
  -- |q| ≤ 2 |s|
  have hq2 : |(dy : ℚ) / (dx : ℚ)| ≤ 2 * |s| := by linarith
  -- (z - dx) * s = dx * (q - s)
  have hz : ((dy : ℚ) / s - (dx : ℚ)) * s = (dx : ℚ) * ((dy : ℚ) / (dx : ℚ) - s) := by
    field_simp
    ring
  have e2 : |(dy : ℚ) / s - (dx : ℚ)| * |s| ≤ |(dx : ℚ)| / 8388608 * |s| := by
    rw [← abs_mul, hz, abs_mul, abs_sub_comm]
    calc |(dx : ℚ)| * |s - (dy : ℚ) / (dx : ℚ)|
        ≤ |(dx : ℚ)| * (|(dy : ℚ) / (dx : ℚ)| / 16777216) :=
          mul_le_mul_of_nonneg_left e1 (abs_nonneg _)
      _ ≤ |(dx : ℚ)| * (2 * |s| / 16777216) := by
          apply mul_le_mul_of_nonneg_left _ (abs_nonneg _)
          linarith
      _ = |(dx : ℚ)| / 8388608 * |s| := by ring
  have e3 : |(dy : ℚ) / s - (dx : ℚ)| ≤ |(dx : ℚ)| / 8388608 :=
    le_of_mul_le_mul_right e2 hspos
  have hz1 : |(dx : ℚ)| - |(dy : ℚ) / s| ≤ |(dy : ℚ) / s - (dx : ℚ)| := by
    rw [abs_sub_comm]
    exact abs_sub_abs_le_abs_sub _ _
  have hz2 : |(dy : ℚ) / s| - |(dx : ℚ)| ≤ |(dy : ℚ) / s - (dx : ℚ)| :=
    abs_sub_abs_le_abs_sub _ _
  have hzlow : 1 / 65536 ≤ |(dy : ℚ) / s| := by linarith
  have e4 := round32_err _ hzlow
  have tri := abs_sub_le (round32 ((dy : ℚ) / s)) ((dy : ℚ) / s) (dx : ℚ)
  linarith


/-- The rounded product by a factor between 0 and `T` lies between 0 and the rounded
product by `T`. -/
theorem round32_mul_between (r t T : ℚ) (h : (0 ≤ t ∧ t ≤ T) ∨ (T ≤ t ∧ t ≤ 0)) :
    min 0 (round32 (r * T)) ≤ round32 (r * t) ∧ round32 (r * t) ≤ max 0 (round32 (r * T)) := by
  have key : (0 ≤ r * t ∧ r * t ≤ r * T) ∨ (r * T ≤ r * t ∧ r * t ≤ 0) := by
    rcases le_total 0 r with hr | hr
    · rcases h with ⟨a, b⟩ | ⟨a, b⟩
      · exact Or.inl ⟨mul_nonneg hr a, mul_le_mul_of_nonneg_left b hr⟩
      · exact Or.inr ⟨mul_le_mul_of_nonneg_left a hr, mul_nonpos_of_nonneg_of_nonpos hr b⟩
    · rcases h with ⟨a, b⟩ | ⟨a, b⟩
      · exact Or.inr ⟨mul_le_mul_of_nonpos_left b hr, mul_nonpos_of_nonpos_of_nonneg hr a⟩
      · exact Or.inl ⟨mul_nonneg_of_nonpos_of_nonpos hr b, mul_le_mul_of_nonpos_left a hr⟩
  rcases key with ⟨a, b⟩ | ⟨a, b⟩
  · have h1 := round32_nonneg a
    have h2 := round32_mono b
    exact ⟨le_trans (min_le_left _ _) h1, le_trans h2 (le_max_right _ _)⟩
  · have h1 := round32_mono b
    rw [round32_zero] at h1
    have h2 := round32_mono a
    exact ⟨le_trans (min_le_right _ _) h2, le_trans h1 (le_max_left _ _)⟩

/-- Truncation of minus one half. -/
theorem to_int_neg_half : to_int (-(1 / 2)) = 0 := by
  unfold to_int
  norm_num

/-- The coordinate that `line` computes in binary32 from the coordinate `a` of the first
endpoint and an offset `z` between 0 and a value `F` within one half of `b - a`: it lies
between the coordinates `a` and `b` of the endpoints or one cell below them, and is not
negative. -/
theorem to_int_round32_add_between (a b : Int) (ha : 0 ≤ a) (ha2 : a ≤ 65535) (hb : 0 ≤ b)
    (hb2 : b ≤ 65535) (F z : ℚ) (hF : |F - ((b : ℚ) - (a : ℚ))| ≤ 1 / 2)
    (hz1 : min 0 F ≤ z) (hz2 : z ≤ max 0 F) :
    min a b - 1 ≤ to_int (round32 ((a : ℚ) + z)) ∧
      to_int (round32 ((a : ℚ) + z)) ≤ max a b ∧ 0 ≤ to_int (round32 ((a : ℚ) + z)) := by
  rw [abs_le] at hF
  obtain ⟨hF1, hF2⟩ := hF
  have m1 : ((min a b : Int) : ℚ) ≤ (a : ℚ) := by exact_mod_cast min_le_left a b
  have m2 : ((min a b : Int) : ℚ) ≤ (b : ℚ) := by exact_mod_cast min_le_right a b
  have m3 : (a : ℚ) ≤ ((max a b : Int) : ℚ) := by exact_mod_cast le_max_left a b
  have m4 : (b : ℚ) ≤ ((max a b : Int) : ℚ) := by exact_mod_cast le_max_right a b
  have n1 : 0 ≤ min a b := le_min ha hb
  have n2 : max a b ≤ 65535 := max_le ha2 hb2
  have n3 : min a b ≤ 65535 := le_trans (min_le_left a b) ha2
  have n4 : 0 ≤ max a b := le_trans ha (le_max_left a b)
  have up : (a : ℚ) + z ≤ ((max a b : Int) : ℚ) + 1 / 2 := by
    rcases le_max_iff.mp hz2 with h | h <;> linarith
  have lo : ((min a b - 1 : Int) : ℚ) + 1 / 2 ≤ (a : ℚ) + z := by
    rw [Int.cast_sub, Int.cast_one]
    rcases min_le_iff.mp hz1 with h | h <;> linarith
  have hup := to_int_mono (round32_mono up)
  rw [round32_add_half _ (by rw [abs_of_nonneg n4]; omega), to_int_add_half _ n4] at hup
  have hlo := round32_mono lo
  rw [round32_add_half _ (by rw [abs_lt]; constructor <;> omega)] at hlo
  refine ⟨?_, hup, ?_⟩
  · rcases eq_or_lt_of_le n1 with h0 | hpos
    · have h2 : -(1 / 2 : ℚ) ≤ round32 ((a : ℚ) + z) := by
        rw [← h0] at hlo
        push_cast at hlo
        linarith
      have := to_int_mono h2
      rw [to_int_neg_half] at this
      omega
    · have := to_int_mono hlo
      rw [to_int_add_half _ (by omega)] at this
      exact this
  · rcases eq_or_lt_of_le n1 with h0 | hpos
    · have h2 : -(1 / 2 : ℚ) ≤ round32 ((a : ℚ) + z) := by
        rw [← h0] at hlo
        push_cast at hlo
        linarith
      have := to_int_mono h2
      rwa [to_int_neg_half] at this
    · have := to_int_mono hlo
      rw [to_int_add_half _ (by omega)] at this
      omega

/-- A loop variable between two integers, as an offset from the first. -/
theorem offset_between (u u1 u2 : Int) (hlo : min u1 u2 ≤ u) (hhi : u ≤ max u1 u2) :
    ((0 : ℚ) ≤ ((u - u1 : Int) : ℚ) ∧ ((u - u1 : Int) : ℚ) ≤ ((u2 - u1 : Int) : ℚ)) ∨
      (((u2 - u1 : Int) : ℚ) ≤ ((u - u1 : Int) : ℚ) ∧ ((u - u1 : Int) : ℚ) ≤ 0) := by
  rcases le_total u1 u2 with h | h
  · rw [min_eq_left h] at hlo
    rw [max_eq_right h] at hhi
    left
    constructor
    · exact_mod_cast (by omega : 0 ≤ u - u1)
    · exact_mod_cast (by omega : u - u1 ≤ u2 - u1)
  · rw [min_eq_right h] at hlo
    rw [max_eq_left h] at hhi
    right
    constructor
    · exact_mod_cast (by omega : u2 - u1 ≤ u - u1)
    · exact_mod_cast (by omega : u - u1 ≤ 0)

/-- In the x loop the row computed in binary32 lies between the rows of the endpoints or
one row above them on the screen, and is not negative. -/
theorem shallow_fl_cell (x1 y1 x2 y2 x : Int)
    (hx1 : 0 ≤ x1 ∧ x1 ≤ 65535) (hy1 : 0 ≤ y1 ∧ y1 ≤ 65535)
    (hx2 : 0 ≤ x2 ∧ x2 ≤ 65535) (hy2 : 0 ≤ y2 ∧ y2 ≤ 65535)
    (hne : x1 ≠ x2) (hlo : min x1 x2 ≤ x) (hhi : x ≤ max x1 x2) :
    min y1 y2 - 1 ≤ to_int (round32 ((y1 : ℚ) +
        round32 (round32 (((y2 : ℚ) - (y1 : ℚ)) / ((x2 : ℚ) - (x1 : ℚ))) * ((x - x1 : Int) : ℚ)))) ∧
      to_int (round32 ((y1 : ℚ) +
        round32 (round32 (((y2 : ℚ) - (y1 : ℚ)) / ((x2 : ℚ) - (x1 : ℚ))) * ((x - x1 : Int) : ℚ)))) ≤
        max y1 y2 ∧
      0 ≤ to_int (round32 ((y1 : ℚ) +
        round32 (round32 (((y2 : ℚ) - (y1 : ℚ)) / ((x2 : ℚ) - (x1 : ℚ))) * ((x - x1 : Int) : ℚ)))) := by
  have hK := slope_mul_run (x2 - x1) (y2 - y1) (by omega)
    (by rw [abs_le]; constructor <;> omega) (by rw [abs_le]; constructor <;> omega)
  have hb := round32_mul_between
    (round32 (((y2 - y1 : Int) : ℚ) / ((x2 - x1 : Int) : ℚ))) _ _ (offset_between x x1 x2 hlo hhi)
  push_cast at hK hb
  exact to_int_round32_add_between y1 y2 hy1.1 hy1.2 hy2.1 hy2.2 _ _ hK
    (by push_cast; exact hb.1) (by push_cast; exact hb.2)

/-- In the y loop the column computed in binary32 lies between the columns of the endpoints
or one column to their left, and is not negative. -/
theorem steep_fl_cell (x1 y1 x2 y2 y : Int)
    (hx1 : 0 ≤ x1 ∧ x1 ≤ 65535) (hy1 : 0 ≤ y1 ∧ y1 ≤ 65535)
    (hx2 : 0 ≤ x2 ∧ x2 ≤ 65535) (hy2 : 0 ≤ y2 ∧ y2 ≤ 65535)
    (hnex : x1 ≠ x2) (hney : y1 ≠ y2) (hlo : min y1 y2 ≤ y) (hhi : y ≤ max y1 y2) :
    min x1 x2 - 1 ≤ to_int (round32 ((x1 : ℚ) +
        round32 (((y - y1 : Int) : ℚ) / round32 (((y2 : ℚ) - (y1 : ℚ)) / ((x2 : ℚ) - (x1 : ℚ)))))) ∧
      to_int (round32 ((x1 : ℚ) +
        round32 (((y - y1 : Int) : ℚ) / round32 (((y2 : ℚ) - (y1 : ℚ)) / ((x2 : ℚ) - (x1 : ℚ)))))) ≤
        max x1 x2 ∧
      0 ≤ to_int (round32 ((x1 : ℚ) +
        round32 (((y - y1 : Int) : ℚ) / round32 (((y2 : ℚ) - (y1 : ℚ)) / ((x2 : ℚ) - (x1 : ℚ)))))) := by
  have hK := rise_div_slope (x2 - x1) (y2 - y1) (by omega) (by omega)
    (by rw [abs_le]; constructor <;> omega) (by rw [abs_le]; constructor <;> omega)
  have hb := round32_mul_between
    (round32 (((y2 - y1 : Int) : ℚ) / ((x2 - x1 : Int) : ℚ)))⁻¹ _ _ (offset_between y y1 y2 hlo hhi)
  rw [← div_eq_inv_mul, ← div_eq_inv_mul] at hb
  push_cast at hK hb
  exact to_int_round32_add_between x1 x2 hx1.1 hx1.2 hx2.1 hx2.2 _ _ hK
    (by push_cast; exact hb.1) (by push_cast; exact hb.2)


/-! ## The compiled rasteriser between two cells of the terminal -/

namespace RoshellGraphics

/-- In binary32 and under either overload of `abs`, every cell visited between two cells of
a terminal of at most 65535 columns and rows lies in the bounding box of the two endpoints
or one cell to the left of it or above it, and has no negative coordinate. -/
theorem line_points_fl_near_bbox (ov : AbsOverload) (g : RoshellGraphics) (pp1 pp2 p : Point)
    (h1 : g.in_terminal (g.fix_frame pp1)) (h2 : g.in_terminal (g.fix_frame pp2))
    (hw : g.term_width_ ≤ 65535) (hh : g.term_height_ ≤ 65535)
    (hp : p ∈ g.line_points_fl round32 ov pp1 pp2) :
    min (g.fix_frame pp1).first (g.fix_frame pp2).first - 1 ≤ p.first ∧
      p.first ≤ max (g.fix_frame pp1).first (g.fix_frame pp2).first ∧
      min (g.fix_frame pp1).second (g.fix_frame pp2).second - 1 ≤ p.second ∧
      p.second ≤ max (g.fix_frame pp1).second (g.fix_frame pp2).second ∧
      0 ≤ p.first ∧ 0 ≤ p.second := by
  unfold line_points_fl at hp
  simp only [] at hp
  rw [put_within_limits_id g _ h1, put_within_limits_id g _ h2] at hp
  generalize g.fix_frame pp1 = P1 at hp h1 ⊢
  generalize g.fix_frame pp2 = P2 at hp h2 ⊢
  obtain ⟨a1, a2, a3, a4⟩ := h1
  obtain ⟨b1, b2, b3, b4⟩ := h2
  have e1 : round32 (P1.first : ℚ) = (P1.first : ℚ) :=
    round32_intCast _ (by rw [abs_of_nonneg a1]; omega)
  have e2 : round32 (P1.second : ℚ) = (P1.second : ℚ) :=
    round32_intCast _ (by rw [abs_of_nonneg a3]; omega)
  have e3 : round32 (P2.first : ℚ) = (P2.first : ℚ) :=
    round32_intCast _ (by rw [abs_of_nonneg b1]; omega)
  have e4 : round32 (P2.second : ℚ) = (P2.second : ℚ) :=
    round32_intCast _ (by rw [abs_of_nonneg b3]; omega)
  have e5 : round32 ((P2.second : ℚ) - (P1.second : ℚ)) = (P2.second : ℚ) - (P1.second : ℚ) := by
    rw [← Int.cast_sub]
    exact round32_intCast _ (by rw [abs_lt]; constructor <;> omega)
  have e6 : round32 ((P2.first : ℚ) - (P1.first : ℚ)) = (P2.first : ℚ) - (P1.first : ℚ) := by
    rw [← Int.cast_sub]
    exact round32_intCast _ (by rw [abs_lt]; constructor <;> omega)
  simp only [e1, e2, e3, e4, e5, e6] at hp
  have hx1 : 0 ≤ P1.first ∧ P1.first ≤ 65535 := ⟨a1, by omega⟩
  have hy1 : 0 ≤ P1.second ∧ P1.second ≤ 65535 := ⟨a3, by omega⟩
  have hx2 : 0 ≤ P2.first ∧ P2.first ≤ 65535 := ⟨b1, by omega⟩
  have hy2 : 0 ≤ P2.second ∧ P2.second ≤ 65535 := ⟨b3, by omega⟩
  split_ifs at hp with hx hy hs hlt hlt
  · simp only [List.mem_map, List.mem_range] at hp
    obtain ⟨k, hk, rfl⟩ := hp
    simp only []
    omega
  · simp only [List.mem_map, List.mem_range] at hp
    obtain ⟨k, hk, rfl⟩ := hp
    simp only []
    omega
  · simp only [List.mem_map, List.mem_range] at hp
    obtain ⟨k, hk, rfl⟩ := hp
    simp only []
    have hlo : min P1.first P2.first ≤ P1.first + (k : Int) := by omega
    have hhi : P1.first + (k : Int) ≤ max P1.first P2.first := by omega
    have ek : round32 ((P1.first + (k : Int) - P1.first : Int) : ℚ) =
        ((P1.first + (k : Int) - P1.first : Int) : ℚ) :=
      round32_intCast _ (by rw [abs_lt]; constructor <;> omega)
    rw [ek]
    have := shallow_fl_cell _ _ _ _ _ hx1 hy1 hx2 hy2 hx hlo hhi
    omega
  · simp only [List.mem_map, List.mem_range] at hp
    obtain ⟨k, hk, rfl⟩ := hp
    simp only []
    have hlo : min P1.first P2.first ≤ P2.first + (k : Int) := by omega
    have hhi : P2.first + (k : Int) ≤ max P1.first P2.first := by omega
    have ek : round32 ((P2.first + (k : Int) - P1.first : Int) : ℚ) =
        ((P2.first + (k : Int) - P1.first : Int) : ℚ) :=
      round32_intCast _ (by rw [abs_lt]; constructor <;> omega)
    rw [ek]
    have := shallow_fl_cell _ _ _ _ _ hx1 hy1 hx2 hy2 hx hlo hhi
    omega
  · simp only [List.mem_map, List.mem_range] at hp
    obtain ⟨k, hk, rfl⟩ := hp
    simp only []
    have hlo : min P1.second P2.second ≤ P1.second + (k : Int) := by omega
    have hhi : P1.second + (k : Int) ≤ max P1.second P2.second := by omega
    have hne : P1.second ≠ P2.second := by omega
    have ek : round32 ((P1.second + (k : Int) - P1.second : Int) : ℚ) =
        ((P1.second + (k : Int) - P1.second : Int) : ℚ) :=
      round32_intCast _ (by rw [abs_lt]; constructor <;> omega)
    rw [ek]
    have := steep_fl_cell _ _ _ _ _ hx1 hy1 hx2 hy2 hx hne hlo hhi
    omega
  · simp only [List.mem_map, List.mem_range] at hp
    obtain ⟨k, hk, rfl⟩ := hp
    simp only []
    have hne : P1.second ≠ P2.second := by
      intro he
      apply hs
      rw [he, sub_self, zero_div, round32_zero]
      cases ov <;> simp [abs_slope_le_one, to_int]
    have hlo : min P1.second P2.second ≤ P2.second + (k : Int) := by omega
    have hhi : P2.second + (k : Int) ≤ max P1.second P2.second := by omega
    have ek : round32 ((P2.second + (k : Int) - P1.second : Int) : ℚ) =
        ((P2.second + (k : Int) - P1.second : Int) : ℚ) :=
      round32_intCast _ (by rw [abs_lt]; constructor <;> omega)
    rw [ek]
    have := steep_fl_cell _ _ _ _ _ hx1 hy1 hx2 hy2 hx hne hlo hhi
    omega

end RoshellGraphics

namespace RoshellGraphics

/-- With exact slope arithmetic and under either overload of `abs`, every visited cell lies
in the bounding box of the two clamped screen endpoints. -/
theorem line_points_fl_exact_bbox (ov : AbsOverload) (g : RoshellGraphics) (pp1 pp2 p : Point)
    (hp : p ∈ g.line_points_fl id ov pp1 pp2) :
    min (g.put_within_limits_ (g.fix_frame pp1)).first
        (g.put_within_limits_ (g.fix_frame pp2)).first ≤ p.first ∧
      p.first ≤ max (g.put_within_limits_ (g.fix_frame pp1)).first
        (g.put_within_limits_ (g.fix_frame pp2)).first ∧
      min (g.put_within_limits_ (g.fix_frame pp1)).second
        (g.put_within_limits_ (g.fix_frame pp2)).second ≤ p.second ∧
      p.second ≤ max (g.put_within_limits_ (g.fix_frame pp1)).second
        (g.put_within_limits_ (g.fix_frame pp2)).second := by
  unfold line_points_fl at hp
  simp only [id] at hp
  generalize g.put_within_limits_ (g.fix_frame pp1) = P1 at hp ⊢
  generalize g.put_within_limits_ (g.fix_frame pp2) = P2 at hp ⊢
  split_ifs at hp with hx hy hs hlt hlt
  · simp only [List.mem_map, List.mem_range] at hp
    obtain ⟨k, hk, rfl⟩ := hp
    simp only []
    omega
  · simp only [List.mem_map, List.mem_range] at hp
    obtain ⟨k, hk, rfl⟩ := hp
    simp only []
    omega
  · simp only [List.mem_map, List.mem_range] at hp
    obtain ⟨k, hk, rfl⟩ := hp
    simp only []
    have hlo : min P1.first P2.first ≤ P1.first + (k : Int) := by omega
    have hhi : P1.first + (k : Int) ≤ max P1.first P2.first := by omega
    exact ⟨hlo, hhi, shallow_cell_bounds _ _ _ _ _ hx hlo hhi⟩
  · simp only [List.mem_map, List.mem_range] at hp
    obtain ⟨k, hk, rfl⟩ := hp
    simp only []
    have hlo : min P1.first P2.first ≤ P2.first + (k : Int) := by omega
    have hhi : P2.first + (k : Int) ≤ max P1.first P2.first := by omega
    exact ⟨hlo, hhi, shallow_cell_bounds _ _ _ _ _ hx hlo hhi⟩
  · simp only [List.mem_map, List.mem_range] at hp
    obtain ⟨k, hk, rfl⟩ := hp
    simp only []
    have hlo : min P1.second P2.second ≤ P1.second + (k : Int) := by omega
    have hhi : P1.second + (k : Int) ≤ max P1.second P2.second := by omega
    have hne : P1.second ≠ P2.second := by omega
    exact ⟨(steep_cell_bounds _ _ _ _ _ hne hlo hhi).1,
      (steep_cell_bounds _ _ _ _ _ hne hlo hhi).2, hlo, hhi⟩
  · simp only [List.mem_map, List.mem_range] at hp
    obtain ⟨k, hk, rfl⟩ := hp
    simp only []
    have hne : P1.second ≠ P2.second := by
      intro he
      apply hs
      rw [he, sub_self, zero_div]
      cases ov <;> simp [abs_slope_le_one, to_int]
    have hlo : min P1.second P2.second ≤ P2.second + (k : Int) := by omega
    have hhi : P2.second + (k : Int) ≤ max P1.second P2.second := by omega
    exact ⟨(steep_cell_bounds _ _ _ _ _ hne hlo hhi).1,
      (steep_cell_bounds _ _ _ _ _ hne hlo hhi).2, hlo, hhi⟩

/-- On a canvas with `width * height` cells, `line_fl` returns when every visited cell is a
cell of the terminal. -/
theorem line_fl_some_of_in_terminal (fl : ℚ → ℚ) (ov : AbsOverload) (g : RoshellGraphics)
    (pp1 pp2 : Point) (c : Char)
    (hb : (g.buffer_.length : Int) = g.term_width_ * g.term_height_)
    (hc : (g.buffer_count_.length : Int) = g.term_width_ * g.term_height_)
    (hin : ∀ p ∈ g.line_points_fl fl ov pp1 pp2, g.in_terminal p) :
    ∃ g1 : RoshellGraphics,
      g.line_fl fl ov pp1 pp2 c = some (g.line_indices_fl fl ov pp1 pp2, g1) := by
  apply line_fl_some
  intro idx hidx
  unfold line_indices_fl at hidx
  obtain ⟨p, hp, rfl⟩ := List.mem_map.mp hidx
  have := encode_point_bounds g p (hin p hp)
  omega

/-- The compiled `line` on the 20 x 10 canvas between the screen points (13, 8) and (0, 1):
at x = 0 the binary32 row is 8 + 0.53846157 * (-13) = 0.9999995 and the cell is (0, 0). -/
theorem line_points_fl_binary32_row_zero (ov : AbsOverload) :
    (⟨0, 0⟩ : Point) ∈ canvas_20x10.line_points_fl round32 ov ⟨3, -3⟩ ⟨-10, 4⟩ := by
  have h1 : canvas_20x10.put_within_limits_ (canvas_20x10.fix_frame ⟨3, -3⟩) = ⟨13, 8⟩ := by decide
  have h2 : canvas_20x10.put_within_limits_ (canvas_20x10.fix_frame ⟨-10, 4⟩) = ⟨0, 1⟩ := by decide
  have e0 : round32 (0 : ℚ) = 0 := round32_zero
  have e1 : round32 (1 : ℚ) = 1 := by simpa using round32_natCast 1 (by norm_num)
  have e7 : round32 (7 : ℚ) = 7 := by simpa using round32_natCast 7 (by norm_num)
  have e8 : round32 (8 : ℚ) = 8 := by simpa using round32_natCast 8 (by norm_num)
  have e13 : round32 (13 : ℚ) = 13 := by simpa using round32_natCast 13 (by norm_num)
  have s : round32 (7 / 13) = 9033886 / 16777216 := by
    rw [round32_eval (7 / 13) (-1) 9033886 (by norm_num [abs_of_pos]) (by norm_num [abs_of_pos])
      (by norm_num) (by unfold round_half_even; norm_num)]
    norm_num
  have hs : abs_slope_le_one ov (4516943 / 8388608) = true := by
    cases ov
    · unfold abs_slope_le_one to_int
      norm_num
    · unfold abs_slope_le_one
      norm_num [abs_of_pos]
  unfold line_points_fl
  rw [h1, h2]
  norm_num [e0, e1, e7, e8, e13, s, round32_neg]
  rw [if_pos hs, List.mem_map]
  refine ⟨0, List.mem_range.mpr (by decide), ?_⟩
  have p : round32 (58720259 / 8388608) = 14680065 / 2097152 := by
    rw [round32_eval _ 2 14680065 (by norm_num [abs_of_pos]) (by norm_num [abs_of_pos])
      (by norm_num) (by unfold round_half_even; norm_num)]
    norm_num
  have q : round32 (2097151 / 2097152) = 2097151 / 2097152 := by
    have := round32_dyadic 2097151 21 (by norm_num) (by norm_num)
    norm_num at this ⊢
    exact this
  have t : to_int (2097151 / 2097152) = 0 := by
    unfold to_int
    norm_num
  have c1 : (4516943 / 8388608 : ℚ) * -13 = -(58720259 / 8388608) := by norm_num
  have c2 : (8 : ℚ) + -(14680065 / 2097152) = 2097151 / 2097152 := by norm_num
  norm_num [e13, round32_neg, c1, p, c2, q, t]

end RoshellGraphics

namespace RoshellGraphics

/-- Claim C21 fails: on the 20 x 10 canvas the natural points (3, -3) and (-10, 4) have the
screen images (13, 8) and (0, 1), both cells of the terminal, and the compiled `line`
(binary32, either overload of `abs`) returns a list that contains the index 0; it decodes
to the cell (0, 0), whose row 0 is outside the rows 1..8 of the bounding box of the two
endpoints. -/
theorem C21_binary32_cell_outside_bounding_box :
    canvas_20x10.in_terminal (canvas_20x10.fix_frame ⟨3, -3⟩) ∧
      canvas_20x10.in_terminal (canvas_20x10.fix_frame ⟨-10, 4⟩) ∧
      canvas_20x10.fix_frame ⟨3, -3⟩ = ⟨13, 8⟩ ∧
      canvas_20x10.fix_frame ⟨-10, 4⟩ = ⟨0, 1⟩ ∧
      (∃ (ind : List Int) (g1 : RoshellGraphics),
        canvas_20x10.line_fl round32 AbsOverload.int_abs ⟨3, -3⟩ ⟨-10, 4⟩ ' ' = some (ind, g1) ∧
          (0 : Int) ∈ ind) ∧
      (∃ (ind : List Int) (g1 : RoshellGraphics),
        canvas_20x10.line_fl round32 AbsOverload.float_abs ⟨3, -3⟩ ⟨-10, 4⟩ ' ' = some (ind, g1) ∧
          (0 : Int) ∈ ind) ∧
      canvas_20x10.decode_index_ 0 = some ⟨0, 0⟩ ∧
      ¬ (min (canvas_20x10.fix_frame ⟨3, -3⟩).second (canvas_20x10.fix_frame ⟨-10, 4⟩).second ≤
        (⟨0, 0⟩ : Point).second) := by
  have key : ∀ ov : AbsOverload, ∃ (ind : List Int) (g1 : RoshellGraphics),
      canvas_20x10.line_fl round32 ov ⟨3, -3⟩ ⟨-10, 4⟩ ' ' = some (ind, g1) ∧ (0 : Int) ∈ ind := by
    intro ov
    obtain ⟨g1, hg1⟩ := line_fl_some_of_in_terminal round32 ov canvas_20x10 ⟨3, -3⟩ ⟨-10, 4⟩ ' '
      canvas_20x10_buffer_length canvas_20x10_count_length (by
        intro p hp
        have hb := line_points_fl_near_bbox ov canvas_20x10 ⟨3, -3⟩ ⟨-10, 4⟩ p (by decide)
          (by decide) (by decide) (by decide) hp
        have e1 : canvas_20x10.fix_frame ⟨3, -3⟩ = ⟨13, 8⟩ := by decide
        have e2 : canvas_20x10.fix_frame ⟨-10, 4⟩ = ⟨0, 1⟩ := by decide
        rw [e1, e2] at hb
        simp only [] at hb
        have w : canvas_20x10.term_width_ = 20 := rfl
        have h : canvas_20x10.term_height_ = 10 := rfl
        unfold in_terminal
        rw [w, h]
        omega)
    refine ⟨_, g1, hg1, ?_⟩
    unfold line_indices_fl
    exact List.mem_map.mpr ⟨⟨0, 0⟩, line_points_fl_binary32_row_zero ov, by decide⟩
  exact ⟨by decide, by decide, by decide, by decide, key AbsOverload.int_abs,
    key AbsOverload.float_abs, by decide, by decide⟩

/-- Claim C21 as amended: for two natural points whose screen images are cells of a
terminal of at most 65535 columns and rows, the compiled `line` (binary32, either overload
of `abs`) returns, and every index it returns lies in [0, width * height) and decodes to a
cell of the terminal that lies in the axis-aligned bounding box of the two screen endpoints
or one cell to the left of it or above it; with the slope arithmetic taken exactly every
index decodes to a cell inside the bounding box. -/
theorem C21_indices_in_range_near_bounding_box (g : RoshellGraphics) (pp1 pp2 : Point)
    (c : Char) (ov : AbsOverload)
    (hb : (g.buffer_.length : Int) = g.term_width_ * g.term_height_)
    (hc : (g.buffer_count_.length : Int) = g.term_width_ * g.term_height_)
    (h1 : g.in_terminal (g.fix_frame pp1)) (h2 : g.in_terminal (g.fix_frame pp2))
    (hw : g.term_width_ ≤ 65535) (hh : g.term_height_ ≤ 65535) :
    (∃ (ind : List Int) (g1 : RoshellGraphics),
      g.line_fl round32 ov pp1 pp2 c = some (ind, g1) ∧
      ∀ idx ∈ ind,
        0 ≤ idx ∧ idx < g.term_width_ * g.term_height_ ∧
        ∃ p : Point, g.decode_index_ idx = some p ∧ g.in_terminal p ∧
          min (g.fix_frame pp1).first (g.fix_frame pp2).first - 1 ≤ p.first ∧
          p.first ≤ max (g.fix_frame pp1).first (g.fix_frame pp2).first ∧
          min (g.fix_frame pp1).second (g.fix_frame pp2).second - 1 ≤ p.second ∧
          p.second ≤ max (g.fix_frame pp1).second (g.fix_frame pp2).second) ∧
      ∃ (ind : List Int) (g1 : RoshellGraphics),
        g.line_fl id ov pp1 pp2 c = some (ind, g1) ∧
        ∀ idx ∈ ind,
          0 ≤ idx ∧ idx < g.term_width_ * g.term_height_ ∧
          ∃ p : Point, g.decode_index_ idx = some p ∧
            min (g.fix_frame pp1).first (g.fix_frame pp2).first ≤ p.first ∧
            p.first ≤ max (g.fix_frame pp1).first (g.fix_frame pp2).first ∧
            min (g.fix_frame pp1).second (g.fix_frame pp2).second ≤ p.second ∧
            p.second ≤ max (g.fix_frame pp1).second (g.fix_frame pp2).second := by
  obtain ⟨a1, a2, a3, a4⟩ := h1
  obtain ⟨b1, b2, b3, b4⟩ := h2
  have hnear : ∀ p ∈ g.line_points_fl round32 ov pp1 pp2, g.in_terminal p := by
    intro p hp
    have := line_points_fl_near_bbox ov g pp1 pp2 p ⟨a1, a2, a3, a4⟩ ⟨b1, b2, b3, b4⟩ hw hh hp
    unfold in_terminal
    omega
  have hbox : ∀ p ∈ g.line_points_fl id ov pp1 pp2,
      min (g.fix_frame pp1).first (g.fix_frame pp2).first ≤ p.first ∧
      p.first ≤ max (g.fix_frame pp1).first (g.fix_frame pp2).first ∧
      min (g.fix_frame pp1).second (g.fix_frame pp2).second ≤ p.second ∧
      p.second ≤ max (g.fix_frame pp1).second (g.fix_frame pp2).second := by
    intro p hp
    have := line_points_fl_exact_bbox ov g pp1 pp2 p hp
    rwa [put_within_limits_id g _ ⟨a1, a2, a3, a4⟩, put_within_limits_id g _ ⟨b1, b2, b3, b4⟩]
      at this
  have hexact : ∀ p ∈ g.line_points_fl id ov pp1 pp2, g.in_terminal p := by
    intro p hp
    have := hbox p hp
    unfold in_terminal
    omega
  constructor
  · obtain ⟨g1, hg1⟩ := line_fl_some_of_in_terminal round32 ov g pp1 pp2 c hb hc hnear
    refine ⟨_, g1, hg1, ?_⟩
    intro idx hidx
    unfold line_indices_fl at hidx
    obtain ⟨p, hp, rfl⟩ := List.mem_map.mp hidx
    have hin := hnear p hp
    have hbd := encode_point_bounds g p hin
    have hnb := line_points_fl_near_bbox ov g pp1 pp2 p ⟨a1, a2, a3, a4⟩ ⟨b1, b2, b3, b4⟩ hw hh hp
    exact ⟨hbd.1, hbd.2, p,
      decode_encode_of_in_terminal g p (lt_of_le_of_lt hin.1 hin.2.1) hin.1 hin.2.1 hin.2.2.1
        hin.2.2.2, hin, hnb.1, hnb.2.1, hnb.2.2.1, hnb.2.2.2.1⟩
  · obtain ⟨g1, hg1⟩ := line_fl_some_of_in_terminal id ov g pp1 pp2 c hb hc hexact
    refine ⟨_, g1, hg1, ?_⟩
    intro idx hidx
    unfold line_indices_fl at hidx
    obtain ⟨p, hp, rfl⟩ := List.mem_map.mp hidx
    have hin := hexact p hp
    have hbd := encode_point_bounds g p hin
    exact ⟨hbd.1, hbd.2, p,
      decode_encode_of_in_terminal g p (lt_of_le_of_lt hin.1 hin.2.1) hin.1 hin.2.1 hin.2.2.1
        hin.2.2.2, hbox p hp⟩

/-- Claim C21 as amended, at the segment between the natural points (3, -3) and (-10, 4) of
the 20 x 10 canvas, as the header compiles on its own. -/
theorem C21_indices_in_range_near_bounding_box_witness :
    (∃ (ind : List Int) (g1 : RoshellGraphics),
      canvas_20x10.line_fl round32 AbsOverload.int_abs ⟨3, -3⟩ ⟨-10, 4⟩ '#' = some (ind, g1) ∧
      ∀ idx ∈ ind,
        0 ≤ idx ∧ idx < canvas_20x10.term_width_ * canvas_20x10.term_height_ ∧
        ∃ p : Point, canvas_20x10.decode_index_ idx = some p ∧ canvas_20x10.in_terminal p ∧
          min (canvas_20x10.fix_frame ⟨3, -3⟩).first (canvas_20x10.fix_frame ⟨-10, 4⟩).first - 1 ≤
            p.first ∧
          p.first ≤
            max (canvas_20x10.fix_frame ⟨3, -3⟩).first (canvas_20x10.fix_frame ⟨-10, 4⟩).first ∧
          min (canvas_20x10.fix_frame ⟨3, -3⟩).second (canvas_20x10.fix_frame ⟨-10, 4⟩).second - 1 ≤
            p.second ∧
          p.second ≤
            max (canvas_20x10.fix_frame ⟨3, -3⟩).second (canvas_20x10.fix_frame ⟨-10, 4⟩).second) ∧
      ∃ (ind : List Int) (g1 : RoshellGraphics),
        canvas_20x10.line_fl id AbsOverload.int_abs ⟨3, -3⟩ ⟨-10, 4⟩ '#' = some (ind, g1) ∧
        ∀ idx ∈ ind,
          0 ≤ idx ∧ idx < canvas_20x10.term_width_ * canvas_20x10.term_height_ ∧
          ∃ p : Point, canvas_20x10.decode_index_ idx = some p ∧
            min (canvas_20x10.fix_frame ⟨3, -3⟩).first (canvas_20x10.fix_frame ⟨-10, 4⟩).first ≤
              p.first ∧
            p.first ≤
              max (canvas_20x10.fix_frame ⟨3, -3⟩).first (canvas_20x10.fix_frame ⟨-10, 4⟩).first ∧
            min (canvas_20x10.fix_frame ⟨3, -3⟩).second (canvas_20x10.fix_frame ⟨-10, 4⟩).second ≤
              p.second ∧
            p.second ≤
              max (canvas_20x10.fix_frame ⟨3, -3⟩).second
                (canvas_20x10.fix_frame ⟨-10, 4⟩).second :=
  C21_indices_in_range_near_bounding_box canvas_20x10 ⟨3, -3⟩ ⟨-10, 4⟩ '#' AbsOverload.int_abs
    canvas_20x10_buffer_length canvas_20x10_count_length (by decide) (by decide) (by decide)
    (by decide)

end RoshellGraphics

end roshell_graphics
